import Mathlib

/-!
# InfiniTensor (tiny) core: allocator, graph, topological sort, planner

A shallow embedding of `src/core/allocator.cc` and `src/core/graph.cc`.

* `size_t` values are natural numbers below `2 ^ 64`; every arithmetic
  operation of the source on `size_t` is written with an explicit reduction
  modulo `2 ^ 64` (`szAdd`, `szSub`, `szMul`).
* `std::set<Block>` is a list kept in the strict order given by
  `Block::operator<`; `setInsert`, `lowerBound` and `List.erase` stand for
  `insert`, `lower_bound` and `erase`.
* `IT_ASSERT` throws: a function that can hit a failing assertion returns
  `Option`, `none` being the thrown exception.
-/

namespace infini

/-! ## Machine arithmetic on `size_t` -/

/-- Number of values of `size_t` (64-bit). -/
def sizeMod : Nat := 2 ^ 64

/-- Addition on `size_t`. -/
def szAdd (a b : Nat) : Nat := (a + b) % sizeMod

/-- Subtraction on `size_t` (wraps around below zero). -/
def szSub (a b : Nat) : Nat := (a % sizeMod + sizeMod - b % sizeMod) % sizeMod

/-- Multiplication on `size_t`. -/
def szMul (a b : Nat) : Nat := (a * b) % sizeMod

/-! ## Allocator (`include/core/allocator.h`, `src/core/allocator.cc`) -/

/-- The struct `Allocator::Block`. -/
structure Block where
  begin : Nat
  size : Nat
deriving DecidableEq, Repr

/-- The comparison `Block::operator<`: by size, then by begin. -/
def Block.lt (a b : Block) : Bool :=
  if a.size ≠ b.size then decide (a.size < b.size) else decide (a.begin < b.begin)

/-- The method `std::set<Block>::insert`: the set is a list in increasing
order; an element equivalent to one already present is not inserted. -/
def setInsert (b : Block) : List Block → List Block
  | [] => [b]
  | x :: xs =>
    if Block.lt b x then b :: x :: xs
    else if Block.lt x b then x :: setInsert b xs
    else x :: xs

/-- The method `std::set<Block>::lower_bound`: the first element, in set
order, that is not less than the key (`none` is `end()`). -/
def lowerBound (frees : List Block) (key : Block) : Option Block :=
  frees.find? (fun x => !Block.lt x key)

/-- The scan of `Allocator::alloc`, lines 49-54: starting from `k`, walk the
set in order and move `k` to every element whose begin is strictly larger. -/
def lastByBegin (k : Block) : List Block → Block
  | [] => k
  | i :: rest => if k.begin < i.begin then lastByBegin i rest else lastByBegin k rest

/-- The planning state of `class Allocator`; `ptr = none` is `nullptr`. -/
structure Allocator where
  used : Nat
  peak : Nat
  alignment : Nat
  ptr : Option Nat
  frees : List Block
deriving DecidableEq, Repr

/-- The constructor `Allocator::Allocator`; `sizeof(uint64_t)` is 8. -/
def Allocator.fresh : Allocator :=
  { used := 0, peak := 0, alignment := 8, ptr := none, frees := [] }

/-- The method `Allocator::getAlignedSize`:
`((size - 1) / alignment + 1) * alignment` on `size_t`. -/
def Allocator.getAlignedSize (a : Allocator) (size : Nat) : Nat :=
  szMul (szAdd (szSub size 1 / a.alignment) 1) a.alignment

/-- The method `Allocator::alloc`. Returns the offset and the new state, or
`none` when `IT_ASSERT(this->ptr == nullptr)` fails. -/
def Allocator.alloc (a : Allocator) (size : Nat) : Option (Nat × Allocator) :=
  if a.ptr ≠ none then none
  else
    let size := a.getAlignedSize size
    let used := szAdd a.used size
    match lowerBound a.frees ⟨0, size⟩ with
    | some blk =>
      let pos := blk.begin
      let frees := a.frees.erase blk
      -- still got some space available
      let frees :=
        if blk.size < size then
          setInsert ⟨szAdd blk.begin size, szSub blk.size size⟩ frees
        else frees
      some (pos, { a with used := used, frees := frees })
    | none =>
      match a.frees with
      | k0 :: rest =>
        -- extend the last free block
        let blk := lastByBegin k0 rest
        let frees := a.frees.erase blk
        let pos := blk.begin
        let peak := max a.peak (szSub (szAdd pos size) blk.size)
        some (pos, { a with used := used, peak := peak, frees := frees })
      | [] =>
        let pos := a.peak
        some (pos, { a with used := used, peak := szAdd a.peak size })

/-- The method `Allocator::free`; `none` when the assertion fails. -/
def Allocator.free (a : Allocator) (addr size : Nat) : Option Allocator :=
  if a.ptr ≠ none then none
  else
    let size := a.getAlignedSize size
    some { a with used := szSub a.used size, frees := setInsert ⟨addr, size⟩ a.frees }

/-- One call made by a client of the allocator. -/
inductive Call where
  | alloc (size : Nat)
  | free (addr size : Nat)
deriving DecidableEq, Repr

/-- A block handed out by `alloc` and not yet given back: its offset and the
aligned size reserved for it. -/
abbrev Live := Nat × Nat

/-- Run a sequence of calls, keeping the list of live blocks: `alloc` adds the
returned offset with its aligned size, `free` removes the block it releases. -/
def runCalls : Allocator → List Live → List Call → Option (Allocator × List Live)
  | a, live, [] => some (a, live)
  | a, live, Call.alloc size :: cs =>
    match a.alloc size with
    | none => none
    | some (pos, a1) => runCalls a1 (live ++ [(pos, a.getAlignedSize size)]) cs
  | a, live, Call.free addr size :: cs =>
    match a.free addr size with
    | none => none
    | some a1 => runCalls a1 (live.erase (addr, a.getAlignedSize size)) cs

/-- Each `free(addr, size)` of the sequence releases a block that an earlier
`alloc(size)` returned at `addr` and that is still live. -/
def disciplined : Allocator → List Live → List Call → Bool
  | _, _, [] => true
  | a, live, Call.alloc size :: cs =>
    match a.alloc size with
    | none => false
    | some (pos, a1) => disciplined a1 (live ++ [(pos, a.getAlignedSize size)]) cs
  | a, live, Call.free addr size :: cs =>
    decide ((addr, a.getAlignedSize size) ∈ live) &&
    match a.free addr size with
    | none => false
    | some a1 => disciplined a1 (live.erase (addr, a.getAlignedSize size)) cs

/-- The intervals `[a, a + sa)` and `[b, b + sb)` are disjoint. -/
def disjointBlocks (x y : Live) : Bool :=
  decide (x.1 + x.2 ≤ y.1) || decide (y.1 + y.2 ≤ x.1)

/-- Run `alloc` on each size in turn, collecting the returned offsets. -/
def allocAll : Allocator → List Nat → Option (List Nat × Allocator)
  | a, [] => some ([], a)
  | a, s :: ss =>
    match a.alloc s with
    | none => none
    | some (pos, a1) =>
      match allocAll a1 ss with
      | none => none
      | some (offs, a2) => some (pos :: offs, a2)

/-- The least multiple of 8 that is at least `s`: the size a request of `s`
bytes is rounded up to. -/
def alignedUp (s : Nat) : Nat := (s + 7) / 8 * 8

/-! ## Handles and objects (`core/tensor.h`, `core/operator.h`: declarations only)

`Tensor` and `Operator` are reference-counted pointers; the embedding uses
natural numbers as handles, resolved through the two object tables carried by
`GraphObj`. Pointer equality is equality of handles. -/

/-- A handle of a `TensorObj` (a non-null `Tensor`). -/
abbrev TensorId := Nat

/-- A handle of an `OperatorObj` (a non-null `Operator`). -/
abbrev OpId := Nat

/-- The type `Shape` (`vector<int>`). -/
abbrev Shape := List Int

/-- The dynamic class of an operator object with its class-specific members:
`TransposeObj` carries its permutation, `MatmulObj` its two flags. Every
other opcode carries none. -/
inductive OpKind where
  | transpose (perm : List Int)
  | matmul (transA transB : Bool)
  | other (code : Nat)
deriving DecidableEq, Repr

/-- The opcodes `OpType::Transpose`, `OpType::MatMul`, and the rest. -/
inductive OpType where
  | Transpose
  | MatMul
  | Other (code : Nat)
deriving DecidableEq, Repr

/-- Modelled from the spec: the members of `TensorObj` (core/tensor.h is not
among the sources): the forwarded identity, the shape, the size of one element
of the element type, the producing operator (`none` is a null source), the
set of consuming operators, and the assigned storage address once planned. -/
structure TensorObj where
  fuid : Nat
  dims : Shape
  dtypeSize : Nat
  source : Option OpId
  targets : List OpId
  data : Option Nat
deriving DecidableEq, Repr

/-- Modelled from the spec: the members of `OperatorObj` (core/operator.h is
not among the sources): opcode with payload, the ordered input and output
tensors, and the sets of predecessor and successor operators. The input and
output vectors hold non-null tensors: `topo_sort`, `dataMalloc` and
`optimize` dereference them without a test. -/
structure OperatorObj where
  kind : OpKind
  inputs : List TensorId
  outputs : List TensorId
  predecessors : List OpId
  successors : List OpId
deriving DecidableEq, Repr

/-- The method `OperatorObj::getOpType`. -/
def OperatorObj.getOpType (o : OperatorObj) : OpType :=
  match o.kind with
  | .transpose _ => OpType.Transpose
  | .matmul _ _ => OpType.MatMul
  | .other c => OpType.Other c

/-- Modelled from the spec: `TensorObj::getBytes` (core/tensor.h is not among
the sources): bytes = product(shape) × sizeof(dtype), as a `size_t`. -/
def TensorObj.getBytes (t : TensorObj) : Nat :=
  szMul (t.dims.prod.toNat % sizeMod) t.dtypeSize

/-- Modelled from the spec: the runtime (core/runtime.h is not among the
sources), a provider of backing memory: `alloc(bytes) -> raw_ptr`. The state
records the address handed out next and every request served so far. -/
structure RuntimeObj where
  nextPtr : Nat
  served : List (Nat × Nat)
deriving DecidableEq, Repr

/-- Modelled from the spec: `runtime->alloc(bytes)`, returning a fresh
non-null address. -/
def RuntimeObj.alloc (r : RuntimeObj) (bytes : Nat) : Nat × RuntimeObj :=
  (r.nextPtr, { nextPtr := r.nextPtr + bytes + 1, served := r.served ++ [(r.nextPtr, bytes)] })

/-- The method `Allocator::getPtr`: the first call asks the runtime for
`peak` bytes, later calls return the stored pointer. -/
def Allocator.getPtr (a : Allocator) (r : RuntimeObj) : Nat × Allocator × RuntimeObj :=
  match a.ptr with
  | none =>
    let (p, r1) := r.alloc a.peak
    (p, { a with ptr := some p }, r1)
  | some p => (p, a, r)

/-- The members of `GraphObj`, together with the two object tables that
resolve handles and the counters that give `make_ref` fresh handles. -/
structure GraphObj where
  tensors : List TensorId
  ops : List OpId
  sorted : Bool
  allocator : Allocator
  runtime : RuntimeObj
  tensorOf : TensorId → TensorObj
  opOf : OpId → OperatorObj
  nextTensor : TensorId
  nextOp : OpId

/-- Overwrite the tensor object behind handle `t`. -/
def GraphObj.setTensor (g : GraphObj) (t : TensorId) (obj : TensorObj) : GraphObj :=
  { g with tensorOf := fun j => if j = t then obj else g.tensorOf j }

/-- Overwrite the operator object behind handle `o`. -/
def GraphObj.setOp (g : GraphObj) (o : OpId) (obj : OperatorObj) : GraphObj :=
  { g with opOf := fun j => if j = o then obj else g.opOf j }

/-- Insertion into an unordered set of handles. -/
def setAdd (x : Nat) (xs : List Nat) : List Nat :=
  if x ∈ xs then xs else xs ++ [x]

/-- Modelled from the spec: `TensorObj::addTarget` (core/tensor.h is not among
the sources): adds op to the tensor's set of consuming operators. -/
def GraphObj.addTarget (g : GraphObj) (t : TensorId) (op : OpId) : GraphObj :=
  g.setTensor t { g.tensorOf t with targets := setAdd op (g.tensorOf t).targets }

/-- Modelled from the spec: `TensorObj::removeTarget` (core/tensor.h is not
among the sources): removes op from the tensor's set of consuming operators. -/
def GraphObj.removeTarget (g : GraphObj) (t : TensorId) (op : OpId) : GraphObj :=
  g.setTensor t { g.tensorOf t with targets := (g.tensorOf t).targets.filter (fun x => x ≠ op) }

/-- Modelled from the spec: `TensorObj::setSource` (core/tensor.h is not among
the sources): sets the producing operator. -/
def GraphObj.setSource (g : GraphObj) (t : TensorId) (op : Option OpId) : GraphObj :=
  g.setTensor t { g.tensorOf t with source := op }

/-- Modelled from the spec: `OperatorObj::addPredecessors` (core/operator.h is
not among the sources): adds `p` to the predecessor set of `o`. -/
def GraphObj.addPredecessors (g : GraphObj) (o p : OpId) : GraphObj :=
  g.setOp o { g.opOf o with predecessors := setAdd p (g.opOf o).predecessors }

/-- Modelled from the spec: `OperatorObj::addSuccessors` (core/operator.h is
not among the sources): adds `s` to the successor set of `o`. -/
def GraphObj.addSuccessors (g : GraphObj) (o s : OpId) : GraphObj :=
  g.setOp o { g.opOf o with successors := setAdd s (g.opOf o).successors }

/-- Modelled from the spec: `OperatorObj::removePredecessors` (core/operator.h
is not among the sources): removes `p` from the predecessor set of `o`. -/
def GraphObj.removePredecessors (g : GraphObj) (o p : OpId) : GraphObj :=
  g.setOp o { g.opOf o with predecessors := (g.opOf o).predecessors.filter (fun x => x ≠ p) }

/-- Modelled from the spec: `OperatorObj::removeSuccessors` (core/operator.h
is not among the sources): removes `s` from the successor set of `o`. -/
def GraphObj.removeSuccessors (g : GraphObj) (o s : OpId) : GraphObj :=
  g.setOp o { g.opOf o with successors := (g.opOf o).successors.filter (fun x => x ≠ s) }

/-! ## `GraphObj::addOperatorAndConnect` (`src/core/graph.cc`, lines 19-40) -/

/-- The body of the loop over the inputs, lines 23-29. -/
def connectInput (op : OpId) (g : GraphObj) (input : TensorId) : GraphObj :=
  let g1 := g.addTarget input op
  match (g1.tensorOf input).source with
  | some pred => (g1.addSuccessors pred op).addPredecessors op pred
  | none => g1

/-- The body of the loop over the targets of an output, lines 35-36. -/
def connectSucc (op : OpId) (g : GraphObj) (succ : OpId) : GraphObj :=
  (g.addPredecessors succ op).addSuccessors op succ

/-- The body of the loop over the outputs, lines 32-38. -/
def connectOutput (op : OpId) (g : GraphObj) (output : TensorId) : GraphObj :=
  let g1 := g.setSource output (some op)
  (g1.tensorOf output).targets.foldl (connectSucc op) g1

/-- The method `GraphObj::addOperatorAndConnect`. -/
def GraphObj.addOperatorAndConnect (g : GraphObj) (op : OpId) : GraphObj :=
  let g0 := { g with sorted := false, ops := g.ops ++ [op] }
  let g1 := (g0.opOf op).inputs.foldl (connectInput op) g0
  (g1.opOf op).outputs.foldl (connectOutput op) g1

/-! ## `GraphObj::checkValid` (`src/core/graph.cc`, lines 367-401) -/

/-- The three assertions of the first loop for one tensor, lines 369-375. -/
def checkTensor (g : GraphObj) (tensor : TensorId) : Bool :=
  let t := g.tensorOf tensor
  !(t.targets.length == 0 && t.source == none) &&
  t.targets.all (fun op => decide (op ∈ g.ops)) &&
  (match t.source with
   | some op => decide (op ∈ g.ops)
   | none => true)

/-- The four assertions of the second loop for one operator, lines 378-391. -/
def checkOp (g : GraphObj) (op : OpId) : Bool :=
  let o := g.opOf op
  o.inputs.all (fun tensor => decide (tensor ∈ g.tensors)) &&
  o.outputs.all (fun tensor => decide (tensor ∈ g.tensors)) &&
  o.predecessors.all (fun pre => decide (pre ∈ g.ops)) &&
  o.successors.all (fun suc => decide (suc ∈ g.ops))

/-- The third loop, lines 393-399: scanning the tensors in order, no FUID has
been seen before. -/
def checkFuids (g : GraphObj) : List Nat → List TensorId → Bool
  | _, [] => true
  | seen, tensor :: rest =>
    let f := (g.tensorOf tensor).fuid
    !(decide (f ∈ seen)) && checkFuids g (f :: seen) rest

/-- The method `GraphObj::checkValid`: `true` when it returns (it can only
return `true`), `false` when one of its assertions fails. -/
def GraphObj.checkValid (g : GraphObj) : Bool :=
  g.tensors.all (checkTensor g) && g.ops.all (checkOp g) && checkFuids g [] g.tensors

/-! ## `GraphObj::topo_sort` (`src/core/graph.cc`, lines 63-93) -/

/-- The condition of lines 75-81 for one operator: it is not flagged, and the
source of each input is null or flagged. -/
def opReady (g : GraphObj) (flags : List OpId) (op : OpId) : Bool :=
  !(decide (op ∈ flags)) &&
  (g.opOf op).inputs.all (fun input =>
    match (g.tensorOf input).source with
    | none => true
    | some ptr => decide (ptr ∈ flags))

/-- The state of the loops of `topo_sort`: the vector `sorted`, the set
`flags`, and the local `modified`. -/
structure TopoState where
  sorted : List OpId
  flags : List OpId
  modified : Bool
deriving DecidableEq, Repr

/-- One pass of the inner loop, lines 74-86, over the operators still to be
visited in this pass. -/
def topoPass (g : GraphObj) : List OpId → TopoState → TopoState
  | [], st => st
  | op :: rest, st =>
    if opReady g st.flags op then
      topoPass g rest { sorted := st.sorted ++ [op], flags := op :: st.flags, modified := true }
    else topoPass g rest st

/-- How the while loop of `topo_sort` ends. -/
inductive TopoResult where
  | done (sorted : List OpId)
  | stuck
  | outOfFuel
deriving DecidableEq, Repr

/-- The while loop, lines 71-90; `fuel` bounds the number of passes. -/
def topoLoop (g : GraphObj) : Nat → List OpId → List OpId → TopoResult
  | fuel, sorted, flags =>
    if sorted.length < g.ops.length then
      match fuel with
      | 0 => TopoResult.outOfFuel
      | fuel + 1 =>
        let st := topoPass g g.ops { sorted := sorted, flags := flags, modified := false }
        if !st.modified then TopoResult.stuck
        else topoLoop g fuel st.sorted st.flags
    else TopoResult.done sorted

/-- The method `GraphObj::topo_sort`: the returned flag and the graph
afterwards. Every pass that does not end the loop admits an operator, so
`ops.size()` passes are enough (`topoLoop_fuel`). -/
def GraphObj.topo_sort (g : GraphObj) : Bool × GraphObj :=
  if g.sorted then (true, g)
  else
    match topoLoop g g.ops.length [] [] with
    | TopoResult.done sorted => (true, { g with ops := sorted, sorted := true })
    | _ => (false, g)

/-! ## Specification vocabulary for `topo_sort` -/

/-- Producers come first: the source of every input of the operator at
position `i` occurs among the first `i` operators. -/
def ProducersFirst (g : GraphObj) (l : List OpId) : Prop :=
  ∀ (i : Nat) (hi : i < l.length), ∀ t ∈ (g.opOf l[i]).inputs, ∀ s,
    (g.tensorOf t).source = some s → ∃ (j : Nat) (hj : j < l.length), j < i ∧ l[j] = s

/-- The invariant of the loops of `topo_sort`. -/
structure TopoInv (g : GraphObj) (sorted flags : List OpId) : Prop where
  flags_iff : ∀ x, x ∈ flags ↔ x ∈ sorted
  nodup : sorted.Nodup
  sub : ∀ x ∈ sorted, x ∈ g.ops
  first : ProducersFirst g sorted

/-- The producer-consumer dependency among the operators of the graph:
`s` produces an input of `o`. -/
def dep (g : GraphObj) (s o : OpId) : Prop :=
  s ∈ g.ops ∧ o ∈ g.ops ∧ ∃ t ∈ (g.opOf o).inputs, (g.tensorOf t).source = some s

/-- The dependency relation contains a cycle. -/
def HasCycle (g : GraphObj) : Prop := ∃ o, Relation.TransGen (dep g) o o

/-- The sequence `r` is a topological order of the operators of `g`. -/
def TopoOrder (g : GraphObj) (r : List OpId) : Prop :=
  r.Perm g.ops ∧ ProducersFirst g r

/-! ## Sample graphs -/

/-- The tensor object behind a handle that no sample graph uses. -/
def blankTensor : TensorObj :=
  { fuid := 0, dims := [], dtypeSize := 0, source := none, targets := [], data := none }

/-- The operator object behind a handle that no sample graph uses. -/
def blankOp : OperatorObj :=
  { kind := OpKind.other 0, inputs := [], outputs := [], predecessors := [], successors := [] }

/-- The chain `t0 -> op0 -> t1 -> op1 -> t2` with the consumer `op1` listed
before its producer `op0`. -/
def reversedPair : GraphObj :=
  { tensors := [0, 1, 2], ops := [1, 0], sorted := false,
    allocator := Allocator.fresh, runtime := { nextPtr := 4096, served := [] },
    tensorOf := fun t =>
      match t with
      | 0 => { fuid := 0, dims := [2], dtypeSize := 4, source := none, targets := [0], data := none }
      | 1 => { fuid := 1, dims := [2], dtypeSize := 4, source := some 0, targets := [1], data := none }
      | 2 => { fuid := 2, dims := [2], dtypeSize := 4, source := some 1, targets := [], data := none }
      | _ => blankTensor,
    opOf := fun o =>
      match o with
      | 0 => { kind := OpKind.other 0, inputs := [0], outputs := [1],
               predecessors := [], successors := [1] }
      | 1 => { kind := OpKind.other 0, inputs := [1], outputs := [2],
               predecessors := [0], successors := [] }
      | _ => blankOp,
    nextTensor := 3, nextOp := 2 }

/-- Two operators that feed each other: `op0` reads `t1` and writes `t0`,
`op1` reads `t0` and writes `t1`. -/
def feedbackPair : GraphObj :=
  { tensors := [0, 1], ops := [0, 1], sorted := false,
    allocator := Allocator.fresh, runtime := { nextPtr := 4096, served := [] },
    tensorOf := fun t =>
      match t with
      | 0 => { fuid := 0, dims := [2], dtypeSize := 4, source := some 0, targets := [1], data := none }
      | 1 => { fuid := 1, dims := [2], dtypeSize := 4, source := some 1, targets := [0], data := none }
      | _ => blankTensor,
    opOf := fun o =>
      match o with
      | 0 => { kind := OpKind.other 0, inputs := [1], outputs := [0],
               predecessors := [1], successors := [1] }
      | 1 => { kind := OpKind.other 0, inputs := [0], outputs := [1],
               predecessors := [0], successors := [0] }
      | _ => blankOp,
    nextTensor := 2, nextOp := 2 }

/-! ## The invariants of the data model -/

/-- No orphans: every tensor of the graph has a producing operator in `ops`
or at least one consumer in `ops`. -/
def NoOrphan (g : GraphObj) : Prop :=
  ∀ t ∈ g.tensors, (∃ s, (g.tensorOf t).source = some s ∧ s ∈ g.ops) ∨
    (∃ c ∈ (g.tensorOf t).targets, c ∈ g.ops)

/-- The source and the targets of every tensor of the graph are in `ops`. -/
def TensorEdgesInOps (g : GraphObj) : Prop :=
  ∀ t ∈ g.tensors, (∀ c ∈ (g.tensorOf t).targets, c ∈ g.ops) ∧
    (∀ s, (g.tensorOf t).source = some s → s ∈ g.ops)

/-- Every input and output tensor of an operator in `ops` belongs to the
tensor list. -/
def OpTensorsListed (g : GraphObj) : Prop :=
  ∀ o ∈ g.ops, (∀ t ∈ (g.opOf o).inputs, t ∈ g.tensors) ∧
    (∀ t ∈ (g.opOf o).outputs, t ∈ g.tensors)

/-- Every predecessor and successor of an operator in `ops` belongs to `ops`. -/
def OpNeighboursInOps (g : GraphObj) : Prop :=
  ∀ o ∈ g.ops, (∀ p ∈ (g.opOf o).predecessors, p ∈ g.ops) ∧
    (∀ s ∈ (g.opOf o).successors, s ∈ g.ops)

/-- The FUIDs of the tensors of the graph are pairwise different. -/
def FuidUnique (g : GraphObj) : Prop :=
  (g.tensors.map (fun t => (g.tensorOf t).fuid)).Nodup

/-- Bipartite coherence: the source of a tensor lists the tensor among its
outputs, and every target of a tensor lists the tensor among its inputs. -/
def BipartiteCoherent (g : GraphObj) : Prop :=
  ∀ t ∈ g.tensors, (∀ s, (g.tensorOf t).source = some s → t ∈ (g.opOf s).outputs) ∧
    (∀ c ∈ (g.tensorOf t).targets, t ∈ (g.opOf c).inputs)

/-- If `sorted` is set, producers precede their consumers in `ops`. -/
def SortedOrder (g : GraphObj) : Prop :=
  g.sorted = true → ProducersFirst g g.ops

/-- All the invariants of the data model. -/
def AllInvariants (g : GraphObj) : Prop :=
  NoOrphan g ∧ OpTensorsListed g ∧ OpNeighboursInOps g ∧ FuidUnique g ∧
    BipartiteCoherent g ∧ SortedOrder g

/-- A tensor whose source is an operator that does not list it as an output:
`t0` names `op0` as its source, `op0` has no outputs. -/
def incoherentGraph : GraphObj :=
  { tensors := [0], ops := [0], sorted := false,
    allocator := Allocator.fresh, runtime := { nextPtr := 4096, served := [] },
    tensorOf := fun t =>
      match t with
      | 0 => { fuid := 0, dims := [2], dtypeSize := 4, source := some 0, targets := [], data := none }
      | _ => blankTensor,
    opOf := fun _ => blankOp,
    nextTensor := 1, nextOp := 1 }

/-- What the wiring steps of `addOperatorAndConnect(op)` may change between
`g` and `g1`: the lists and the input/output vectors stay, edge sets only
grow, a new target or source is `op`, a new neighbour is in `ops`. -/
structure Wired (op : OpId) (g g1 : GraphObj) : Prop where
  ops_eq : g1.ops = g.ops
  tensors_eq : g1.tensors = g.tensors
  sorted_eq : g1.sorted = g.sorted
  inputs_eq : ∀ o, (g1.opOf o).inputs = (g.opOf o).inputs
  outputs_eq : ∀ o, (g1.opOf o).outputs = (g.opOf o).outputs
  fuid_eq : ∀ t, (g1.tensorOf t).fuid = (g.tensorOf t).fuid
  targets_mono : ∀ t c, c ∈ (g.tensorOf t).targets → c ∈ (g1.tensorOf t).targets
  targets_new : ∀ t c, c ∈ (g1.tensorOf t).targets → c ∈ (g.tensorOf t).targets ∨ c = op
  source_new : ∀ t, (g1.tensorOf t).source = (g.tensorOf t).source ∨
    (g1.tensorOf t).source = some op
  preds_mono : ∀ o p, p ∈ (g.opOf o).predecessors → p ∈ (g1.opOf o).predecessors
  succs_mono : ∀ o s, s ∈ (g.opOf o).successors → s ∈ (g1.opOf o).successors
  preds_new : ∀ o p, p ∈ (g1.opOf o).predecessors →
    p ∈ (g.opOf o).predecessors ∨ p ∈ g.ops
  succs_new : ∀ o s, s ∈ (g1.opOf o).successors →
    s ∈ (g.opOf o).successors ∨ s ∈ g.ops


/-- The chain `t0 -> op0 -> t1 -> op1 -> t2` in order, with a third operator
object `op2` (reading `t2`, writing `t0`) created but not yet added. -/
def pendingOpGraph : GraphObj :=
  { tensors := [0, 1, 2], ops := [0, 1], sorted := true,
    allocator := Allocator.fresh, runtime := { nextPtr := 4096, served := [] },
    tensorOf := fun t =>
      match t with
      | 0 => { fuid := 0, dims := [2], dtypeSize := 4, source := none, targets := [0], data := none }
      | 1 => { fuid := 1, dims := [2], dtypeSize := 4, source := some 0, targets := [1], data := none }
      | 2 => { fuid := 2, dims := [2], dtypeSize := 4, source := some 1, targets := [], data := none }
      | _ => blankTensor,
    opOf := fun o =>
      match o with
      | 0 => { kind := OpKind.other 0, inputs := [0], outputs := [1],
               predecessors := [], successors := [1] }
      | 1 => { kind := OpKind.other 0, inputs := [1], outputs := [2],
               predecessors := [0], successors := [] }
      | 2 => { kind := OpKind.other 0, inputs := [2], outputs := [0],
               predecessors := [], successors := [] }
      | _ => blankOp,
    nextTensor := 3, nextOp := 3 }

/-! ## `GraphObj::dataMalloc` (`src/core/graph.cc`, lines 278-342) -/

/-- Modelled from the spec: `GraphObj::getInputs` (core/graph.h is not among
the sources): the graph-input tensors, the tensors with no source, in the
order of the tensor list. -/
def GraphObj.getInputs (g : GraphObj) : List TensorId :=
  g.tensors.filter (fun t => (g.tensorOf t).source == none)

/-- A `std::unordered_map<TensorObj *, size_t>`: a list of bindings in which
the first binding of a key is the one in force. -/
abbrev PtrMap := List (TensorId × Nat)

/-- The test `m.find(k) != m.end()`. -/
def PtrMap.contains (m : PtrMap) (k : TensorId) : Bool := (List.lookup k m).isSome

/-- The value of `m[k]`; a missing entry is value-initialised to 0. -/
def PtrMap.get (m : PtrMap) (k : TensorId) : Nat := (List.lookup k m).getD 0

/-- The map after `m[k]` was evaluated: a missing entry has been inserted. -/
def PtrMap.touch (m : PtrMap) (k : TensorId) : PtrMap :=
  if m.contains k then m else (k, 0) :: m

/-- The assignment `m[k] = v`. -/
def PtrMap.assign (m : PtrMap) (k : TensorId) (v : Nat) : PtrMap := (k, v) :: m

/-- Modelled from the spec: `TensorObj::setDataBlob` (core/tensor.h is not
among the sources): installs the storage address of the tensor. -/
def GraphObj.setDataBlob (g : GraphObj) (t : TensorId) (addr : Nat) : GraphObj :=
  g.setTensor t { g.tensorOf t with data := some addr }

/-- Lines 294-296: every graph input is allocated. -/
def planInputs (g : GraphObj) : List TensorId → Allocator → PtrMap → Option (Allocator × PtrMap)
  | [], a, off => some (a, off)
  | t :: rest, a, off =>
    match a.alloc (g.tensorOf t).getBytes with
    | none => none
    | some (pos, a1) => planInputs g rest a1 (off.assign t pos)

/-- Lines 299-303: `ref[in.get()]++` for every input of every operator. -/
def countRefs (g : GraphObj) : PtrMap :=
  g.ops.foldl
    (fun ref op =>
      (g.opOf op).inputs.foldl (fun ref t => ref.assign t (szAdd (ref.get t) 1)) ref)
    []

/-- Lines 313-318: allocate the outputs that have no offset yet. -/
def planOutputs (g : GraphObj) : List TensorId → Allocator → PtrMap → Option (Allocator × PtrMap)
  | [], a, off => some (a, off)
  | out :: rest, a, off =>
    if !off.contains out then
      match a.alloc (g.tensorOf out).getBytes with
      | none => none
      | some (pos, a1) => planOutputs g rest a1 (off.assign out pos)
    else planOutputs g rest a off

/-- Lines 320-326: decrement the count of each input, free it at zero. -/
def planFrees (g : GraphObj) :
    List TensorId → Allocator → PtrMap → PtrMap → Option (Allocator × PtrMap × PtrMap)
  | [], a, ref, off => some (a, ref, off)
  | t :: rest, a, ref, off =>
    let ref1 := ref.assign t (szSub (ref.get t) 1)
    if ref1.get t == 0 then
      match a.free (off.get t) (g.tensorOf t).getBytes with
      | none => none
      | some a1 => planFrees g rest a1 ref1 (off.touch t)
    else planFrees g rest a ref1 off

/-- Lines 311-327: the walk over the operators in their current order. -/
def planOps (g : GraphObj) :
    List OpId → Allocator → PtrMap → PtrMap → Option (Allocator × PtrMap × PtrMap)
  | [], a, ref, off => some (a, ref, off)
  | op :: rest, a, ref, off =>
    match planOutputs g (g.opOf op).outputs a off with
    | none => none
    | some (a1, off1) =>
      match planFrees g (g.opOf op).inputs a1 ref off1 with
      | none => none
      | some (a2, ref2, off2) => planOps g rest a2 ref2 off2

/-- Lines 335-338: every tensor receives the pool pointer plus its offset. -/
def installBlobs : List TensorId → GraphObj → PtrMap → GraphObj
  | [], g, _ => g
  | t :: rest, g, off =>
    let r := g.allocator.getPtr g.runtime
    let g1 := { g with allocator := r.2.1, runtime := r.2.2 }
    installBlobs rest (g1.setDataBlob t (r.1 + off.get t)) (off.touch t)

/-- The method `GraphObj::dataMalloc`; `none` when an assertion fails
(`topo_sort()` returned false, or the allocator was already materialised). -/
def GraphObj.dataMalloc (g : GraphObj) : Option GraphObj :=
  match g.topo_sort with
  | (false, _) => none
  | (true, g1) =>
    match planInputs g1 g1.getInputs g1.allocator [] with
    | none => none
    | some (a1, off1) =>
      match planOps g1 g1.ops a1 (countRefs g1) off1 with
      | none => none
      | some (a2, _, off2) => some (installBlobs g1.tensors { g1 with allocator := a2 } off2)

/-- The pool offset a tensor was given: its address minus the pool pointer. -/
def GraphObj.offsetOf (g : GraphObj) (t : TensorId) : Option Nat :=
  match (g.tensorOf t).data, g.allocator.ptr with
  | some d, some p => some (d - p)
  | _, _ => none

/-- The linear chain `t1 -> op1 -> t2 -> op2 -> t3 -> op3 -> t4`; the shape
and the element size of tensor `i` are `dims i` and `width i`. -/
def chainGraph (dims : TensorId → Shape) (width : TensorId → Nat) : GraphObj :=
  { tensors := [1, 2, 3, 4], ops := [1, 2, 3], sorted := false,
    allocator := Allocator.fresh, runtime := { nextPtr := 4096, served := [] },
    tensorOf := fun t =>
      match t with
      | 1 => { fuid := 1, dims := dims 1, dtypeSize := width 1, source := none,
               targets := [1], data := none }
      | 2 => { fuid := 2, dims := dims 2, dtypeSize := width 2, source := some 1,
               targets := [2], data := none }
      | 3 => { fuid := 3, dims := dims 3, dtypeSize := width 3, source := some 2,
               targets := [3], data := none }
      | 4 => { fuid := 4, dims := dims 4, dtypeSize := width 4, source := some 3,
               targets := [], data := none }
      | _ => blankTensor,
    opOf := fun o =>
      match o with
      | 1 => { kind := OpKind.other 0, inputs := [1], outputs := [2],
               predecessors := [], successors := [2] }
      | 2 => { kind := OpKind.other 0, inputs := [2], outputs := [3],
               predecessors := [1], successors := [3] }
      | 3 => { kind := OpKind.other 0, inputs := [3], outputs := [4],
               predecessors := [2], successors := [] }
      | _ => blankOp,
    nextTensor := 5, nextOp := 4 }

/-! ## Graph rewriting (`src/core/graph.cc`, lines 95-248) -/

/-- The function `permCompose`, lines 95-102: `r[i] = q[p[i]]`; `none` when
some `p[i]` is not an index of `q` (the read is out of bounds). -/
def permCompose (p q : List Int) : Option (List Int) :=
  match p with
  | [] => some []
  | pi :: rest =>
    match (if 0 ≤ pi then q[pi.toNat]? else none), permCompose rest q with
    | some v, some r => some (v :: r)
    | _, _ => none

/-- The function `isMatTrans`, lines 103-111. -/
def isMatTrans (p : List Int) : Bool :=
  if p.length < 2 then false
  else if (List.range (p.length - 2)).any (fun i => p.getD i 0 != (i : Int)) then false
  else p.getD (p.length - 1) 0 == (p.length : Int) - 2 &&
    p.getD (p.length - 2) 0 == (p.length : Int) - 1

/-- The function `isIdentity`, lines 112-118. -/
def isIdentity (p : List Int) : Bool :=
  (List.range p.length).all (fun i => p.getD i 0 == (i : Int))

/-- Modelled from the spec: `GraphObj::removeOperator` (core/graph.h is not
among the sources): "deletes op from `ops` and from the predecessor/successor
sets of its neighbors; it does not remove tensors", and "unwires all edges":
op leaves the targets of its inputs, and an output whose source is op is left
without source. -/
def GraphObj.removeOperator (g : GraphObj) (op : OpId) : GraphObj :=
  let o := g.opOf op
  let g1 := { g with ops := g.ops.filter (fun x => x ≠ op) }
  let g2 := o.predecessors.foldl (fun h p => h.removeSuccessors p op) g1
  let g3 := o.successors.foldl (fun h s => h.removePredecessors s op) g2
  let g4 := o.inputs.foldl (fun h t => h.removeTarget t op) g3
  o.outputs.foldl
    (fun h t => if (h.tensorOf t).source = some op then h.setSource t none else h) g4

/-- Modelled from the spec: `GraphObj::removeTensor` (core/graph.h is not
among the sources): removes the tensor from the tensor list and "scrubs the
tensor from any operator's input/output list where it still appears". -/
def GraphObj.removeTensor (g : GraphObj) (t : TensorId) : GraphObj :=
  let g1 := { g with tensors := g.tensors.filter (fun x => x ≠ t) }
  g1.ops.foldl
    (fun h o => h.setOp o { h.opOf o with
      inputs := (h.opOf o).inputs.filter (fun x => x ≠ t),
      outputs := (h.opOf o).outputs.filter (fun x => x ≠ t) }) g1

/-- Modelled from the spec: `GraphObj::addOpWithOutputs<K>` (core/graph.h is
not among the sources): "constructs the node, registers it, and wires tensor
edges": a new operator object with the given payload, inputs and outputs and
no neighbours, passed to `addOperatorAndConnect`. The shape assertion that
the constructors make on given outputs is not part of the model. -/
def GraphObj.addOpWithOutputs (g : GraphObj) (kind : OpKind)
    (inputs outputs : List TensorId) : OpId × GraphObj :=
  let op := g.nextOp
  let g1 := g.setOp op
    { kind := kind, inputs := inputs, outputs := outputs, predecessors := [], successors := [] }
  (op, { g1 with nextOp := op + 1 }.addOperatorAndConnect op)

/-- Modelled from the spec: `OperatorObj::getOutput` (core/operator.h is not
among the sources): the single output tensor; `none` when there is none. -/
def OperatorObj.getOutput (o : OperatorObj) : Option TensorId := o.outputs[0]?

/-- A loop `for (auto &suc : succVec)` whose body can fail. -/
def forSuccessors (body : GraphObj → OpId → Option GraphObj) :
    List OpId → GraphObj → Option GraphObj
  | [], g => some g
  | suc :: rest, g =>
    match body g suc with
    | none => none
    | some g1 => forSuccessors body rest g1

/-- The condition of rule 1, lines 129-136: a Transpose whose successors are
all Transposes, and at least one; returns its permutation. -/
def rule1Match (g : GraphObj) (op : OpId) : Option (List Int) :=
  match (g.opOf op).kind with
  | OpKind.transpose p =>
    let succVec := (g.opOf op).successors
    if !succVec.isEmpty && succVec.all (fun x => (g.opOf x).getOpType == OpType.Transpose)
    then some p else none
  | _ => none

/-- The body of the loop of rule 1, lines 140-149. -/
def rule1Body (op : OpId) (p : List Int) (g : GraphObj) (suc : OpId) : Option GraphObj :=
  match (g.opOf op).inputs[0]?, (g.opOf suc).getOutput, (g.opOf suc).kind with
  | some input, some out, OpKind.transpose q =>
    match permCompose p q with
    | some pq =>
      -- add a new fused operator
      let r := g.addOpWithOutputs (OpKind.transpose pq) [input] [out]
      -- detach the suc operator, then correct the source
      some ((r.2.removeOperator suc).setSource out (some r.1))
    | none => none
  | _, _, _ => none

/-- Rule 1 applied at `op`, lines 137-157. -/
def applyRule1 (g : GraphObj) (op : OpId) (p : List Int) : Option GraphObj :=
  match forSuccessors (rule1Body op p) (g.opOf op).successors g with
  | none => none
  | some g1 =>
    match (g1.opOf op).getOutput with
    | none => none
    | some mid => some ((g1.removeTensor mid).removeOperator op)

/-- The condition of rule 2, lines 166-174. -/
def rule2Match (g : GraphObj) (op : OpId) : Bool :=
  match (g.opOf op).kind with
  | OpKind.transpose perm =>
    let succVec := (g.opOf op).successors
    isMatTrans perm && !succVec.isEmpty &&
      succVec.all (fun x => (g.opOf x).getOpType == OpType.MatMul)
  | _ => false

/-- The body of the loop of rule 2, lines 178-199. In the first branch the
new operator is bound to a variable declared inside the branch, so the
`fusedOp` passed to `setSource` on line 199 is still null. -/
def rule2Body (op : OpId) (g : GraphObj) (suc : OpId) : Option GraphObj :=
  match (g.opOf op).inputs[0]?, (g.opOf suc).getOutput, (g.opOf suc).kind,
      (g.opOf suc).inputs[0]?, (g.opOf op).getOutput with
  | some input, some out, OpKind.matmul transA transB, some sucIn0, some opOut =>
    if sucIn0 = opOut then
      -- A*B op=A
      match (g.opOf suc).inputs[1]? with
      | some b =>
        let r := g.addOpWithOutputs (OpKind.matmul (!transA) transB) [input, b] [out]
        some ((r.2.removeOperator suc).setSource out none)
      | none => none
    else
      -- A*B op=B
      let r := g.addOpWithOutputs (OpKind.matmul transA (!transB)) [sucIn0, input] [out]
      some ((r.2.removeOperator suc).setSource out (some r.1))
  | _, _, _, _, _ => none

/-- Rule 2 applied at `op`, lines 175-207. -/
def applyRule2 (g : GraphObj) (op : OpId) : Option GraphObj :=
  match forSuccessors (rule2Body op) (g.opOf op).successors g with
  | none => none
  | some g1 =>
    match (g1.opOf op).getOutput with
    | none => none
    | some mid => some ((g1.removeTensor mid).removeOperator op)

/-- The condition of rule 3, lines 216-219. -/
def rule3Match (g : GraphObj) (op : OpId) : Bool :=
  match (g.opOf op).kind with
  | OpKind.transpose perm => isIdentity perm
  | _ => false

/-- The assignment `*std::find(v.begin(), v.end(), out) = in`; `none` when
`out` does not occur (the write goes through `end()`). -/
def replaceFirst (out input : TensorId) : List TensorId → Option (List TensorId)
  | [] => none
  | x :: xs =>
    if x = out then some (input :: xs)
    else (replaceFirst out input xs).map (fun r => x :: r)

/-- The body of the loop of rule 3, lines 230-234. -/
def rule3Body (op input out : TensorId) (g : GraphObj) (suc : OpId) : Option GraphObj :=
  let g1 := (g.addTarget input suc).removePredecessors suc op
  match replaceFirst out input (g1.opOf suc).inputs with
  | some ins => some (g1.setOp suc { g1.opOf suc with inputs := ins })
  | none => none

/-- Rule 3 applied at `op`, lines 220-240. -/
def applyRule3 (g : GraphObj) (op : OpId) : Option GraphObj :=
  match (g.opOf op).inputs[0]?, (g.opOf op).getOutput with
  | some input, some out =>
    let g1 := g.removeTarget input op
    match forSuccessors (rule3Body op input out) (g1.opOf op).successors g1 with
    | none => none
    | some g2 =>
      match (g2.opOf op).getOutput with
      | none => none
      | some mid => some ((g2.removeTensor mid).removeOperator op)
  | _, _ => none

/-- One round of the do-while loop of `optimize`. -/
inductive RoundResult where
  | rewritten (g : GraphObj)
  | unchanged
  | fault

/-- One round of the do-while loop, lines 126-245: the first rule that has a
match, at its first match in the order of `ops`, is applied. -/
def optimizeRound (g : GraphObj) : RoundResult :=
  match g.ops.findSome? (fun op => (rule1Match g op).map (fun p => (op, p))) with
  | some (op, p) =>
    match applyRule1 g op p with
    | some g1 => RoundResult.rewritten g1
    | none => RoundResult.fault
  | none =>
    match g.ops.find? (rule2Match g) with
    | some op =>
      match applyRule2 g op with
      | some g1 => RoundResult.rewritten g1
      | none => RoundResult.fault
    | none =>
      match g.ops.find? (rule3Match g) with
      | some op =>
        match applyRule3 g op with
        | some g1 => RoundResult.rewritten g1
        | none => RoundResult.fault
      | none => RoundResult.unchanged

/-- How a call of `optimize` ends. -/
inductive OptOutcome where
  | returned (g : GraphObj)
  | fault
  | outOfFuel

/-- The graph a call of `optimize` returned with, if it returned. -/
def OptOutcome.graph? : OptOutcome → Option GraphObj
  | OptOutcome.returned g => some g
  | _ => none

/-- The method `GraphObj::optimize`: rounds are run until one changes
nothing; `fuel` bounds the number of rounds. -/
def GraphObj.optimize : Nat → GraphObj → OptOutcome
  | 0, _ => OptOutcome.outOfFuel
  | fuel + 1, g =>
    match optimizeRound g with
    | RoundResult.rewritten g1 => GraphObj.optimize fuel g1
    | RoundResult.unchanged => OptOutcome.returned g
    | RoundResult.fault => OptOutcome.fault

/-- Scenario S5 with concrete shapes: `A : [2,3]`, `B : [2,4]`,
`op0 = Transpose(A, perm [1,0])` writing `T : [3,2]`, and
`op1 = MatMul(T, B)` writing `C : [3,4]`. Tensors 0..3 are `A, B, T, C`. -/
def transposeMatmulGraph : GraphObj :=
  { tensors := [0, 1, 2, 3], ops := [0, 1], sorted := false,
    allocator := Allocator.fresh, runtime := { nextPtr := 4096, served := [] },
    tensorOf := fun t =>
      match t with
      | 0 => { fuid := 0, dims := [2, 3], dtypeSize := 4, source := none, targets := [0],
               data := none }
      | 1 => { fuid := 1, dims := [2, 4], dtypeSize := 4, source := none, targets := [1],
               data := none }
      | 2 => { fuid := 2, dims := [3, 2], dtypeSize := 4, source := some 0, targets := [1],
               data := none }
      | 3 => { fuid := 3, dims := [3, 4], dtypeSize := 4, source := some 1, targets := [],
               data := none }
      | _ => blankTensor,
    opOf := fun o =>
      match o with
      | 0 => { kind := OpKind.transpose [1, 0], inputs := [0], outputs := [2],
               predecessors := [], successors := [1] }
      | 1 => { kind := OpKind.matmul false false, inputs := [2, 1], outputs := [3],
               predecessors := [0], successors := [] }
      | _ => blankOp,
    nextTensor := 4, nextOp := 2 }

/-! ## Further sample objects -/

/-- An operator that reads a tensor the graph does not list: `op0` reads `t0`
and `t1` and writes `t2`, and the tensor list holds `t0` and `t2` only. -/
def danglingInputGraph : GraphObj :=
  { tensors := [0, 2], ops := [0], sorted := false,
    allocator := Allocator.fresh, runtime := { nextPtr := 4096, served := [] },
    tensorOf := fun t =>
      match t with
      | 0 => { fuid := 0, dims := [2], dtypeSize := 4, source := none, targets := [0], data := none }
      | 1 => { fuid := 1, dims := [2], dtypeSize := 4, source := none, targets := [0], data := none }
      | 2 => { fuid := 2, dims := [2], dtypeSize := 4, source := some 0, targets := [], data := none }
      | _ => blankTensor,
    opOf := fun o =>
      match o with
      | 0 => { kind := OpKind.other 0, inputs := [0, 1], outputs := [2],
               predecessors := [], successors := [] }
      | _ => blankOp,
    nextTensor := 3, nextOp := 1 }

/-- The allocator object after a call of `alloc`, whether the call returned
or threw: the assertion of line 22 is the first statement of the method, so a
call that throws has written no member. -/
def Allocator.afterAlloc (a : Allocator) (size : Nat) : Allocator :=
  match a.alloc size with
  | some r => r.2
  | none => a

/-- The allocator object after a call of `free`, whether the call returned or
threw (the assertion of line 71 is the first statement of the method). -/
def Allocator.afterFree (a : Allocator) (addr size : Nat) : Allocator :=
  match a.free addr size with
  | some a1 => a1
  | none => a

/-- The list `p` is a permutation of `{0, ..., n-1}`. -/
def IsPermutationOf (n : Nat) (p : List Int) : Prop :=
  p.Perm (List.map Int.ofNat (List.range n))

/-! ## `MatmulObj::inferShape` (`src/operators/matmul.cc`, lines 24-39) -/

/-- The loop of lines 35-37 over the indices still to visit:
`shape[i] = std::max(sa[i], sb[i])`; `none` when a read is out of bounds. -/
def broadcastLeading (sa sb : Shape) : List Nat → Shape → Option Shape
  | [], shape => some shape
  | i :: rest, shape =>
    match sa[i]?, sb[i]? with
    | some x, some y => broadcastLeading sa sb rest (shape.set i (max x y))
    | _, _ => none

/-- The body of `MatmulObj::inferShape` once `_0 = rank - 1` and
`_1 = rank - 2` are computed. The outer `none` is an access out of bounds,
the inner option is the returned `optional`. The writes of the members `m`,
`n`, `k` are kept only as far as the returned shape needs them. -/
def matmulInferShapeAt (transA transB : Bool) (sa sb : Shape) (i0 i1 : Nat) :
    Option (Option (List Shape)) :=
  match sa[i0]?, sa[i1]? with
  | some a0, some a1 =>
    -- m n k
    let m := if transA then a0 else a1
    match (if transB then sb[i1]? else sb[i0]?) with
    | some k =>
      -- GEMM dimensions: (m,n) x (n,k) = (m,k)
      let shape := ((List.replicate sa.length (0 : Int)).set i0 k).set i1 m
      -- broadcasting
      match broadcastLeading sa sb (List.range i1) shape with
      | some s => some (some [s])
      | none => none
    | none => none
  | _, _ => none

/-- The method `MatmulObj::inferShape` on the shapes of its two inputs; the
indices are computed on `size_t`. -/
def matmulInferShape (transA transB : Bool) (sa sb : Shape) : Option (Option (List Shape)) :=
  matmulInferShapeAt transA transB sa sb (szSub sa.length 1) (szSub sa.length 2)

/-! ## Sample graphs for the rewriting rules -/

/-- The shapes `MatmulObj::inferShape` returns for the operator `op` of the
graph, read from the shapes of its first two inputs; `none` when `op` is not
a `MatmulObj` with two inputs. -/
def GraphObj.matmulShapes (g : GraphObj) (op : OpId) : Option (Option (List Shape)) :=
  match (g.opOf op).kind, (g.opOf op).inputs[0]?, (g.opOf op).inputs[1]? with
  | OpKind.matmul transA transB, some a, some b =>
    matmulInferShape transA transB (g.tensorOf a).dims (g.tensorOf b).dims
  | _, _, _ => none

/-- Scenario S5 with the shapes as parameters: `A : [m,n]`, `B : [n,k]`,
`op0 = Transpose(A, perm [1,0])` writing `T : [n,m]`, and
`op1 = MatMul(T, B, transA = false, transB = false)` writing `C`, whose shape
`[n,k]` is the one `MatmulObj::inferShape` gives for `(T, B)`. Tensors 0..3
are `A, B, T, C`. -/
def fusionGraph (m n k : Int) : GraphObj :=
  { tensors := [0, 1, 2, 3], ops := [0, 1], sorted := false,
    allocator := Allocator.fresh, runtime := { nextPtr := 4096, served := [] },
    tensorOf := fun t =>
      match t with
      | 0 => { fuid := 0, dims := [m, n], dtypeSize := 4, source := none, targets := [0],
               data := none }
      | 1 => { fuid := 1, dims := [n, k], dtypeSize := 4, source := none, targets := [1],
               data := none }
      | 2 => { fuid := 2, dims := [n, m], dtypeSize := 4, source := some 0, targets := [1],
               data := none }
      | 3 => { fuid := 3, dims := [n, k], dtypeSize := 4, source := some 1, targets := [],
               data := none }
      | _ => blankTensor,
    opOf := fun o =>
      match o with
      | 0 => { kind := OpKind.transpose [1, 0], inputs := [0], outputs := [2],
               predecessors := [], successors := [1] }
      | 1 => { kind := OpKind.matmul false false, inputs := [2, 1], outputs := [3],
               predecessors := [0], successors := [] }
      | _ => blankOp,
    nextTensor := 4, nextOp := 2 }

/-- A Transpose feeding the B input of a MatMul: `A : [2,3]`, `B : [4,3]`,
`op0 = Transpose(B, perm [1,0])` writing `T : [3,4]`, and
`op1 = MatMul(A, T)` writing `C : [2,4]`. Tensors 0..3 are `A, B, T, C`. -/
def transposeMatmulGraphB : GraphObj :=
  { tensors := [0, 1, 2, 3], ops := [0, 1], sorted := false,
    allocator := Allocator.fresh, runtime := { nextPtr := 4096, served := [] },
    tensorOf := fun t =>
      match t with
      | 0 => { fuid := 0, dims := [2, 3], dtypeSize := 4, source := none, targets := [1],
               data := none }
      | 1 => { fuid := 1, dims := [4, 3], dtypeSize := 4, source := none, targets := [0],
               data := none }
      | 2 => { fuid := 2, dims := [3, 4], dtypeSize := 4, source := some 0, targets := [1],
               data := none }
      | 3 => { fuid := 3, dims := [2, 4], dtypeSize := 4, source := some 1, targets := [],
               data := none }
      | _ => blankTensor,
    opOf := fun o =>
      match o with
      | 0 => { kind := OpKind.transpose [1, 0], inputs := [1], outputs := [2],
               predecessors := [], successors := [1] }
      | 1 => { kind := OpKind.matmul false false, inputs := [0, 2], outputs := [3],
               predecessors := [0], successors := [] }
      | _ => blankOp,
    nextTensor := 4, nextOp := 2 }

/-- Scenario S1: `x0 -> T -> x1 -> T -> x2 -> T -> x3 -> T -> x4`, every `T`
a Transpose of permutation `[1,2,3,0]`, `x0` of shape `[1,2,3,4]` with
4-byte elements. Tensors 0..4 are `x0..x4`, operators 0..3 the transposes. -/
def fourTransposeGraph : GraphObj :=
  { tensors := [0, 1, 2, 3, 4], ops := [0, 1, 2, 3], sorted := false,
    allocator := Allocator.fresh, runtime := { nextPtr := 4096, served := [] },
    tensorOf := fun t =>
      match t with
      | 0 => { fuid := 0, dims := [1, 2, 3, 4], dtypeSize := 4, source := none,
               targets := [0], data := none }
      | 1 => { fuid := 1, dims := [2, 3, 4, 1], dtypeSize := 4, source := some 0,
               targets := [1], data := none }
      | 2 => { fuid := 2, dims := [3, 4, 1, 2], dtypeSize := 4, source := some 1,
               targets := [2], data := none }
      | 3 => { fuid := 3, dims := [4, 1, 2, 3], dtypeSize := 4, source := some 2,
               targets := [3], data := none }
      | 4 => { fuid := 4, dims := [1, 2, 3, 4], dtypeSize := 4, source := some 3,
               targets := [], data := none }
      | _ => blankTensor,
    opOf := fun o =>
      match o with
      | 0 => { kind := OpKind.transpose [1, 2, 3, 0], inputs := [0], outputs := [1],
               predecessors := [], successors := [1] }
      | 1 => { kind := OpKind.transpose [1, 2, 3, 0], inputs := [1], outputs := [2],
               predecessors := [0], successors := [2] }
      | 2 => { kind := OpKind.transpose [1, 2, 3, 0], inputs := [2], outputs := [3],
               predecessors := [1], successors := [3] }
      | 3 => { kind := OpKind.transpose [1, 2, 3, 0], inputs := [3], outputs := [4],
               predecessors := [2], successors := [] }
      | _ => blankOp,
    nextTensor := 5, nextOp := 4 }

/-! ## Sample graphs and vocabulary for the planner's byte ranges -/

/-- The linear chain of `chainGraph` with tensors of 8, 8, 16 and 8 bytes. -/
def aliasChain : GraphObj :=
  chainGraph (fun t => if t = 3 then [4] else [2]) (fun _ => 4)

/-- The linear chain of `chainGraph` with tensors of 8, 8, 8 and 24 bytes. -/
def overflowChain : GraphObj :=
  chainGraph (fun t => if t = 4 then [6] else [2]) (fun _ => 4)

/-- The tensors an operator reads or writes. -/
def GraphObj.opTensors (g : GraphObj) (o : OpId) : List TensorId :=
  (g.opOf o).inputs ++ (g.opOf o).outputs

/-- Byte `x` of the pool lies in the range `[off(t), off(t) + bytes(t))` that
`dataMalloc` assigned to the tensor `t`. -/
def GraphObj.inRange (g : GraphObj) (t : TensorId) (x : Nat) : Prop :=
  ∃ o, g.offsetOf t = some o ∧ o ≤ x ∧ x < o + (g.tensorOf t).getBytes

/-- No aliasing: for every operator, the ranges of two distinct tensors among
its inputs and outputs share no byte. -/
def PlanDisjoint (g : GraphObj) : Prop :=
  ∀ o ∈ g.ops, ∀ t ∈ g.opTensors o, ∀ u ∈ g.opTensors o, t ≠ u →
    ∀ x, ¬ (g.inRange t x ∧ g.inRange u x)

/-- Every byte of the range of an input or output of an operator lies inside
`[0, peak)`. -/
def PlanInsidePeak (g : GraphObj) : Prop :=
  ∀ o ∈ g.ops, ∀ t ∈ g.opTensors o, ∀ x, g.inRange t x → x < g.allocator.peak

/-! ## The graph object after a call of `dataMalloc` that may throw -/

/-- The reversed two-operator chain with the `sorted` flag set: the consumer
`op1` is listed before its producer `op0`. -/
def sortedReversedPair : GraphObj := { reversedPair with sorted := true }

/-- The allocator member when the loop of lines 294-296 ends or throws. A call
of `alloc` that throws has written no member (its assertion is its first
statement); the calls before it have. -/
def planInputsAfter (g : GraphObj) : List TensorId → Allocator → Allocator
  | [], a => a
  | t :: rest, a =>
    match a.alloc (g.tensorOf t).getBytes with
    | none => a
    | some (_, a1) => planInputsAfter g rest a1

/-- The allocator member when the loop of lines 313-318 ends or throws. -/
def planOutputsAfter (g : GraphObj) : List TensorId → Allocator → PtrMap → Allocator
  | [], a, _ => a
  | out :: rest, a, off =>
    if !off.contains out then
      match a.alloc (g.tensorOf out).getBytes with
      | none => a
      | some (pos, a1) => planOutputsAfter g rest a1 (off.assign out pos)
    else planOutputsAfter g rest a off

/-- The allocator member when the loop of lines 320-326 ends or throws. -/
def planFreesAfter (g : GraphObj) : List TensorId → Allocator → PtrMap → PtrMap → Allocator
  | [], a, _, _ => a
  | t :: rest, a, ref, off =>
    let ref1 := ref.assign t (szSub (ref.get t) 1)
    if ref1.get t == 0 then
      match a.free (off.get t) (g.tensorOf t).getBytes with
      | none => a
      | some a1 => planFreesAfter g rest a1 ref1 (off.touch t)
    else planFreesAfter g rest a ref1 off

/-- The allocator member when the loop of lines 311-327 ends or throws. -/
def planOpsAfter (g : GraphObj) : List OpId → Allocator → PtrMap → PtrMap → Allocator
  | [], a, _, _ => a
  | op :: rest, a, ref, off =>
    match planOutputs g (g.opOf op).outputs a off with
    | none => planOutputsAfter g (g.opOf op).outputs a off
    | some (a1, off1) =>
      match planFrees g (g.opOf op).inputs a1 ref off1 with
      | none => planFreesAfter g (g.opOf op).inputs a1 ref off1
      | some (a2, ref2, off2) => planOpsAfter g rest a2 ref2 off2

/-- The graph object after a call of `GraphObj::dataMalloc`, whether the call
returned or threw. The maps `ref` and `off` are locals of the method; a call
that throws has written what `topo_sort` and the calls of `alloc` and `free`
before the throw wrote, and no tensor's data blob (lines 335-338 are not
reached). -/
def GraphObj.afterDataMalloc (g : GraphObj) : GraphObj :=
  match g.topo_sort with
  | (false, g1) => g1
  | (true, g1) =>
    match planInputs g1 g1.getInputs g1.allocator [] with
    | none => { g1 with allocator := planInputsAfter g1 g1.getInputs g1.allocator }
    | some (a1, off1) =>
      match planOps g1 g1.ops a1 (countRefs g1) off1 with
      | none => { g1 with allocator := planOpsAfter g1 g1.ops a1 (countRefs g1) off1 }
      | some (a2, _, off2) => installBlobs g1.tensors { g1 with allocator := a2 } off2

end infini

/-! # Theorems -/

namespace infini

/-! ## Allocator -/

/-- C1 (non-overlap of live ranges, refuted on the code): on a fresh allocator
the disciplined sequence `alloc(16)`, `free(0,16)`, `alloc(24)`, `alloc(8)`
returns offsets 0, 0 and 16, so the two live blocks are `[0, 24)` and
`[16, 24)`, which overlap. -/
theorem alloc_live_ranges_overlap :
    disciplined Allocator.fresh [] [.alloc 16, .free 0 16, .alloc 24, .alloc 8] = true ∧
    runCalls Allocator.fresh [] [.alloc 16, .free 0 16, .alloc 24, .alloc 8] =
      some ({ used := 32, peak := 24, alignment := 8, ptr := none, frees := [] },
            [(0, 24), (16, 8)]) ∧
    disjointBlocks (0, 24) (16, 8) = false := by
  refine ⟨by decide, by decide, by decide⟩

/-- The scan of lines 49-54 ends on a block of the set with the largest begin. -/
theorem lastByBegin_spec (rest : List Block) :
    ∀ k : Block, (lastByBegin k rest = k ∨ lastByBegin k rest ∈ rest) ∧
      k.begin ≤ (lastByBegin k rest).begin ∧
      ∀ b ∈ rest, b.begin ≤ (lastByBegin k rest).begin := by
  induction rest with
  | nil => intro k; exact ⟨Or.inl rfl, le_refl _, fun b hb => absurd hb (List.not_mem_nil _)⟩
  | cons i rest ih =>
    intro k
    unfold lastByBegin
    by_cases h : k.begin < i.begin
    · rw [if_pos h]
      obtain ⟨h1, h2, h3⟩ := ih i
      refine ⟨Or.inr ?_, by omega, ?_⟩
      · rcases h1 with h1 | h1
        · rw [h1]; exact List.mem_cons_self _ _
        · exact List.mem_cons_of_mem _ h1
      · intro b hb
        rcases List.mem_cons.1 hb with rfl | hb
        · exact h2
        · exact h3 b hb
    · rw [if_neg h]
      obtain ⟨h1, h2, h3⟩ := ih k
      refine ⟨?_, h2, ?_⟩
      · rcases h1 with h1 | h1
        · exact Or.inl h1
        · exact Or.inr (List.mem_cons_of_mem _ h1)
      · intro b hb
        rcases List.mem_cons.1 hb with rfl | hb
        · omega
        · exact h3 b hb

/-- The tail branch of `alloc`, lines 47-59: with no fitting block and a
non-empty free set, the block returned by the scan has the largest begin of
the set; it is removed, its begin is returned, and `peak` becomes
`max(peak, begin + request - block.size)`. -/
theorem alloc_tail_branch (a : Allocator) (size : Nat) (k0 : Block) (rest : List Block)
    (hp : a.ptr = none)
    (hnofit : lowerBound a.frees ⟨0, a.getAlignedSize size⟩ = none)
    (hf : a.frees = k0 :: rest) :
    lastByBegin k0 rest ∈ a.frees ∧
    (∀ b ∈ a.frees, b.begin ≤ (lastByBegin k0 rest).begin) ∧
    a.alloc size = some ((lastByBegin k0 rest).begin,
      ⟨szAdd a.used (a.getAlignedSize size),
        max a.peak (szSub (szAdd (lastByBegin k0 rest).begin (a.getAlignedSize size))
          (lastByBegin k0 rest).size),
        a.alignment, a.ptr, a.frees.erase (lastByBegin k0 rest)⟩) := by
  obtain ⟨h1, h2, h3⟩ := lastByBegin_spec rest k0
  refine ⟨?_, ?_, ?_⟩
  · rw [hf]
    rcases h1 with h1 | h1
    · rw [h1]; exact List.mem_cons_self _ _
    · exact List.mem_cons_of_mem _ h1
  · intro b hb
    rw [hf] at hb
    rcases List.mem_cons.1 hb with rfl | hb
    · exact h2
    · exact h3 b hb
  · unfold Allocator.alloc
    simp only [hp, ne_eq, not_true_eq_false, if_false, hnofit]
    rw [hf]

/-- C2 (tail extension, refuted on the code): on a fresh allocator
`alloc(16)` returns 0, and after `free(0,16)` the call `alloc(24)` returns 0
from the tail branch, but `peak` is left at 16 and not at `0 + 24`. -/
theorem tail_extension_leaves_peak_short :
    ∃ a1 a2 a3, Allocator.fresh.alloc 16 = some (0, a1) ∧ a1.peak = 16 ∧
      a1.free 0 16 = some a2 ∧ a2.frees = [⟨0, 16⟩] ∧
      lowerBound a2.frees ⟨0, a2.getAlignedSize 24⟩ = none ∧
      a2.alloc 24 = some (0, a3) ∧ a3.frees = [] ∧ a3.peak = 16 ∧ a3.peak ≠ 0 + 24 := by
  refine ⟨_, _, _, rfl, ?_, rfl, ?_, ?_, rfl, ?_, ?_, ?_⟩ <;> decide

/-- The fit branch of `alloc` never reinserts a remainder: the block found by
`lower_bound` has size at least the request, so the guard `blk.size < size`
of line 41 is false and the whole block is consumed. -/
theorem alloc_fit_drops_remainder (a : Allocator) (size : Nat) (blk : Block)
    (hp : a.ptr = none)
    (hfit : lowerBound a.frees ⟨0, a.getAlignedSize size⟩ = some blk) :
    a.getAlignedSize size ≤ blk.size ∧
    a.alloc size = some (blk.begin,
      ⟨szAdd a.used (a.getAlignedSize size), a.peak, a.alignment, a.ptr, a.frees.erase blk⟩) := by
  have hge : a.getAlignedSize size ≤ blk.size := by
    have h := List.find?_some hfit
    simp only [Block.lt, ne_eq, ite_not, Bool.not_eq_true', decide_eq_false_iff_not] at h
    by_contra hlt
    have hne : blk.size ≠ a.getAlignedSize size := by omega
    simp [hne] at h
    omega
  refine ⟨hge, ?_⟩
  unfold Allocator.alloc
  simp only [hp, ne_eq, not_true_eq_false, if_false, hfit, Nat.not_lt.mpr hge]

/-- C3 (smallest fit with split, refuted on the code): after `alloc(8)=0`,
`alloc(16)=8`, `alloc(8)=24`, `free(8,16)`, the call `alloc(8)` returns 8 and
`peak` is 32, but the free set is empty: the remainder `(16, 8)` of the
16-byte hole is not reinserted. -/
theorem smallest_fit_loses_remainder :
    ∃ a1 a2 a3 a4 a5, Allocator.fresh.alloc 8 = some (0, a1) ∧ a1.alloc 16 = some (8, a2) ∧
      a2.alloc 8 = some (24, a3) ∧ a3.free 8 16 = some a4 ∧ a4.frees = [⟨8, 16⟩] ∧
      a4.alloc 8 = some (8, a5) ∧ a5.peak = 32 ∧ a5.frees = [] ∧
      a5.frees ≠ [⟨16, 8⟩] := by
  refine ⟨_, _, _, _, _, rfl, rfl, rfl, rfl, ?_, rfl, ?_, ?_, ?_⟩ <;> decide


/-- The value `alignedUp s` is the least multiple of 8 that is at least `s`. -/
theorem alignedUp_spec (s : Nat) :
    8 ∣ alignedUp s ∧ s ≤ alignedUp s ∧ ∀ m, 8 ∣ m → s ≤ m → alignedUp s ≤ m := by
  unfold alignedUp
  refine ⟨Dvd.intro_left _ rfl, by omega, ?_⟩
  intro m hm hs
  obtain ⟨k, rfl⟩ := hm
  omega

/-- Without wrap-around `getAlignedSize` rounds up to the next multiple of 8. -/
theorem getAlignedSize_eq (a : Allocator) (s : Nat) (h8 : a.alignment = 8) (h1 : 1 ≤ s)
    (h : alignedUp s < sizeMod) : a.getAlignedSize s = alignedUp s := by
  unfold Allocator.getAlignedSize szMul szAdd szSub alignedUp sizeMod at *
  rw [h8]
  omega

/-- Bump behaviour from any sealed-free state with an empty free set. -/
theorem allocAll_bump (sizes : List Nat) :
    ∀ (a : Allocator), a.ptr = none → a.alignment = 8 → a.frees = [] →
      (∀ s ∈ sizes, 1 ≤ s) → a.peak + (sizes.map alignedUp).sum < sizeMod →
      ∃ offs a1, allocAll a sizes = some (offs, a1) ∧ a1.frees = [] ∧ a1.ptr = none ∧
        a1.peak = a.peak + (sizes.map alignedUp).sum ∧
        offs.length = sizes.length ∧
        ∀ i (hi : i < offs.length), offs[i] = a.peak + ((sizes.take i).map alignedUp).sum := by
  induction sizes with
  | nil =>
    intro a _ _ hf _ _
    exact ⟨[], a, rfl, hf, by assumption, by simp, rfl, by simp⟩
  | cons s ss ih =>
    intro a hp h8 hf hpos hsum
    simp only [List.map_cons, List.sum_cons] at hsum
    have hs1 : 1 ≤ s := hpos s (List.mem_cons_self _ _)
    have hal : a.getAlignedSize s = alignedUp s :=
      getAlignedSize_eq a s h8 hs1 (by omega)
    have hstep : ∃ a0, a.alloc s = some (a.peak, a0) ∧ a0.ptr = none ∧ a0.alignment = 8 ∧
        a0.frees = [] ∧ a0.peak = a.peak + alignedUp s := by
      have hadd : szAdd a.peak (alignedUp s) = a.peak + alignedUp s := by
        unfold szAdd; exact Nat.mod_eq_of_lt (by omega)
      refine ⟨⟨szAdd a.used (alignedUp s), a.peak + alignedUp s, a.alignment, a.ptr, a.frees⟩,
        ?_, ?_⟩
      · unfold Allocator.alloc
        simp only [hp, ne_eq, not_true_eq_false, if_false, hal, hf, lowerBound,
          List.find?_nil, hadd]
      · exact ⟨hp, h8, hf, rfl⟩
    obtain ⟨a0, hstep, hp0, h80, hf0, hpk0⟩ := hstep
    obtain ⟨offs, a1, hrun, hf1, hp1, hpk, hlen, hoffs⟩ :=
      ih a0 hp0 h80 hf0 (fun x hx => hpos x (List.mem_cons_of_mem _ hx)) (by omega)
    refine ⟨a.peak :: offs, a1, ?_, hf1, hp1, ?_, by simp [hlen], ?_⟩
    · simp only [allocAll, hstep, hrun]
    · simp only [hpk, hpk0, List.map_cons, List.sum_cons]; omega
    · intro i hi
      cases i with
      | zero => simp
      | succ j =>
        simp only [List.length_cons, Nat.add_lt_add_iff_right] at hi
        simp only [List.getElem_cons_succ, List.take_succ_cons, List.map_cons, List.sum_cons]
        rw [hoffs j hi, hpk0]; omega

/-- C4 (bump allocation): on a fresh allocator, a sequence of `alloc` calls
with sizes at least 1 and no `size_t` overflow, with no `free` in between,
returns for the i-th call the sum of the aligned sizes of the earlier calls,
and leaves `peak` equal to the sum of all aligned sizes; `alignedUp s` is the
least multiple of 8 that is at least `s`, and it is what `getAlignedSize`
computes on these sizes. -/
theorem alloc_without_free_is_bump (sizes : List Nat) (hpos : ∀ s ∈ sizes, 1 ≤ s)
    (hno : (sizes.map alignedUp).sum < sizeMod) :
    (∀ s, 8 ∣ alignedUp s ∧ s ≤ alignedUp s ∧ ∀ m, 8 ∣ m → s ≤ m → alignedUp s ≤ m) ∧
    (∀ s ∈ sizes, Allocator.fresh.getAlignedSize s = alignedUp s) ∧
    ∃ offs a, allocAll Allocator.fresh sizes = some (offs, a) ∧
      offs.length = sizes.length ∧
      (∀ i (hi : i < offs.length), offs[i] = ((sizes.take i).map alignedUp).sum) ∧
      a.peak = (sizes.map alignedUp).sum := by
  refine ⟨alignedUp_spec, ?_, ?_⟩
  · intro s hs
    refine getAlignedSize_eq _ s rfl (hpos s hs) ?_
    have : alignedUp s ≤ (sizes.map alignedUp).sum :=
      List.single_le_sum (by simp) _ (List.mem_map_of_mem _ hs)
    omega
  · obtain ⟨offs, a1, hrun, _, _, hpk, hlen, hoffs⟩ :=
      allocAll_bump sizes Allocator.fresh rfl rfl rfl hpos (by simpa [Allocator.fresh] using hno)
    refine ⟨offs, a1, hrun, hlen, ?_, ?_⟩
    · intro i hi; simpa [Allocator.fresh] using hoffs i hi
    · simpa [Allocator.fresh] using hpk

/-- Witness for C4 on the sizes 1, 8, 9, 17. -/
theorem alloc_without_free_is_bump_witness :
    (∀ s ∈ [1, 8, 9, 17], 1 ≤ s) ∧ (([1, 8, 9, 17] : List Nat).map alignedUp).sum < sizeMod ∧
    ∃ offs a, allocAll Allocator.fresh [1, 8, 9, 17] = some (offs, a) ∧
      offs.length = 4 ∧
      (∀ i (hi : i < offs.length), offs[i] = ((([1, 8, 9, 17] : List Nat).take i).map alignedUp).sum) ∧
      a.peak = (([1, 8, 9, 17] : List Nat).map alignedUp).sum :=
  ⟨by decide, by decide, (alloc_without_free_is_bump [1, 8, 9, 17] (by decide) (by decide)).2.2⟩


/-! ## Topological sort -/

theorem topoInv_nil (g : GraphObj) : TopoInv g [] [] :=
  ⟨fun _ => Iff.rfl, List.nodup_nil, fun _ h => absurd h (List.not_mem_nil _),
    fun _ hi => absurd hi (Nat.not_lt_zero _)⟩

theorem opReady_iff (g : GraphObj) (flags : List OpId) (op : OpId) :
    opReady g flags op = true ↔
      op ∉ flags ∧ ∀ t ∈ (g.opOf op).inputs, ∀ s, (g.tensorOf t).source = some s → s ∈ flags := by
  unfold opReady
  simp only [Bool.and_eq_true, Bool.not_eq_true', decide_eq_false_iff_not, List.all_eq_true]
  constructor
  · rintro ⟨h1, h2⟩
    refine ⟨h1, fun t ht s hs => ?_⟩
    have := h2 t ht
    rw [hs] at this
    simpa using this
  · rintro ⟨h1, h2⟩
    refine ⟨h1, fun t ht => ?_⟩
    cases hs : (g.tensorOf t).source with
    | none => rfl
    | some s => simpa using h2 t ht s hs

theorem topoInv_snoc (g : GraphObj) (sorted flags : List OpId) (op : OpId)
    (h : TopoInv g sorted flags) (hop : op ∈ g.ops) (hr : opReady g flags op = true) :
    TopoInv g (sorted ++ [op]) (op :: flags) := by
  obtain ⟨hnf, hsrc⟩ := (opReady_iff g flags op).1 hr
  refine ⟨?_, ?_, ?_, ?_⟩
  · intro x
    simp only [List.mem_cons, List.mem_append, List.mem_singleton, h.flags_iff]
    tauto
  · rw [List.nodup_append]
    refine ⟨h.nodup, List.nodup_singleton _, ?_⟩
    intro a ha hb
    rw [List.mem_singleton] at hb
    subst hb
    exact hnf ((h.flags_iff a).2 ha)
  · intro x hx
    rcases List.mem_append.1 hx with hx | hx
    · exact h.sub x hx
    · rw [List.mem_singleton] at hx; subst hx; exact hop
  · intro i hi t ht s hs
    rw [List.length_append, List.length_singleton] at hi
    by_cases hlt : i < sorted.length
    · rw [List.getElem_append_left hlt] at ht
      obtain ⟨j, hj, hji, hjs⟩ := h.first i hlt t ht s hs
      refine ⟨j, by rw [List.length_append]; omega, hji, ?_⟩
      rw [List.getElem_append_left hj]; exact hjs
    · have hieq : i = sorted.length := by omega
      subst hieq
      rw [List.getElem_append_right (le_refl _)] at ht
      simp only [Nat.sub_self, List.getElem_cons_zero] at ht
      have hsf : s ∈ sorted := (h.flags_iff s).1 (hsrc t ht s hs)
      obtain ⟨j, hj, hjs⟩ := List.getElem_of_mem hsf
      refine ⟨j, by rw [List.length_append]; omega, hj, ?_⟩
      rw [List.getElem_append_left hj]; exact hjs

theorem topoPass_inv (g : GraphObj) (l : List OpId) :
    ∀ st : TopoState, (∀ x ∈ l, x ∈ g.ops) → TopoInv g st.sorted st.flags →
      TopoInv g (topoPass g l st).sorted (topoPass g l st).flags := by
  induction l with
  | nil => intro st _ h; exact h
  | cons op rest ih =>
    intro st hl h
    unfold topoPass
    by_cases hr : opReady g st.flags op = true
    · rw [if_pos hr]
      exact ih _ (fun x hx => hl x (List.mem_cons_of_mem _ hx))
        (topoInv_snoc g st.sorted st.flags op h (hl op (List.mem_cons_self _ _)) hr)
    · rw [if_neg hr]
      exact ih _ (fun x hx => hl x (List.mem_cons_of_mem _ hx)) h

theorem topoPass_length (g : GraphObj) (l : List OpId) :
    ∀ st : TopoState, st.sorted.length ≤ (topoPass g l st).sorted.length ∧
      ((topoPass g l st).modified = true → st.modified = false →
        st.sorted.length < (topoPass g l st).sorted.length) := by
  induction l with
  | nil => intro st; exact ⟨le_refl _, fun h1 h2 => by simp [topoPass, h2] at h1⟩
  | cons op rest ih =>
    intro st
    unfold topoPass
    by_cases hr : opReady g st.flags op = true
    · rw [if_pos hr]
      have := (ih { sorted := st.sorted ++ [op], flags := op :: st.flags, modified := true }).1
      simp only [List.length_append, List.length_singleton] at this
      exact ⟨by omega, fun _ _ => by omega⟩
    · rw [if_neg hr]
      exact ih st

theorem topoPass_unmodified (g : GraphObj) (l : List OpId) :
    ∀ st : TopoState, st.modified = false → (topoPass g l st).modified = false →
      ∀ op ∈ l, opReady g st.flags op = false := by
  induction l with
  | nil => intro st _ _ op hop; exact absurd hop (List.not_mem_nil _)
  | cons x rest ih =>
    intro st hm hres op hop
    unfold topoPass at hres
    by_cases hr : opReady g st.flags x = true
    · rw [if_pos hr] at hres
      have := (topoPass_length g rest
        { sorted := st.sorted ++ [x], flags := x :: st.flags, modified := true })
      -- a pass never resets `modified`
      exfalso
      have hkeep : ∀ (l : List OpId) (st : TopoState), st.modified = true →
          (topoPass g l st).modified = true := by
        intro l
        induction l with
        | nil => intro st h; exact h
        | cons y ys ihy =>
          intro st h
          unfold topoPass
          by_cases hy : opReady g st.flags y = true
          · rw [if_pos hy]; exact ihy _ rfl
          · rw [if_neg hy]; exact ihy _ h
      rw [hkeep rest _ rfl] at hres
      exact Bool.noConfusion hres
    · rw [if_neg hr] at hres
      rcases List.mem_cons.1 hop with h | h
      · subst h; simpa using hr
      · exact ih st hm hres op h

/-- The while loop never runs out of passes when given `ops.size()` of them. -/
theorem topoLoop_fuel (g : GraphObj) :
    ∀ (fuel : Nat) (sorted flags : List OpId), g.ops.length ≤ sorted.length + fuel →
      topoLoop g fuel sorted flags ≠ TopoResult.outOfFuel := by
  intro fuel
  induction fuel with
  | zero =>
    intro sorted flags h
    unfold topoLoop
    rw [if_neg (by omega)]
    exact fun h => TopoResult.noConfusion h
  | succ n ih =>
    intro sorted flags h
    unfold topoLoop
    by_cases hlt : sorted.length < g.ops.length
    · rw [if_pos hlt]
      simp only
      by_cases hm : (topoPass g g.ops { sorted := sorted, flags := flags, modified := false }).modified = true
      · simp only [hm, Bool.not_true, Bool.false_eq_true, if_false]
        apply ih
        have := (topoPass_length g g.ops { sorted := sorted, flags := flags, modified := false }).2 hm rfl
        simp only at this
        omega
      · simp only [Bool.not_eq_true] at hm
        simp only [hm, Bool.not_false, if_true]
        exact fun h => TopoResult.noConfusion h
    · rw [if_neg hlt]
      exact fun h => TopoResult.noConfusion h

theorem topoLoop_done (g : GraphObj) :
    ∀ (fuel : Nat) (sorted flags r : List OpId), TopoInv g sorted flags →
      topoLoop g fuel sorted flags = TopoResult.done r →
      (∃ fl, TopoInv g r fl) ∧ g.ops.length ≤ r.length := by
  intro fuel
  induction fuel with
  | zero =>
    intro sorted flags r hinv h
    unfold topoLoop at h
    by_cases hlt : sorted.length < g.ops.length
    · rw [if_pos hlt] at h; exact TopoResult.noConfusion h
    · rw [if_neg hlt] at h
      injection h with h; subst h
      exact ⟨⟨flags, hinv⟩, by omega⟩
  | succ n ih =>
    intro sorted flags r hinv h
    unfold topoLoop at h
    by_cases hlt : sorted.length < g.ops.length
    · rw [if_pos hlt] at h
      simp only at h
      by_cases hm : (topoPass g g.ops { sorted := sorted, flags := flags, modified := false }).modified = true
      · simp only [hm, Bool.not_true, Bool.false_eq_true, if_false] at h
        exact ih _ _ r (topoPass_inv g g.ops _ (fun _ hx => hx) hinv) h
      · simp only [Bool.not_eq_true] at hm
        simp only [hm, Bool.not_false, if_true] at h
        exact TopoResult.noConfusion h
    · rw [if_neg hlt] at h
      injection h with h; subst h
      exact ⟨⟨flags, hinv⟩, by omega⟩

theorem topoLoop_stuck (g : GraphObj) :
    ∀ (fuel : Nat) (sorted flags : List OpId), TopoInv g sorted flags →
      topoLoop g fuel sorted flags = TopoResult.stuck →
      ∃ s f, TopoInv g s f ∧ s.length < g.ops.length ∧
        ∀ op ∈ g.ops, opReady g f op = false := by
  intro fuel
  induction fuel with
  | zero =>
    intro sorted flags _ h
    unfold topoLoop at h
    by_cases hlt : sorted.length < g.ops.length
    · rw [if_pos hlt] at h; exact TopoResult.noConfusion h
    · rw [if_neg hlt] at h; exact TopoResult.noConfusion h
  | succ n ih =>
    intro sorted flags hinv h
    unfold topoLoop at h
    by_cases hlt : sorted.length < g.ops.length
    · rw [if_pos hlt] at h
      simp only at h
      by_cases hm : (topoPass g g.ops { sorted := sorted, flags := flags, modified := false }).modified = true
      · simp only [hm, Bool.not_true, Bool.false_eq_true, if_false] at h
        exact ih _ _ (topoPass_inv g g.ops _ (fun _ hx => hx) hinv) h
      · simp only [Bool.not_eq_true] at hm
        exact ⟨sorted, flags, hinv, hlt,
          topoPass_unmodified g g.ops { sorted := sorted, flags := flags, modified := false } rfl hm⟩
    · rw [if_neg hlt] at h; exact TopoResult.noConfusion h

/-- A topological order rules out a dependency cycle. -/
theorem topoOrder_no_cycle (g : GraphObj) (r : List OpId) (hnd : g.ops.Nodup)
    (h : TopoOrder g r) : ¬ HasCycle g := by
  obtain ⟨hperm, hfirst⟩ := h
  have hrnd : r.Nodup := hperm.nodup_iff.2 hnd
  have hstep : ∀ s o, dep g s o → r.indexOf s < r.indexOf o := by
    rintro s o ⟨_, ho, t, ht, hs⟩
    obtain ⟨i, hi, rfl⟩ := List.getElem_of_mem (hperm.mem_iff.2 ho)
    obtain ⟨j, hj, hji, rfl⟩ := hfirst i hi t ht s hs
    rw [List.indexOf_getElem hrnd, List.indexOf_getElem hrnd]
    exact hji
  have htrans : ∀ a b, Relation.TransGen (dep g) a b → r.indexOf a < r.indexOf b := by
    intro a b hab
    induction hab with
    | single h => exact hstep _ _ h
    | tail _ h ih => exact lt_trans ih (hstep _ _ h)
  rintro ⟨o, ho⟩
  exact lt_irrefl _ (htrans o o ho)

/-- When a pass admits nothing although operators remain, every operator that
remains waits for one that remains, so the dependencies contain a cycle. -/
theorem stuck_has_cycle (g : GraphObj) (sorted flags : List OpId) (hnd : g.ops.Nodup)
    (hsrc : ∀ o ∈ g.ops, ∀ t ∈ (g.opOf o).inputs, ∀ s,
      (g.tensorOf t).source = some s → s ∈ g.ops)
    (hinv : TopoInv g sorted flags) (hlen : sorted.length < g.ops.length)
    (hstuck : ∀ op ∈ g.ops, opReady g flags op = false) : HasCycle g := by
  by_contra hno
  have hirr : ∀ o, ¬ Relation.TransGen (dep g) o o := fun o h => hno ⟨o, h⟩
  -- some operator is not admitted
  have hne : ∃ x, x ∈ g.ops ∧ x ∉ flags := by
    by_contra hall
    have hsub : g.ops ⊆ sorted := by
      intro x hx
      by_contra hxs
      exact hall ⟨x, hx, fun hf => hxs ((hinv.flags_iff x).1 hf)⟩
    have := (hnd.subperm hsub).length_le
    omega
  -- every operator that is not admitted has a producer that is not admitted
  have hpred : ∀ x, x ∈ g.ops → x ∉ flags → ∃ s, s ∈ g.ops ∧ s ∉ flags ∧ dep g s x := by
    intro x hx hxf
    have hnr := hstuck x hx
    have hnr2 : ¬ (opReady g flags x = true) := by rw [hnr]; exact Bool.false_ne_true
    rw [opReady_iff] at hnr2
    have : ∃ t ∈ (g.opOf x).inputs, ∃ s, (g.tensorOf t).source = some s ∧ s ∉ flags := by
      by_contra hcon
      apply hnr2
      refine ⟨hxf, fun t ht s hs => ?_⟩
      by_contra hsf
      exact hcon ⟨t, ht, s, hs, hsf⟩
    obtain ⟨t, ht, s, hs, hsf⟩ := this
    exact ⟨s, hsrc x hx t ht s hs, hsf, hsrc x hx t ht s hs, hx, t, ht, hs⟩
  let U := { x : OpId // x ∈ g.ops ∧ x ∉ flags }
  let R : U → U → Prop := fun a b => Relation.TransGen (dep g) a.1 b.1
  haveI : Finite U :=
    Finite.of_injective (fun a : U => (⟨a.1, a.2.1⟩ : { x // x ∈ g.ops }))
      (fun a b hab => Subtype.ext (by simpa using congrArg Subtype.val hab))
  haveI : IsTrans U R := ⟨fun _ _ _ hab hbc => Relation.TransGen.trans hab hbc⟩
  haveI : IsIrrefl U R := ⟨fun a => hirr a.1⟩
  have hwf : WellFounded R := Finite.wellFounded_of_trans_of_irrefl R
  obtain ⟨x0, hx0, hx0f⟩ := hne
  obtain ⟨m, _, hmin⟩ := hwf.has_min Set.univ ⟨⟨x0, hx0, hx0f⟩, Set.mem_univ _⟩
  obtain ⟨s, hs, hsf, hdep⟩ := hpred m.1 m.2.1 m.2.2
  exact hmin ⟨s, hs, hsf⟩ (Set.mem_univ _) (Relation.TransGen.single hdep)

theorem topo_sort_true_order (g : GraphObj) (hs : g.sorted = false)
    (ht : g.topo_sort.1 = true) :
    g.topo_sort.2.ops.Nodup ∧ (∀ x ∈ g.topo_sort.2.ops, x ∈ g.ops) ∧
    g.ops.length ≤ g.topo_sort.2.ops.length ∧
    ProducersFirst g g.topo_sort.2.ops ∧ g.topo_sort.2.opOf = g.opOf ∧
    g.topo_sort.2.tensorOf = g.tensorOf := by
  unfold GraphObj.topo_sort at ht ⊢
  simp only [hs, Bool.false_eq_true, if_false] at ht ⊢
  cases hres : topoLoop g g.ops.length [] [] with
  | done r =>
    obtain ⟨⟨fl, hinv⟩, hlen⟩ := topoLoop_done g _ [] [] r (topoInv_nil g) hres
    exact ⟨hinv.nodup, hinv.sub, hlen, hinv.first, rfl, rfl⟩
  | stuck => rw [hres] at ht; exact absurd ht (by simp)
  | outOfFuel => rw [hres] at ht; exact absurd ht (by simp)

/-- C5 (topological order): for a graph whose `sorted` flag is false, if
`topo_sort()` returns true then the resulting operator sequence has no
repetition and, for every operator `o` in it and every input tensor of `o`
that has a source operator `s`, `s` occurs at a strictly smaller index than
`o`. -/
theorem topo_sort_producers_first (g : GraphObj) (hs : g.sorted = false)
    (ht : g.topo_sort.1 = true) :
    g.topo_sort.2.ops.Nodup ∧ ProducersFirst g.topo_sort.2 g.topo_sort.2.ops := by
  obtain ⟨hnd, _, _, hfirst, ho, htn⟩ := topo_sort_true_order g hs ht
  refine ⟨hnd, ?_⟩
  unfold ProducersFirst
  rw [ho, htn]
  exact hfirst

/-- C6 (failure exactly on cycles): for a graph with `sorted = false`,
distinct operators in `ops`, and the source of every operator input absent or
a member of `ops`, `topo_sort()` returns false if and only if the
producer-consumer dependency among the operators contains a cycle, and it
returns true if and only if some topological order of `ops` exists; the
`false` is the `return false` of the loop, which never lacks passes. -/
theorem topo_sort_false_iff_cycle (g : GraphObj) (hs : g.sorted = false)
    (hnd : g.ops.Nodup)
    (hsrc : ∀ o ∈ g.ops, ∀ t ∈ (g.opOf o).inputs, ∀ s,
      (g.tensorOf t).source = some s → s ∈ g.ops) :
    (g.topo_sort.1 = false ↔ HasCycle g) ∧
    (g.topo_sort.1 = true ↔ ∃ r, TopoOrder g r) ∧
    topoLoop g g.ops.length [] [] ≠ TopoResult.outOfFuel := by
  have hfuel := topoLoop_fuel g g.ops.length [] [] (by simp)
  have htrue : g.topo_sort.1 = true → ∃ r, TopoOrder g r := by
    intro ht
    obtain ⟨hrnd, hsub, hlen, hfirst, _, _⟩ := topo_sort_true_order g hs ht
    exact ⟨g.topo_sort.2.ops, (hrnd.subperm hsub).perm_of_length_le hlen, hfirst⟩
  have hfalse : g.topo_sort.1 = false → HasCycle g := by
    intro hf
    unfold GraphObj.topo_sort at hf
    simp only [hs, Bool.false_eq_true, if_false] at hf
    cases hres : topoLoop g g.ops.length [] [] with
    | done r => rw [hres] at hf; exact absurd hf (by simp)
    | outOfFuel => exact absurd hres hfuel
    | stuck =>
      obtain ⟨s, f, hinv, hlen, hstuck⟩ := topoLoop_stuck g _ [] [] (topoInv_nil g) hres
      exact stuck_has_cycle g s f hnd hsrc hinv hlen hstuck
  refine ⟨⟨hfalse, ?_⟩, ⟨htrue, ?_⟩, hfuel⟩
  · intro hc
    cases hb : g.topo_sort.1 with
    | false => rfl
    | true =>
      obtain ⟨r, hr⟩ := htrue hb
      exact absurd hc (topoOrder_no_cycle g r hnd hr)
  · rintro ⟨r, hr⟩
    cases hb : g.topo_sort.1 with
    | true => rfl
    | false => exact absurd (hfalse hb) (topoOrder_no_cycle g r hnd hr)

/-- Witness for C5: the reversed two-operator chain is sorted into producer
first order. -/
theorem topo_sort_producers_first_witness :
    reversedPair.sorted = false ∧ reversedPair.topo_sort.1 = true ∧
    reversedPair.topo_sort.2.ops = [0, 1] ∧
    reversedPair.topo_sort.2.ops.Nodup ∧
    ProducersFirst reversedPair.topo_sort.2 reversedPair.topo_sort.2.ops :=
  ⟨rfl, by decide, by decide,
    (topo_sort_producers_first reversedPair rfl (by decide)).1,
    (topo_sort_producers_first reversedPair rfl (by decide)).2⟩

/-- Witness for C6: two operators feeding each other make `topo_sort` return
false, and they form a dependency cycle. -/
theorem topo_sort_false_iff_cycle_witness :
    feedbackPair.sorted = false ∧ feedbackPair.ops.Nodup ∧
    (∀ o ∈ feedbackPair.ops, ∀ t ∈ (feedbackPair.opOf o).inputs, ∀ s,
      (feedbackPair.tensorOf t).source = some s → s ∈ feedbackPair.ops) ∧
    feedbackPair.topo_sort.1 = false ∧ HasCycle feedbackPair :=
  have hsrc : ∀ o ∈ feedbackPair.ops, ∀ t ∈ (feedbackPair.opOf o).inputs, ∀ s,
      (feedbackPair.tensorOf t).source = some s → s ∈ feedbackPair.ops := by
    intro o ho t ht s hs
    simp only [feedbackPair, List.mem_cons, List.mem_singleton, List.not_mem_nil, or_false] at ho
    rcases ho with rfl | rfl
    · simp only [feedbackPair, List.mem_singleton] at ht
      subst ht
      simp only [feedbackPair, Option.some.injEq] at hs
      subst hs; decide
    · simp only [feedbackPair, List.mem_singleton] at ht
      subst ht
      simp only [feedbackPair, Option.some.injEq] at hs
      subst hs; decide
  ⟨rfl, by decide, hsrc, by decide,
    (topo_sort_false_iff_cycle feedbackPair rfl (by decide) hsrc).1.1 (by decide)⟩


/-! ## Validator -/

theorem checkFuids_iff (g : GraphObj) (l : List TensorId) :
    ∀ seen : List Nat, checkFuids g seen l = true ↔
      (l.map (fun t => (g.tensorOf t).fuid)).Nodup ∧
        ∀ t ∈ l, (g.tensorOf t).fuid ∉ seen := by
  induction l with
  | nil => intro seen; simp [checkFuids]
  | cons x xs ih =>
    intro seen
    unfold checkFuids
    simp only [Bool.and_eq_true, Bool.not_eq_true', decide_eq_false_iff_not, ih,
      List.map_cons, List.nodup_cons, List.mem_map]
    constructor
    · rintro ⟨h1, h2, h3⟩
      refine ⟨⟨?_, h2⟩, ?_⟩
      · rintro ⟨t, ht, heq⟩
        exact h3 t ht (by rw [heq]; exact List.mem_cons_self _ _)
      · intro t ht
        rcases List.mem_cons.1 ht with rfl | ht
        · exact h1
        · exact fun hmem => h3 t ht (List.mem_cons_of_mem _ hmem)
    · rintro ⟨⟨h1, h2⟩, h3⟩
      refine ⟨h3 x (List.mem_cons_self _ _), h2, fun t ht hmem => ?_⟩
      rcases List.mem_cons.1 hmem with heq | hmem
      · exact h1 ⟨t, ht, heq⟩
      · exact h3 t (List.mem_cons_of_mem _ ht) hmem

theorem checkTensor_iff (g : GraphObj) (t : TensorId) :
    checkTensor g t = true ↔
      ¬ ((g.tensorOf t).targets = [] ∧ (g.tensorOf t).source = none) ∧
      (∀ c ∈ (g.tensorOf t).targets, c ∈ g.ops) ∧
      (∀ s, (g.tensorOf t).source = some s → s ∈ g.ops) := by
  simp only [checkTensor]
  cases hs : (g.tensorOf t).source with
  | none => simp [List.length_eq_zero]
  | some s => simp

theorem checkOp_iff (g : GraphObj) (o : OpId) :
    checkOp g o = true ↔
      ((∀ t ∈ (g.opOf o).inputs, t ∈ g.tensors) ∧ (∀ t ∈ (g.opOf o).outputs, t ∈ g.tensors)) ∧
      ((∀ p ∈ (g.opOf o).predecessors, p ∈ g.ops) ∧ (∀ s ∈ (g.opOf o).successors, s ∈ g.ops)) := by
  unfold checkOp
  simp only [Bool.and_eq_true, List.all_eq_true, decide_eq_true_eq]
  tauto

/-- What `checkValid` checks, stated on the code's own terms. -/
theorem checkValid_iff_raw (g : GraphObj) :
    g.checkValid = true ↔
      (∀ t ∈ g.tensors, ¬ ((g.tensorOf t).targets = [] ∧ (g.tensorOf t).source = none)) ∧
      TensorEdgesInOps g ∧ OpTensorsListed g ∧ OpNeighboursInOps g ∧ FuidUnique g := by
  unfold GraphObj.checkValid TensorEdgesInOps OpTensorsListed OpNeighboursInOps FuidUnique
  simp only [Bool.and_eq_true, List.all_eq_true, checkTensor_iff, checkOp_iff, checkFuids_iff,
    List.not_mem_nil, not_false_eq_true, implies_true, and_true]
  constructor
  · rintro ⟨⟨h1, h2⟩, h3⟩
    exact ⟨fun t ht => (h1 t ht).1, fun t ht => (h1 t ht).2, fun o ho => (h2 o ho).1,
      fun o ho => (h2 o ho).2, h3⟩
  · rintro ⟨h1, h2, h3, h4, h5⟩
    exact ⟨⟨fun t ht => ⟨h1 t ht, h2 t ht⟩, fun o ho => ⟨h3 o ho, h4 o ho⟩⟩, h5⟩

/-- C10 (validator completeness, refuted as stated): `checkValid` returns
true on a graph whose only tensor names as its source an operator that does
not list the tensor among its outputs, so bipartite coherence, and with it
the conjunction of all invariants of the data model, fails on a graph that
the validator accepts. -/
theorem checkValid_misses_coherence :
    incoherentGraph.checkValid = true ∧ ¬ BipartiteCoherent incoherentGraph ∧
    ¬ AllInvariants incoherentGraph := by
  have hb : ¬ BipartiteCoherent incoherentGraph := by
    intro h
    have := (h 0 (by decide)).1 0 rfl
    exact absurd this (by decide)
  exact ⟨by decide, hb, fun h => hb h.2.2.2.2.1⟩

/-- The reversed chain with the `sorted` flag set does not have its producers
first: `op1`, at position 0, reads `t1`, whose source `op0` is at position 1. -/
theorem sortedReversedPair_not_sorted :
    ¬ ProducersFirst sortedReversedPair sortedReversedPair.ops ∧
    ¬ SortedOrder sortedReversedPair := by
  have h : ¬ ProducersFirst sortedReversedPair sortedReversedPair.ops := by
    intro h
    obtain ⟨j, _, hlt, _⟩ := h 0 (by decide) 1 (by decide) 0 rfl
    exact absurd hlt (Nat.not_lt_zero _)
  exact ⟨h, fun hs => h (hs rfl)⟩

/-- C10 (as amended): `checkValid` returns true exactly when no tensor is an
orphan, the source and the targets of every tensor are in `ops`, the inputs
and outputs of every operator are in the tensor list, every predecessor and
successor is in `ops`, and the FUIDs are pairwise different; so it fails on
every graph that violates one of these. It does not check bipartite
coherence: it returns true on `incoherentGraph`, whose tensor names a source
that does not list it as an output. It does not check the order required by
the `sorted` flag: it returns true on `sortedReversedPair`, which has the flag
set and a consumer listed before its producer. -/
theorem checkValid_iff_checked_invariants :
    (∀ g : GraphObj, g.checkValid = true ↔
      NoOrphan g ∧ TensorEdgesInOps g ∧ OpTensorsListed g ∧ OpNeighboursInOps g ∧
        FuidUnique g) ∧
    (incoherentGraph.checkValid = true ∧ ¬ BipartiteCoherent incoherentGraph) ∧
    (sortedReversedPair.checkValid = true ∧ sortedReversedPair.sorted = true ∧
      sortedReversedPair.ops = [1, 0] ∧
      ¬ ProducersFirst sortedReversedPair sortedReversedPair.ops ∧
      ¬ SortedOrder sortedReversedPair ∧ ¬ AllInvariants sortedReversedPair) := by
  refine ⟨fun g => ?_,
    ⟨by decide, fun h => absurd ((h 0 (by decide)).1 0 rfl) (by decide)⟩,
    ⟨by decide, rfl, rfl, sortedReversedPair_not_sorted.1, sortedReversedPair_not_sorted.2,
      fun h => sortedReversedPair_not_sorted.2 h.2.2.2.2.2⟩⟩
  rw [checkValid_iff_raw]
  constructor
  · rintro ⟨h1, h2, h3, h4, h5⟩
    refine ⟨fun t ht => ?_, h2, h3, h4, h5⟩
    cases hs : (g.tensorOf t).source with
    | some s => exact Or.inl ⟨s, rfl, (h2 t ht).2 s hs⟩
    | none =>
      cases htg : (g.tensorOf t).targets with
      | nil => exact absurd ⟨htg, hs⟩ (h1 t ht)
      | cons c cs =>
        exact Or.inr ⟨c, List.mem_cons_self _ _,
          (h2 t ht).1 c (by rw [htg]; exact List.mem_cons_self _ _)⟩
  · rintro ⟨h1, h2, h3, h4, h5⟩
    refine ⟨fun t ht => ?_, h2, h3, h4, h5⟩
    rintro ⟨htg, hs⟩
    rcases h1 t ht with ⟨s, hs2, _⟩ | ⟨c, hc, _⟩
    · rw [hs] at hs2; exact Option.noConfusion hs2
    · rw [htg] at hc; exact absurd hc (List.not_mem_nil _)

/-! ## `addOperatorAndConnect` -/

theorem mem_setAdd (x a : Nat) (xs : List Nat) : x ∈ setAdd a xs ↔ x = a ∨ x ∈ xs := by
  unfold setAdd
  by_cases h : a ∈ xs
  · rw [if_pos h]
    constructor
    · exact Or.inr
    · rintro (rfl | h2)
      · exact h
      · exact h2
  · rw [if_neg h, List.mem_append, List.mem_singleton]
    tauto

theorem Wired.refl (op : OpId) (g : GraphObj) : Wired op g g :=
  ⟨rfl, rfl, rfl, fun _ => rfl, fun _ => rfl, fun _ => rfl, fun _ _ h => h,
    fun _ _ h => Or.inl h, fun _ => Or.inl rfl, fun _ _ h => h, fun _ _ h => h,
    fun _ _ h => Or.inl h, fun _ _ h => Or.inl h⟩

theorem Wired.trans {op : OpId} {g g1 g2 : GraphObj} (h1 : Wired op g g1)
    (h2 : Wired op g1 g2) : Wired op g g2 := by
  refine ⟨h2.ops_eq.trans h1.ops_eq, h2.tensors_eq.trans h1.tensors_eq,
    h2.sorted_eq.trans h1.sorted_eq, fun o => (h2.inputs_eq o).trans (h1.inputs_eq o),
    fun o => (h2.outputs_eq o).trans (h1.outputs_eq o),
    fun t => (h2.fuid_eq t).trans (h1.fuid_eq t),
    fun t c h => h2.targets_mono t c (h1.targets_mono t c h), ?_, ?_,
    fun o p h => h2.preds_mono o p (h1.preds_mono o p h),
    fun o s h => h2.succs_mono o s (h1.succs_mono o s h), ?_, ?_⟩
  · intro t c h
    rcases h2.targets_new t c h with h | h
    · exact h1.targets_new t c h
    · exact Or.inr h
  · intro t
    rcases h2.source_new t with h | h
    · rw [h]; exact h1.source_new t
    · exact Or.inr h
  · intro o p h
    rcases h2.preds_new o p h with h | h
    · exact h1.preds_new o p h
    · exact Or.inr (h1.ops_eq ▸ h)
  · intro o s h
    rcases h2.succs_new o s h with h | h
    · exact h1.succs_new o s h
    · exact Or.inr (h1.ops_eq ▸ h)

theorem wired_addTarget (op : OpId) (g : GraphObj) (t : TensorId) :
    Wired op g (g.addTarget t op) := by
  refine ⟨rfl, rfl, rfl, fun _ => rfl, fun _ => rfl, ?_, ?_, ?_, ?_, fun _ _ h => h,
    fun _ _ h => h, fun _ _ h => Or.inl h, fun _ _ h => Or.inl h⟩
  · intro j
    simp only [GraphObj.addTarget, GraphObj.setTensor]
    split_ifs with h
    · rw [h]
    · rfl
  · intro j c hc
    simp only [GraphObj.addTarget, GraphObj.setTensor]
    split_ifs with h
    · subst h; exact (mem_setAdd _ _ _).2 (Or.inr hc)
    · exact hc
  · intro j c hc
    simp only [GraphObj.addTarget, GraphObj.setTensor] at hc
    split_ifs at hc with h
    · subst h
      rcases (mem_setAdd _ _ _).1 hc with h | h
      · exact Or.inr h
      · exact Or.inl h
    · exact Or.inl hc
  · intro j
    left
    simp only [GraphObj.addTarget, GraphObj.setTensor]
    split_ifs with h
    · rw [h]
    · rfl

theorem wired_setSource (op : OpId) (g : GraphObj) (t : TensorId) :
    Wired op g (g.setSource t (some op)) := by
  refine ⟨rfl, rfl, rfl, fun _ => rfl, fun _ => rfl, ?_, ?_, ?_, ?_, fun _ _ h => h,
    fun _ _ h => h, fun _ _ h => Or.inl h, fun _ _ h => Or.inl h⟩
  · intro j
    simp only [GraphObj.setSource, GraphObj.setTensor]
    split_ifs with h
    · rw [h]
    · rfl
  · intro j c hc
    simp only [GraphObj.setSource, GraphObj.setTensor]
    split_ifs with h
    · subst h; exact hc
    · exact hc
  · intro j c hc
    simp only [GraphObj.setSource, GraphObj.setTensor] at hc
    split_ifs at hc with h
    · subst h; exact Or.inl hc
    · exact Or.inl hc
  · intro j
    simp only [GraphObj.setSource, GraphObj.setTensor]
    split_ifs with h
    · exact Or.inr rfl
    · exact Or.inl rfl

theorem wired_addPredecessors (op : OpId) (g : GraphObj) (o p : OpId) (hp : p ∈ g.ops) :
    Wired op g (g.addPredecessors o p) := by
  refine ⟨rfl, rfl, rfl, ?_, ?_, fun _ => rfl, fun _ _ h => h, fun _ _ h => Or.inl h,
    fun _ => Or.inl rfl, ?_, ?_, ?_, ?_⟩
  · intro j
    simp only [GraphObj.addPredecessors, GraphObj.setOp]
    split_ifs with h
    · rw [h]
    · rfl
  · intro j
    simp only [GraphObj.addPredecessors, GraphObj.setOp]
    split_ifs with h
    · rw [h]
    · rfl
  · intro j q hq
    simp only [GraphObj.addPredecessors, GraphObj.setOp]
    split_ifs with h
    · subst h; exact (mem_setAdd _ _ _).2 (Or.inr hq)
    · exact hq
  · intro j q hq
    simp only [GraphObj.addPredecessors, GraphObj.setOp]
    split_ifs with h
    · subst h; exact hq
    · exact hq
  · intro j q hq
    simp only [GraphObj.addPredecessors, GraphObj.setOp] at hq
    split_ifs at hq with h
    · subst h
      rcases (mem_setAdd _ _ _).1 hq with h | h
      · subst h; exact Or.inr hp
      · exact Or.inl h
    · exact Or.inl hq
  · intro j q hq
    simp only [GraphObj.addPredecessors, GraphObj.setOp] at hq
    split_ifs at hq with h
    · subst h; exact Or.inl hq
    · exact Or.inl hq

theorem wired_addSuccessors (op : OpId) (g : GraphObj) (o s : OpId) (hs : s ∈ g.ops) :
    Wired op g (g.addSuccessors o s) := by
  refine ⟨rfl, rfl, rfl, ?_, ?_, fun _ => rfl, fun _ _ h => h, fun _ _ h => Or.inl h,
    fun _ => Or.inl rfl, ?_, ?_, ?_, ?_⟩
  · intro j
    simp only [GraphObj.addSuccessors, GraphObj.setOp]
    split_ifs with h
    · rw [h]
    · rfl
  · intro j
    simp only [GraphObj.addSuccessors, GraphObj.setOp]
    split_ifs with h
    · rw [h]
    · rfl
  · intro j q hq
    simp only [GraphObj.addSuccessors, GraphObj.setOp]
    split_ifs with h
    · subst h; exact hq
    · exact hq
  · intro j q hq
    simp only [GraphObj.addSuccessors, GraphObj.setOp]
    split_ifs with h
    · subst h; exact (mem_setAdd _ _ _).2 (Or.inr hq)
    · exact hq
  · intro j q hq
    simp only [GraphObj.addSuccessors, GraphObj.setOp] at hq
    split_ifs at hq with h
    · subst h; exact Or.inl hq
    · exact Or.inl hq
  · intro j q hq
    simp only [GraphObj.addSuccessors, GraphObj.setOp] at hq
    split_ifs at hq with h
    · subst h
      rcases (mem_setAdd _ _ _).1 hq with h | h
      · subst h; exact Or.inr hs
      · exact Or.inl h
    · exact Or.inl hq

theorem mem_preds_addPredecessors (g : GraphObj) (o p : OpId) :
    p ∈ ((g.addPredecessors o p).opOf o).predecessors := by
  simp only [GraphObj.addPredecessors, GraphObj.setOp, if_true]
  exact (mem_setAdd _ _ _).2 (Or.inl rfl)

theorem mem_succs_addSuccessors (g : GraphObj) (o s : OpId) :
    s ∈ ((g.addSuccessors o s).opOf o).successors := by
  simp only [GraphObj.addSuccessors, GraphObj.setOp, if_true]
  exact (mem_setAdd _ _ _).2 (Or.inl rfl)

theorem mem_targets_addTarget (g : GraphObj) (t : TensorId) (op : OpId) :
    op ∈ ((g.addTarget t op).tensorOf t).targets := by
  simp only [GraphObj.addTarget, GraphObj.setTensor, if_true]
  exact (mem_setAdd _ _ _).2 (Or.inl rfl)

/-- Wiring steps for an operator of the graph keep `checkValid` true. -/
theorem checkValid_of_wired (op : OpId) (g g1 : GraphObj) (hw : Wired op g g1)
    (hop : op ∈ g.ops) (hv : g.checkValid = true) : g1.checkValid = true := by
  rw [checkValid_iff_raw] at hv ⊢
  obtain ⟨h1, h2, h3, h4, h5⟩ := hv
  refine ⟨?_, ?_, ?_, ?_, ?_⟩
  · intro t ht
    rw [hw.tensors_eq] at ht
    rintro ⟨htg, hs⟩
    apply h1 t ht
    constructor
    · cases htg0 : (g.tensorOf t).targets with
      | nil => rfl
      | cons c cs =>
        have := hw.targets_mono t c (by rw [htg0]; exact List.mem_cons_self _ _)
        rw [htg] at this
        exact absurd this (List.not_mem_nil _)
    · rcases hw.source_new t with h | h
      · rw [← h]; exact hs
      · rw [hs] at h; exact Option.noConfusion h
  · intro t ht
    rw [hw.tensors_eq] at ht
    rw [hw.ops_eq]
    constructor
    · intro c hc
      rcases hw.targets_new t c hc with h | h
      · exact (h2 t ht).1 c h
      · rw [h]; exact hop
    · intro s hs
      rcases hw.source_new t with h | h
      · exact (h2 t ht).2 s (by rw [← h]; exact hs)
      · rw [hs] at h; injection h with h; rw [h]; exact hop
  · intro o ho
    rw [hw.ops_eq] at ho
    rw [hw.tensors_eq, hw.inputs_eq, hw.outputs_eq]
    exact h3 o ho
  · intro o ho
    rw [hw.ops_eq] at ho ⊢
    constructor
    · intro p hp
      rcases hw.preds_new o p hp with h | h
      · exact (h4 o ho).1 p h
      · exact h
    · intro s hs
      rcases hw.succs_new o s hs with h | h
      · exact (h4 o ho).2 s h
      · exact h
  · unfold FuidUnique at h5 ⊢
    rw [hw.tensors_eq]
    have : (fun t => (g1.tensorOf t).fuid) = (fun t => (g.tensorOf t).fuid) :=
      funext (fun t => hw.fuid_eq t)
    rw [this]; exact h5

theorem foldl_connectSucc (op : OpId) (l : List OpId) :
    ∀ g : GraphObj, op ∈ g.ops → (∀ c ∈ l, c ∈ g.ops) →
      Wired op g (l.foldl (connectSucc op) g) ∧
      (l.foldl (connectSucc op) g).tensorOf = g.tensorOf ∧
      ∀ c ∈ l, op ∈ ((l.foldl (connectSucc op) g).opOf c).predecessors ∧
        c ∈ ((l.foldl (connectSucc op) g).opOf op).successors := by
  induction l with
  | nil =>
    intro g _ _
    exact ⟨Wired.refl op g, rfl, fun c hc => absurd hc (List.not_mem_nil _)⟩
  | cons x xs ih =>
    intro g hop hl
    have hx : x ∈ g.ops := hl x (List.mem_cons_self _ _)
    have hw1 : Wired op g (connectSucc op g x) :=
      (wired_addPredecessors op g x op hop).trans
        (wired_addSuccessors op (g.addPredecessors x op) op x hx)
    obtain ⟨hw2, ht2, hach⟩ := ih (connectSucc op g x)
      (by rw [hw1.ops_eq]; exact hop)
      (fun c hc => by rw [hw1.ops_eq]; exact hl c (List.mem_cons_of_mem _ hc))
    rw [List.foldl_cons]
    refine ⟨hw1.trans hw2, ht2.trans rfl, ?_⟩
    intro c hc
    rcases List.mem_cons.1 hc with rfl | hc
    · constructor
      · apply hw2.preds_mono
        exact (wired_addSuccessors op (g.addPredecessors c op) op c hx).preds_mono _ _
          (mem_preds_addPredecessors g c op)
      · apply hw2.succs_mono
        exact mem_succs_addSuccessors (g.addPredecessors c op) op c
    · exact hach c hc

theorem connectInput_spec (op : OpId) (g : GraphObj) (t : TensorId) (hop : op ∈ g.ops)
    (hsrc : ∀ s, (g.tensorOf t).source = some s → s ∈ g.ops) :
    Wired op g (connectInput op g t) ∧
    (∀ j, ((connectInput op g t).tensorOf j).source = (g.tensorOf j).source) ∧
    op ∈ ((connectInput op g t).tensorOf t).targets ∧
    ∀ s, (g.tensorOf t).source = some s →
      op ∈ ((connectInput op g t).opOf s).successors ∧
      s ∈ ((connectInput op g t).opOf op).predecessors := by
  have hsame : ∀ j, ((g.addTarget t op).tensorOf j).source = (g.tensorOf j).source := by
    intro j
    simp only [GraphObj.addTarget, GraphObj.setTensor]
    split_ifs with h
    · rw [h]
    · rfl
  unfold connectInput
  simp only
  rw [hsame t]
  cases hs : (g.tensorOf t).source with
  | none =>
    simp only
    exact ⟨wired_addTarget op g t, hsame, mem_targets_addTarget g t op,
      fun s h => Option.noConfusion h⟩
  | some pred =>
    simp only
    have hpred : pred ∈ g.ops := hsrc pred hs
    refine ⟨(wired_addTarget op g t).trans
      ((wired_addSuccessors op (g.addTarget t op) pred op hop).trans
        (wired_addPredecessors op ((g.addTarget t op).addSuccessors pred op) op pred hpred)),
      hsame, mem_targets_addTarget g t op, ?_⟩
    intro s h
    injection h with h
    subst h
    constructor
    · exact (wired_addPredecessors op ((g.addTarget t op).addSuccessors pred op) op pred
        hpred).succs_mono _ _ (mem_succs_addSuccessors (g.addTarget t op) pred op)
    · exact mem_preds_addPredecessors _ op pred

theorem foldl_connectInput (op : OpId) (l : List TensorId) :
    ∀ g : GraphObj, op ∈ g.ops →
      (∀ t ∈ l, ∀ s, (g.tensorOf t).source = some s → s ∈ g.ops) →
      Wired op g (l.foldl (connectInput op) g) ∧
      (∀ j, ((l.foldl (connectInput op) g).tensorOf j).source = (g.tensorOf j).source) ∧
      ∀ t ∈ l, op ∈ ((l.foldl (connectInput op) g).tensorOf t).targets ∧
        ∀ s, (g.tensorOf t).source = some s →
          op ∈ ((l.foldl (connectInput op) g).opOf s).successors ∧
          s ∈ ((l.foldl (connectInput op) g).opOf op).predecessors := by
  induction l with
  | nil =>
    intro g _ _
    exact ⟨Wired.refl op g, fun _ => rfl, fun t ht => absurd ht (List.not_mem_nil _)⟩
  | cons x xs ih =>
    intro g hop hl
    obtain ⟨hw1, hs1, htg1, hlk1⟩ :=
      connectInput_spec op g x hop (hl x (List.mem_cons_self _ _))
    obtain ⟨hw2, hs2, hach⟩ := ih (connectInput op g x)
      (by rw [hw1.ops_eq]; exact hop)
      (fun t ht s hs => by
        rw [hw1.ops_eq]
        exact hl t (List.mem_cons_of_mem _ ht) s (by rw [← hs1 t]; exact hs))
    rw [List.foldl_cons]
    refine ⟨hw1.trans hw2, fun j => (hs2 j).trans (hs1 j), ?_⟩
    intro t ht
    rcases List.mem_cons.1 ht with rfl | ht
    · refine ⟨hw2.targets_mono _ _ htg1, fun s hs => ?_⟩
      exact ⟨hw2.succs_mono _ _ (hlk1 s hs).1, hw2.preds_mono _ _ (hlk1 s hs).2⟩
    · refine ⟨(hach t ht).1, fun s hs => ?_⟩
      exact (hach t ht).2 s (by rw [hs1 t]; exact hs)

theorem connectOutput_spec (op : OpId) (g : GraphObj) (t : TensorId) (hop : op ∈ g.ops)
    (htg : ∀ c ∈ (g.tensorOf t).targets, c ∈ g.ops) :
    Wired op g (connectOutput op g t) ∧
    (∀ j, ((connectOutput op g t).tensorOf j).targets = (g.tensorOf j).targets) ∧
    ((connectOutput op g t).tensorOf t).source = some op ∧
    (∀ j, j ≠ t → ((connectOutput op g t).tensorOf j).source = (g.tensorOf j).source) ∧
    ∀ c ∈ (g.tensorOf t).targets,
      op ∈ ((connectOutput op g t).opOf c).predecessors ∧
      c ∈ ((connectOutput op g t).opOf op).successors := by
  have hsame : ∀ j, ((g.setSource t (some op)).tensorOf j).targets = (g.tensorOf j).targets := by
    intro j
    simp only [GraphObj.setSource, GraphObj.setTensor]
    split_ifs with h
    · rw [h]
    · rfl
  have hsrc : ((g.setSource t (some op)).tensorOf t).source = some op := by
    simp only [GraphObj.setSource, GraphObj.setTensor, if_true]
  have hoth : ∀ j, j ≠ t →
      ((g.setSource t (some op)).tensorOf j).source = (g.tensorOf j).source := by
    intro j hj
    simp only [GraphObj.setSource, GraphObj.setTensor, if_neg hj]
  unfold connectOutput
  simp only
  rw [hsame t]
  obtain ⟨hw, hten, hach⟩ :=
    foldl_connectSucc op (g.tensorOf t).targets (g.setSource t (some op)) hop htg
  refine ⟨(wired_setSource op g t).trans hw, ?_, ?_, ?_, hach⟩
  · intro j; rw [hten]; exact hsame j
  · rw [hten]; exact hsrc
  · intro j hj; rw [hten]; exact hoth j hj

theorem foldl_connectOutput (op : OpId) (l : List TensorId) :
    ∀ g : GraphObj, op ∈ g.ops →
      (∀ t ∈ l, ∀ c ∈ (g.tensorOf t).targets, c ∈ g.ops) →
      Wired op g (l.foldl (connectOutput op) g) ∧
      (∀ j, ((l.foldl (connectOutput op) g).tensorOf j).targets = (g.tensorOf j).targets) ∧
      (∀ j, j ∉ l → ((l.foldl (connectOutput op) g).tensorOf j).source = (g.tensorOf j).source) ∧
      ∀ t ∈ l, ((l.foldl (connectOutput op) g).tensorOf t).source = some op ∧
        ∀ c ∈ (g.tensorOf t).targets,
          op ∈ ((l.foldl (connectOutput op) g).opOf c).predecessors ∧
          c ∈ ((l.foldl (connectOutput op) g).opOf op).successors := by
  induction l with
  | nil =>
    intro g _ _
    exact ⟨Wired.refl op g, fun _ => rfl, fun _ _ => rfl,
      fun t ht => absurd ht (List.not_mem_nil _)⟩
  | cons x xs ih =>
    intro g hop hl
    obtain ⟨hw1, ht1, hs1, ho1, hlk1⟩ :=
      connectOutput_spec op g x hop (hl x (List.mem_cons_self _ _))
    obtain ⟨hw2, ht2, ho2, hach⟩ := ih (connectOutput op g x)
      (by rw [hw1.ops_eq]; exact hop)
      (fun t ht c hc => by
        rw [hw1.ops_eq]
        exact hl t (List.mem_cons_of_mem _ ht) c (by rw [← ht1 t]; exact hc))
    rw [List.foldl_cons]
    refine ⟨hw1.trans hw2, fun j => (ht2 j).trans (ht1 j), ?_, ?_⟩
    · intro j hj
      rw [List.mem_cons, not_or] at hj
      rw [ho2 j hj.2]; exact ho1 j hj.1
    · intro t ht
      rcases List.mem_cons.1 ht with rfl | ht
      · constructor
        · rcases hw2.source_new t with h | h
          · rw [h]; exact hs1
          · exact h
        · intro c hc
          exact ⟨hw2.preds_mono _ _ (hlk1 c hc).1, hw2.succs_mono _ _ (hlk1 c hc).2⟩
      · refine ⟨(hach t ht).1, fun c hc => ?_⟩
        exact (hach t ht).2 c (by rw [ht1 t]; exact hc)

/-- C9 (`addOperatorAndConnect` preserves validity): on a graph that passes
`checkValid`, for an operator with empty predecessor and successor sets whose
input and output tensors are in the tensor list, after
`addOperatorAndConnect(op)` the graph passes `checkValid`, `sorted` is false,
`op` is the last element of `ops`, `op` is the source of each of its outputs
and a target of each of its inputs, `op` is linked as successor/predecessor
with the source of each input (the source before the call, and the source
after it), and with each existing target of each output. -/
theorem addOperatorAndConnect_valid (g : GraphObj) (op : OpId)
    (hv : g.checkValid = true)
    (hfresh : (g.opOf op).predecessors = [] ∧ (g.opOf op).successors = [])
    (hin : ∀ t ∈ (g.opOf op).inputs, t ∈ g.tensors)
    (hout : ∀ t ∈ (g.opOf op).outputs, t ∈ g.tensors) :
    (g.addOperatorAndConnect op).checkValid = true ∧
    (g.addOperatorAndConnect op).sorted = false ∧
    (g.addOperatorAndConnect op).ops = g.ops ++ [op] ∧
    (g.addOperatorAndConnect op).ops.getLast? = some op ∧
    (g.addOperatorAndConnect op).tensors = g.tensors ∧
    ((g.addOperatorAndConnect op).opOf op).inputs = (g.opOf op).inputs ∧
    ((g.addOperatorAndConnect op).opOf op).outputs = (g.opOf op).outputs ∧
    (∀ t ∈ (g.opOf op).outputs, ((g.addOperatorAndConnect op).tensorOf t).source = some op) ∧
    (∀ t ∈ (g.opOf op).inputs, op ∈ ((g.addOperatorAndConnect op).tensorOf t).targets) ∧
    (∀ t ∈ (g.opOf op).inputs, ∀ s, (g.tensorOf t).source = some s →
      op ∈ ((g.addOperatorAndConnect op).opOf s).successors ∧
      s ∈ ((g.addOperatorAndConnect op).opOf op).predecessors) ∧
    (∀ t ∈ (g.opOf op).inputs, ∀ s, ((g.addOperatorAndConnect op).tensorOf t).source = some s →
      op ∈ ((g.addOperatorAndConnect op).opOf s).successors ∧
      s ∈ ((g.addOperatorAndConnect op).opOf op).predecessors) ∧
    (∀ t ∈ (g.opOf op).outputs, ∀ c ∈ (g.tensorOf t).targets,
      op ∈ ((g.addOperatorAndConnect op).opOf c).predecessors ∧
      c ∈ ((g.addOperatorAndConnect op).opOf op).successors) := by
  -- the graph after lines 20-21
  obtain ⟨g0, hg0⟩ : ∃ g0 : GraphObj, g0 = { g with sorted := false, ops := g.ops ++ [op] } :=
    ⟨_, rfl⟩
  have hops0 : g0.ops = g.ops ++ [op] := by rw [hg0]
  have hten0 : g0.tensors = g.tensors := by rw [hg0]
  have htof0 : g0.tensorOf = g.tensorOf := by rw [hg0]
  have hoof0 : g0.opOf = g.opOf := by rw [hg0]
  have hsorted0 : g0.sorted = false := by rw [hg0]
  have hop0 : op ∈ g0.ops := by rw [hops0]; simp
  have hraw := (checkValid_iff_raw g).1 hv
  obtain ⟨h1, h2, h3, h4, h5⟩ := hraw
  have hv0 : g0.checkValid = true := by
    rw [checkValid_iff_raw]
    refine ⟨?_, ?_, ?_, ?_, ?_⟩
    · intro t ht; rw [hten0] at ht; rw [htof0]; exact h1 t ht
    · intro t ht
      rw [hten0] at ht
      rw [htof0, hops0]
      exact ⟨fun c hc => List.mem_append_left _ ((h2 t ht).1 c hc),
        fun s hs => List.mem_append_left _ ((h2 t ht).2 s hs)⟩
    · intro o ho
      rw [hops0] at ho
      rw [hoof0, hten0]
      rcases List.mem_append.1 ho with ho | ho
      · exact h3 o ho
      · rw [List.mem_singleton] at ho; subst ho; exact ⟨hin, hout⟩
    · intro o ho
      rw [hops0] at ho ⊢
      rw [hoof0]
      rcases List.mem_append.1 ho with ho | ho
      · exact ⟨fun p hp => List.mem_append_left _ ((h4 o ho).1 p hp),
          fun s hs => List.mem_append_left _ ((h4 o ho).2 s hs)⟩
      · rw [List.mem_singleton] at ho; subst ho
        rw [hfresh.1, hfresh.2]
        exact ⟨fun p hp => absurd hp (List.not_mem_nil _),
          fun s hs => absurd hs (List.not_mem_nil _)⟩
    · unfold FuidUnique at h5 ⊢
      rw [hten0, htof0]; exact h5
  -- the loop over the inputs
  obtain ⟨hw1, hs1, hach1⟩ := foldl_connectInput op (g0.opOf op).inputs g0 hop0
    (fun t ht s hs => by
      rw [hoof0] at ht
      rw [htof0] at hs
      rw [hops0]
      exact List.mem_append_left _ ((h2 t (hin t ht)).2 s hs))
  obtain ⟨g1, hg1⟩ : ∃ g1 : GraphObj, g1 = (g0.opOf op).inputs.foldl (connectInput op) g0 :=
    ⟨_, rfl⟩
  rw [← hg1] at hw1 hs1 hach1
  have hv1 : g1.checkValid = true := checkValid_of_wired op g0 g1 hw1 hop0 hv0
  have hop1 : op ∈ g1.ops := by rw [hw1.ops_eq]; exact hop0
  have hout1 : (g1.opOf op).outputs = (g.opOf op).outputs := by
    rw [hw1.outputs_eq, hoof0]
  -- the loop over the outputs
  obtain ⟨hw2, ht2, ho2, hach2⟩ := foldl_connectOutput op (g1.opOf op).outputs g1 hop1
    (fun t ht c hc => by
      rw [hout1] at ht
      have := ((checkValid_iff_raw g1).1 hv1).2.1 t
        (by rw [hw1.tensors_eq, hten0]; exact hout t ht)
      exact this.1 c hc)
  have hres : g.addOperatorAndConnect op = (g1.opOf op).outputs.foldl (connectOutput op) g1 := by
    unfold GraphObj.addOperatorAndConnect
    simp only
    rw [← hg0, hg1, hoof0]
  rw [hres]
  obtain ⟨g2, hg2⟩ : ∃ g2 : GraphObj, g2 = (g1.opOf op).outputs.foldl (connectOutput op) g1 :=
    ⟨_, rfl⟩
  rw [← hg2] at hw2 ht2 ho2 hach2 ⊢
  have hw : Wired op g0 g2 := hw1.trans hw2
  have hlink1 : ∀ t ∈ (g.opOf op).inputs, ∀ s, (g.tensorOf t).source = some s →
      op ∈ (g2.opOf s).successors ∧ s ∈ (g2.opOf op).predecessors := by
    intro t ht s hs
    have := (hach1 t (by rw [hoof0]; exact ht)).2 s (by rw [htof0]; exact hs)
    exact ⟨hw2.succs_mono _ _ this.1, hw2.preds_mono _ _ this.2⟩
  have htgt : ∀ t ∈ (g.opOf op).inputs, op ∈ (g1.tensorOf t).targets :=
    fun t ht => (hach1 t (by rw [hoof0]; exact ht)).1
  refine ⟨checkValid_of_wired op g0 g2 hw hop0 hv0, by rw [hw.sorted_eq]; exact hsorted0,
    by rw [hw.ops_eq]; exact hops0, by rw [hw.ops_eq, hops0]; simp,
    by rw [hw.tensors_eq]; exact hten0, by rw [hw.inputs_eq, hoof0],
    by rw [hw.outputs_eq, hoof0], ?_, ?_, hlink1, ?_, ?_⟩
  · intro t ht
    exact (hach2 t (by rw [hout1]; exact ht)).1
  · intro t ht
    rw [ht2 t]; exact htgt t ht
  · intro t ht s hs
    by_cases hto : t ∈ (g1.opOf op).outputs
    · have hsop := (hach2 t hto).1
      rw [hsop] at hs
      injection hs with hs
      subst hs
      exact ((hach2 t hto).2 _ (htgt t ht)).symm
    · rw [ho2 t hto, hs1 t, htof0] at hs
      exact hlink1 t ht s hs
  · intro t ht c hc
    apply (hach2 t (by rw [hout1]; exact ht)).2 c
    apply hw1.targets_mono
    rw [htof0]; exact hc

/-- Witness for C9: adding the pending operator `op2` to the two-operator
chain. -/
theorem addOperatorAndConnect_valid_witness :
    pendingOpGraph.checkValid = true ∧
    ((pendingOpGraph.opOf 2).predecessors = [] ∧ (pendingOpGraph.opOf 2).successors = []) ∧
    (∀ t ∈ (pendingOpGraph.opOf 2).inputs, t ∈ pendingOpGraph.tensors) ∧
    (∀ t ∈ (pendingOpGraph.opOf 2).outputs, t ∈ pendingOpGraph.tensors) ∧
    (pendingOpGraph.addOperatorAndConnect 2).checkValid = true ∧
    (pendingOpGraph.addOperatorAndConnect 2).sorted = false ∧
    (pendingOpGraph.addOperatorAndConnect 2).ops = [0, 1, 2] :=
  ⟨by decide, ⟨rfl, rfl⟩, by decide, by decide,
    (addOperatorAndConnect_valid pendingOpGraph 2 (by decide) ⟨rfl, rfl⟩
      (by decide) (by decide)).1,
    (addOperatorAndConnect_valid pendingOpGraph 2 (by decide) ⟨rfl, rfl⟩
      (by decide) (by decide)).2.1,
    (addOperatorAndConnect_valid pendingOpGraph 2 (by decide) ⟨rfl, rfl⟩
      (by decide) (by decide)).2.2.1⟩

/-! ## Memory planner -/

theorem getAlignedSize_congr (x : Allocator) (h : x.alignment = 8) (B : Nat) :
    x.getAlignedSize B = Allocator.fresh.getAlignedSize B := by
  simp only [Allocator.getAlignedSize, h, Allocator.fresh]

theorem lowerBound_single (x a : Nat) :
    lowerBound [(⟨x, a⟩ : Block)] ⟨0, a⟩ = some ⟨x, a⟩ := by
  simp only [lowerBound, List.find?, Block.lt, ne_eq, not_true_eq_false, if_false,
    Nat.not_lt_zero, decide_False, Bool.not_false]

theorem alloc_on_empty (A : Allocator) (B : Nat) (hp : A.ptr = none) (h8 : A.alignment = 8)
    (hf : A.frees = []) :
    A.alloc B = some (A.peak, ⟨szAdd A.used (Allocator.fresh.getAlignedSize B),
      szAdd A.peak (Allocator.fresh.getAlignedSize B), 8, none, []⟩) := by
  unfold Allocator.alloc
  rw [getAlignedSize_congr A h8, hf, hp, h8]
  generalize Allocator.fresh.getAlignedSize B = a
  rfl

theorem alloc_on_single (A : Allocator) (B x : Nat) (hp : A.ptr = none)
    (h8 : A.alignment = 8) (hf : A.frees = [⟨x, Allocator.fresh.getAlignedSize B⟩]) :
    A.alloc B = some (x, ⟨szAdd A.used (Allocator.fresh.getAlignedSize B), A.peak, 8, none, []⟩) := by
  unfold Allocator.alloc
  rw [getAlignedSize_congr A h8, hf, hp, h8]
  generalize Allocator.fresh.getAlignedSize B = a
  simp only [lowerBound_single, ne_eq, not_true_eq_false, if_false, lt_self_iff_false,
    List.erase_cons_head]

theorem free_on_empty (A : Allocator) (B x : Nat) (hp : A.ptr = none)
    (h8 : A.alignment = 8) (hf : A.frees = []) :
    A.free x B = some ⟨szSub A.used (Allocator.fresh.getAlignedSize B), A.peak, 8, none,
        [⟨x, Allocator.fresh.getAlignedSize B⟩]⟩ := by
  unfold Allocator.free
  rw [getAlignedSize_congr A h8, hf, hp, h8]
  generalize Allocator.fresh.getAlignedSize B = a
  rfl

theorem getPtr_getPtr (a : Allocator) (rt : RuntimeObj) :
    (a.getPtr rt).2.1.getPtr (a.getPtr rt).2.2 = a.getPtr rt := by
  unfold Allocator.getPtr
  cases h : a.ptr with
  | none => rfl
  | some p => simp only [h]

theorem getPtr_ptr (a : Allocator) (rt : RuntimeObj) :
    (a.getPtr rt).2.1.ptr = some (a.getPtr rt).1 := by
  unfold Allocator.getPtr
  cases h : a.ptr with
  | none => rfl
  | some p => simp only [h]

theorem getPtr_peak (a : Allocator) (rt : RuntimeObj) :
    (a.getPtr rt).2.1.peak = a.peak := by
  unfold Allocator.getPtr
  cases h : a.ptr with
  | none => rfl
  | some p => rfl

theorem get_touch (m : PtrMap) (k t : TensorId) : PtrMap.get (m.touch k) t = m.get t := by
  unfold PtrMap.touch
  cases hc : m.contains k with
  | true => simp only [if_true]
  | false =>
    simp only [Bool.false_eq_true, if_false, PtrMap.get, List.lookup]
    by_cases htk : t = k
    · subst htk
      simp only [beq_self_eq_true]
      unfold PtrMap.contains at hc
      cases hl : List.lookup t m with
      | none => rfl
      | some v => rw [hl] at hc; exact absurd hc (by simp)
    · have : (t == k) = false := by simpa using htk
      simp only [this]

/-- What the last loop of `dataMalloc` leaves: the lists are kept, the
allocator is the one after `getPtr`, and every listed tensor holds the pool
pointer plus its offset. -/
theorem installBlobs_spec (l : List TensorId) :
    ∀ (g : GraphObj) (off : PtrMap),
      (installBlobs l g off).tensors = g.tensors ∧
      (installBlobs l g off).ops = g.ops ∧
      (l ≠ [] → (installBlobs l g off).allocator = (g.allocator.getPtr g.runtime).2.1) ∧
      (∀ t, t ∉ l → (installBlobs l g off).tensorOf t = g.tensorOf t) ∧
      (l.Nodup → ∀ t ∈ l, ((installBlobs l g off).tensorOf t).data =
        some ((g.allocator.getPtr g.runtime).1 + off.get t)) := by
  induction l with
  | nil =>
    intro g off
    exact ⟨rfl, rfl, fun h => absurd rfl h, fun _ _ => rfl,
      fun _ t ht => absurd ht (List.not_mem_nil _)⟩
  | cons x rest ih =>
    intro g off
    obtain ⟨g1, hg1⟩ : ∃ g1 : GraphObj, g1 =
        ({ g with allocator := (g.allocator.getPtr g.runtime).2.1,
                  runtime := (g.allocator.getPtr g.runtime).2.2 } : GraphObj).setDataBlob x
          ((g.allocator.getPtr g.runtime).1 + off.get x) := ⟨_, rfl⟩
    have hstep : installBlobs (x :: rest) g off = installBlobs rest g1 (off.touch x) := by
      rw [hg1]; rfl
    have hal1 : g1.allocator = (g.allocator.getPtr g.runtime).2.1 := by rw [hg1]; rfl
    have hrt1 : g1.runtime = (g.allocator.getPtr g.runtime).2.2 := by rw [hg1]; rfl
    have hten1 : g1.tensors = g.tensors := by rw [hg1]; rfl
    have hops1 : g1.ops = g.ops := by rw [hg1]; rfl
    have hsame : ∀ t, t ≠ x → g1.tensorOf t = g.tensorOf t := by
      intro t ht
      rw [hg1]
      simp only [GraphObj.setDataBlob, GraphObj.setTensor, if_neg ht]
    have hdata : (g1.tensorOf x).data = some ((g.allocator.getPtr g.runtime).1 + off.get x) := by
      rw [hg1]
      simp only [GraphObj.setDataBlob, GraphObj.setTensor, if_true]
    have hget1 : g1.allocator.getPtr g1.runtime = g.allocator.getPtr g.runtime := by
      rw [hal1, hrt1]; exact getPtr_getPtr _ _
    obtain ⟨i1, i2, i3, i4, i5⟩ := ih g1 (off.touch x)
    rw [hstep]
    refine ⟨i1.trans hten1, i2.trans hops1, fun _ => ?_, ?_, ?_⟩
    · by_cases hr : rest = []
      · subst hr; exact hal1
      · rw [i3 hr, hget1]
    · intro t ht
      rw [List.mem_cons, not_or] at ht
      rw [i4 t ht.2]; exact hsame t ht.1
    · intro hnd t ht
      rw [List.nodup_cons] at hnd
      rcases List.mem_cons.1 ht with rfl | ht
      · rw [i4 t hnd.1]; exact hdata
      · rw [i5 hnd.2 t ht, hget1, get_touch]

theorem installBlobs_offsetOf (l : List TensorId) (g : GraphObj) (off : PtrMap)
    (hnd : l.Nodup) (t : TensorId) (ht : t ∈ l) :
    (installBlobs l g off).offsetOf t = some (off.get t) := by
  obtain ⟨_, _, i3, _, i5⟩ := installBlobs_spec l g off
  have hne : l ≠ [] := fun h => by rw [h] at ht; exact absurd ht (List.not_mem_nil _)
  unfold GraphObj.offsetOf
  rw [i5 hnd t ht, i3 hne, getPtr_ptr]
  simp only [Nat.add_sub_cancel_left]

theorem chain_refs (dims : TensorId → Shape) (width : TensorId → Nat) :
    countRefs { chainGraph dims width with ops := [1, 2, 3], sorted := true } =
      [(3, 1), (2, 1), (1, 1)] := by
  simp [countRefs, chainGraph, PtrMap.assign, PtrMap.get, List.lookup, szAdd, sizeMod]

theorem planOutputs_single (g : GraphObj) (out : TensorId) (A A1 : Allocator) (off : PtrMap)
    (pos : Nat) (h : off.contains out = false)
    (halloc : A.alloc (g.tensorOf out).getBytes = some (pos, A1)) :
    planOutputs g [out] A off = some (A1, (out, pos) :: off) := by
  simp only [planOutputs, h, halloc, PtrMap.assign, Bool.not_false, if_true]

theorem planFrees_single (g : GraphObj) (t : TensorId) (A A1 : Allocator) (ref off : PtrMap)
    (addr : Nat) (hz : szSub (ref.get t) 1 = 0) (hoff : off.contains t = true)
    (haddr : off.get t = addr)
    (hfree : A.free addr (g.tensorOf t).getBytes = some A1) :
    planFrees g [t] A ref off = some (A1, (t, 0) :: ref, off) := by
  have hget : PtrMap.get ((t, 0) :: ref) t = 0 := by
    simp [PtrMap.get, List.lookup]
  simp only [planFrees, hz, PtrMap.assign, hget, haddr, hfree, PtrMap.touch, hoff, if_true,
    beq_self_eq_true]

theorem dataMalloc_eq (g g1 : GraphObj) (a1 a2 : Allocator) (off1 ref2 off2 : PtrMap)
    (ht : g.topo_sort = (true, g1))
    (h1 : planInputs g1 g1.getInputs g1.allocator [] = some (a1, off1))
    (h2 : planOps g1 g1.ops a1 (countRefs g1) off1 = some (a2, ref2, off2)) :
    g.dataMalloc = some (installBlobs g1.tensors { g1 with allocator := a2 } off2) := by
  unfold GraphObj.dataMalloc
  rw [ht]
  simp only [h1, h2]

/-- The run of `dataMalloc` on the chain, with the offsets and the peak it
leaves. -/
theorem chain_plan (dims : TensorId → Shape) (width : TensorId → Nat) (B : Nat)
    (hB : ∀ t ∈ [1, 2, 3, 4], ((chainGraph dims width).tensorOf t).getBytes = B) :
    ∃ g2, (chainGraph dims width).dataMalloc = some g2 ∧
      g2.tensors = [1, 2, 3, 4] ∧
      g2.tensors.map g2.offsetOf =
        [some 0, some (szAdd 0 (Allocator.fresh.getAlignedSize B)), some 0,
          some (szAdd 0 (Allocator.fresh.getAlignedSize B))] ∧
      g2.allocator.peak =
        szAdd (szAdd 0 (Allocator.fresh.getAlignedSize B)) (Allocator.fresh.getAlignedSize B) := by
  obtain ⟨g1, hg1⟩ : ∃ g1 : GraphObj,
      g1 = { chainGraph dims width with ops := [1, 2, 3], sorted := true } := ⟨_, rfl⟩
  have hb1 : (g1.tensorOf 1).getBytes = B := by rw [hg1]; exact hB 1 (by decide)
  have hb2 : (g1.tensorOf 2).getBytes = B := by rw [hg1]; exact hB 2 (by decide)
  have hb3 : (g1.tensorOf 3).getBytes = B := by rw [hg1]; exact hB 3 (by decide)
  have hb4 : (g1.tensorOf 4).getBytes = B := by rw [hg1]; exact hB 4 (by decide)
  have hi1 : (g1.opOf 1).inputs = [1] := by rw [hg1]; rfl
  have hi2 : (g1.opOf 2).inputs = [2] := by rw [hg1]; rfl
  have hi3 : (g1.opOf 3).inputs = [3] := by rw [hg1]; rfl
  have ho1 : (g1.opOf 1).outputs = [2] := by rw [hg1]; rfl
  have ho2 : (g1.opOf 2).outputs = [3] := by rw [hg1]; rfl
  have ho3 : (g1.opOf 3).outputs = [4] := by rw [hg1]; rfl
  have hins : g1.getInputs = [1] := by rw [hg1]; rfl
  have hops : g1.ops = [1, 2, 3] := by rw [hg1]
  have htens : g1.tensors = [1, 2, 3, 4] := by rw [hg1]; rfl
  have hal : g1.allocator = Allocator.fresh := by rw [hg1]; rfl
  have hrt : g1.runtime = { nextPtr := 4096, served := [] } := by rw [hg1]; rfl
  have hrefs : countRefs g1 = [(3, 1), (2, 1), (1, 1)] := by rw [hg1]; exact chain_refs dims width
  have htopo : (chainGraph dims width).topo_sort = (true, g1) := by rw [hg1]; rfl
  -- the values of type `size_t` met along the walk
  obtain ⟨a, ha⟩ : ∃ a, a = Allocator.fresh.getAlignedSize B := ⟨_, rfl⟩
  obtain ⟨p1, hp1⟩ : ∃ p1, p1 = szAdd 0 a := ⟨_, rfl⟩
  obtain ⟨pk, hpk⟩ : ∃ pk, pk = szAdd p1 a := ⟨_, rfl⟩
  obtain ⟨u2, hu2⟩ : ∃ u2, u2 = szAdd p1 a := ⟨_, rfl⟩
  obtain ⟨u3, hu3⟩ : ∃ u3, u3 = szSub u2 a := ⟨_, rfl⟩
  obtain ⟨u4, hu4⟩ : ∃ u4, u4 = szAdd u3 a := ⟨_, rfl⟩
  obtain ⟨u5, hu5⟩ : ∃ u5, u5 = szSub u4 a := ⟨_, rfl⟩
  obtain ⟨u6, hu6⟩ : ∃ u6, u6 = szAdd u5 a := ⟨_, rfl⟩
  obtain ⟨u7, hu7⟩ : ∃ u7, u7 = szSub u6 a := ⟨_, rfl⟩
  rw [← ha, ← hp1, ← hpk]
  -- the seven allocator calls
  have c1 : Allocator.fresh.alloc B = some (0, ⟨p1, p1, 8, none, []⟩) := by
    rw [hp1, ha]; exact alloc_on_empty _ B rfl rfl rfl
  have c2 : (⟨p1, p1, 8, none, []⟩ : Allocator).alloc B = some (p1, ⟨u2, pk, 8, none, []⟩) := by
    rw [hu2, hpk, ha]; exact alloc_on_empty _ B rfl rfl rfl
  have c3 : (⟨u2, pk, 8, none, []⟩ : Allocator).free 0 B =
      some ⟨u3, pk, 8, none, [⟨0, a⟩]⟩ := by
    rw [hu3, ha]; exact free_on_empty _ B 0 rfl rfl rfl
  have c4 : (⟨u3, pk, 8, none, [⟨0, a⟩]⟩ : Allocator).alloc B =
      some (0, ⟨u4, pk, 8, none, []⟩) := by
    rw [hu4, ha]; exact alloc_on_single _ B 0 rfl rfl rfl
  have c5 : (⟨u4, pk, 8, none, []⟩ : Allocator).free p1 B =
      some ⟨u5, pk, 8, none, [⟨p1, a⟩]⟩ := by
    rw [hu5, ha]; exact free_on_empty _ B p1 rfl rfl rfl
  have c6 : (⟨u5, pk, 8, none, [⟨p1, a⟩]⟩ : Allocator).alloc B =
      some (p1, ⟨u6, pk, 8, none, []⟩) := by
    rw [hu6, ha]; exact alloc_on_single _ B p1 rfl rfl rfl
  have c7 : (⟨u6, pk, 8, none, []⟩ : Allocator).free 0 B =
      some ⟨u7, pk, 8, none, [⟨0, a⟩]⟩ := by
    rw [hu7, ha]; exact free_on_empty _ B 0 rfl rfl rfl
  clear ha hp1 hpk hu2 hu3 hu4 hu5 hu6 hu7
  have hplanIn : planInputs g1 g1.getInputs g1.allocator [] =
      some (⟨p1, p1, 8, none, []⟩, [(1, 0)]) := by
    rw [hins, hal]
    simp only [planInputs, hb1, c1, PtrMap.assign]
  have hplanOps : planOps g1 g1.ops ⟨p1, p1, 8, none, []⟩ (countRefs g1) [(1, 0)] =
      some (⟨u7, pk, 8, none, [⟨0, a⟩]⟩,
        [(3, 0), (2, 0), (1, 0), (3, 1), (2, 1), (1, 1)],
        [(4, p1), (3, 0), (2, p1), (1, 0)]) := by
    rw [hops, hrefs]
    have e1 := planOutputs_single g1 2 _ _ [(1, 0)] _ rfl (by rw [hb2]; exact c2)
    have f1 := planFrees_single g1 1 _ _ [(3, 1), (2, 1), (1, 1)] [(2, p1), (1, 0)] 0
      (by decide) rfl rfl (by rw [hb1]; exact c3)
    have e2 := planOutputs_single g1 3 _ _ [(2, p1), (1, 0)] _ rfl (by rw [hb3]; exact c4)
    have f2 := planFrees_single g1 2 _ _ [(1, 0), (3, 1), (2, 1), (1, 1)]
      [(3, 0), (2, p1), (1, 0)] p1 (by decide) rfl rfl (by rw [hb2]; exact c5)
    have e3 := planOutputs_single g1 4 _ _ [(3, 0), (2, p1), (1, 0)] _ rfl
      (by rw [hb4]; exact c6)
    have f3 := planFrees_single g1 3 _ _ [(2, 0), (1, 0), (3, 1), (2, 1), (1, 1)]
      [(4, p1), (3, 0), (2, p1), (1, 0)] 0 (by decide) rfl rfl (by rw [hb3]; exact c7)
    simp only [planOps, ho1, hi1, ho2, hi2, ho3, hi3, e1, f1, e2, f2, e3, f3]
  have hmain := dataMalloc_eq _ g1 _ _ _ _ _ htopo hplanIn hplanOps
  have hnd : g1.tensors.Nodup := by rw [htens]; decide
  obtain ⟨i1, _, i3, _, _⟩ := installBlobs_spec g1.tensors
    { g1 with allocator := ⟨u7, pk, 8, none, [⟨0, a⟩]⟩ } [(4, p1), (3, 0), (2, p1), (1, 0)]
  have hoff := installBlobs_offsetOf g1.tensors
    { g1 with allocator := ⟨u7, pk, 8, none, [⟨0, a⟩]⟩ } [(4, p1), (3, 0), (2, p1), (1, 0)] hnd
  have hpeak := i3 (by rw [htens]; exact List.cons_ne_nil _ _)
  replace hpeak := (congrArg Allocator.peak hpeak).trans (getPtr_peak _ _)
  generalize installBlobs g1.tensors
    { g1 with allocator := ⟨u7, pk, 8, none, [⟨0, a⟩]⟩ } [(4, p1), (3, 0), (2, p1), (1, 0)] = g2
    at hmain i1 hoff hpeak
  refine ⟨g2, hmain, i1.trans htens, ?_, ?_⟩
  · rw [i1.trans htens]
    simp only [List.map_cons, List.map_nil]
    rw [hoff 1 (by rw [htens]; decide), hoff 2 (by rw [htens]; decide),
      hoff 3 (by rw [htens]; decide), hoff 4 (by rw [htens]; decide)]
    rfl
  · exact hpeak

theorem getAlignedSize_le (B : Nat) (hB : B < sizeMod) :
    Allocator.fresh.getAlignedSize B ≤ alignedUp B := by
  unfold Allocator.getAlignedSize Allocator.fresh szMul szAdd szSub alignedUp sizeMod at *
  simp only
  omega

/-- C7 (planner reuse on a linear chain, refuted as stated): on the chain of
four tensors of 4 bytes each (`B = 4`), `dataMalloc` leaves `peak = 16`,
which is more than `2 * B = 8`. -/
theorem chain_peak_exceeds_twice_bytes :
    (∀ t ∈ [1, 2, 3, 4], ((chainGraph (fun _ => [1]) (fun _ => 4)).tensorOf t).getBytes = 4) ∧
    (chainGraph (fun _ => [1]) (fun _ => 4)).dataMalloc.map (fun g => g.allocator.peak) =
      some 16 ∧
    ¬ (16 ≤ 2 * 4) := by
  decide

/-- C7 (as amended): on the linear chain
`t1 -> op1 -> t2 -> op2 -> t3 -> op3 -> t4` in which every tensor has the
same byte size `B`, `dataMalloc` succeeds, every tensor receives an offset,
the set of distinct offsets has at most 2 elements, and `peak` is at most
twice `B` rounded up to a multiple of 8 (so at most `2 * B` when 8 divides
`B`). -/
theorem chain_plan_reuse (dims : TensorId → Shape) (width : TensorId → Nat) (B : Nat)
    (hB : ∀ t ∈ [1, 2, 3, 4], ((chainGraph dims width).tensorOf t).getBytes = B) :
    ∃ g2, (chainGraph dims width).dataMalloc = some g2 ∧
      g2.tensors = [1, 2, 3, 4] ∧
      (∀ t ∈ g2.tensors, (g2.offsetOf t).isSome = true) ∧
      (g2.tensors.map g2.offsetOf).toFinset.card ≤ 2 ∧
      g2.allocator.peak ≤ 2 * alignedUp B ∧
      (8 ∣ B → g2.allocator.peak ≤ 2 * B) := by
  obtain ⟨g2, hrun, htens, hoffs, hpeak⟩ := chain_plan dims width B hB
  have hBlt : B < sizeMod := by
    rw [← hB 1 (by decide)]
    unfold TensorObj.getBytes szMul
    exact Nat.mod_lt _ (by decide)
  have hle := getAlignedSize_le B hBlt
  have hpk : g2.allocator.peak ≤ 2 * alignedUp B := by
    rw [hpeak]
    generalize Allocator.fresh.getAlignedSize B = a at hle
    have h1 : szAdd 0 a ≤ a := by unfold szAdd; rw [Nat.zero_add]; exact Nat.mod_le _ _
    have h2 : szAdd (szAdd 0 a) a ≤ szAdd 0 a + a := by unfold szAdd; exact Nat.mod_le _ _
    omega
  refine ⟨g2, hrun, htens, ?_, ?_, hpk, ?_⟩
  · intro t ht
    have hmem : g2.offsetOf t ∈ g2.tensors.map g2.offsetOf := List.mem_map_of_mem _ ht
    rw [hoffs] at hmem
    simp only [List.mem_cons, List.mem_singleton, List.not_mem_nil, or_false] at hmem
    rcases hmem with h | h | h | h <;> rw [h] <;> rfl
  · rw [hoffs]
    generalize szAdd 0 (Allocator.fresh.getAlignedSize B) = p
    have hsub : ([some 0, some p, some 0, some p] : List (Option Nat)).toFinset ⊆
        {some 0, some p} := by
      intro x hx
      simp only [List.toFinset_cons, List.toFinset_nil, Finset.mem_insert,
        Finset.not_mem_empty, or_false] at hx
      simp only [Finset.mem_insert, Finset.mem_singleton]
      rcases hx with h | h | h | h
      · exact Or.inl h
      · exact Or.inr h
      · exact Or.inl h
      · exact Or.inr h
    exact (Finset.card_le_card hsub).trans Finset.card_le_two
  · intro h8
    have : alignedUp B = B := by
      obtain ⟨k, rfl⟩ := h8
      unfold alignedUp
      omega
    rw [this] at hpk
    exact hpk

/-- Witness for C7 (as amended): four tensors of shape `[2, 3]` and 4-byte
elements, `B = 24`. -/
theorem chain_plan_reuse_witness :
    (∀ t ∈ [1, 2, 3, 4], ((chainGraph (fun _ => [2, 3]) (fun _ => 4)).tensorOf t).getBytes = 24) ∧
    ∃ g2, (chainGraph (fun _ => [2, 3]) (fun _ => 4)).dataMalloc = some g2 ∧
      g2.tensors = [1, 2, 3, 4] ∧
      (∀ t ∈ g2.tensors, (g2.offsetOf t).isSome = true) ∧
      (g2.tensors.map g2.offsetOf).toFinset.card ≤ 2 ∧
      g2.allocator.peak ≤ 2 * alignedUp 24 ∧
      (8 ∣ 24 → g2.allocator.peak ≤ 2 * 24) :=
  ⟨by decide, chain_plan_reuse (fun _ => [2, 3]) (fun _ => 4) 24 (by decide)⟩

/-! ## Graph rewriting -/

/-- More fuel does not change what `optimize` returns. -/
theorem optimize_mono (n : Nat) :
    ∀ (g g1 : GraphObj), g.optimize n = OptOutcome.returned g1 →
      ∀ k, g.optimize (n + k) = OptOutcome.returned g1 := by
  induction n with
  | zero => intro g g1 h; exact OptOutcome.noConfusion h
  | succ m ih =>
    intro g g1 h k
    have hk : m + 1 + k = (m + k) + 1 := by omega
    rw [hk]
    unfold GraphObj.optimize at h ⊢
    cases hr : optimizeRound g with
    | rewritten g2 =>
      rw [hr] at h
      exact ih g2 g1 h k
    | unchanged => rw [hr] at h; exact h
    | fault => rw [hr] at h; exact OptOutcome.noConfusion h

/-- C8 (`optimize` preserves validity, refuted on the code): the graph
`Transpose(A) -> MatMul(., B) -> C` passes `checkValid`; `optimize` returns
(after two rounds, whatever the bound on rounds) with the single operator
`MatMul(A, B, transA = true)`, and the returned graph fails `checkValid`:
the tensor `C` is listed but has neither source nor targets, because line 199
sets its source to the null outer `fusedOp`. -/
theorem optimize_breaks_validity :
    transposeMatmulGraph.checkValid = true ∧
    ∃ g1, (∀ k, transposeMatmulGraph.optimize (2 + k) = OptOutcome.returned g1) ∧
      g1.checkValid = false ∧ g1.tensors = [0, 1, 3] ∧ g1.ops = [2] ∧
      g1.opOf 2 = { kind := OpKind.matmul true false, inputs := [0, 1], outputs := [3],
                    predecessors := [], successors := [] } ∧
      (g1.tensorOf 3).source = none ∧ (g1.tensorOf 3).targets = [] := by
  refine ⟨by decide, ?_⟩
  have hv : (transposeMatmulGraph.optimize 2).graph?.map
      (fun g => (g.checkValid, g.tensors, g.ops, g.opOf 2, (g.tensorOf 3).source,
        (g.tensorOf 3).targets)) =
      some (false, [0, 1, 3], [2],
        { kind := OpKind.matmul true false, inputs := [0, 1], outputs := [3],
          predecessors := [], successors := [] }, none, []) := by
    rfl
  cases h : transposeMatmulGraph.optimize 2 with
  | returned g1 =>
    rw [h] at hv
    simp only [OptOutcome.graph?, Option.map_some', Option.some.injEq, Prod.mk.injEq] at hv
    obtain ⟨h1, h2, h3, h4, h5, h6⟩ := hv
    exact ⟨g1, optimize_mono 2 _ g1 h, h1, h2, h3, h4, h5, h6⟩
  | fault => rw [h] at hv; exact absurd hv (by simp [OptOutcome.graph?])
  | outOfFuel => rw [h] at hv; exact absurd hv (by simp [OptOutcome.graph?])

/-! ## Validator: dangling tensor edge -/

/-- C11 (dangling tensor edge): on every graph whose `ops` contains an
operator with an input tensor or an output tensor that is not a member of the
tensor list, `checkValid` does not return true (one of its assertions of
lines 379-384 fails). -/
theorem checkValid_rejects_dangling_tensor (g : GraphObj) (o : OpId) (t : TensorId)
    (ho : o ∈ g.ops)
    (ht : t ∈ (g.opOf o).inputs ∨ t ∈ (g.opOf o).outputs)
    (hn : t ∉ g.tensors) : g.checkValid = false := by
  cases hv : g.checkValid with
  | false => rfl
  | true =>
    have hl := ((checkValid_iff_raw g).1 hv).2.2.1 o ho
    rcases ht with h | h
    · exact absurd (hl.1 t h) hn
    · exact absurd (hl.2 t h) hn

/-- Witness for C11: the operator of `danglingInputGraph` reads `t1`, which
the tensor list does not hold. -/
theorem checkValid_rejects_dangling_tensor_witness :
    (0 ∈ danglingInputGraph.ops) ∧
    (1 ∈ (danglingInputGraph.opOf 0).inputs ∨ 1 ∈ (danglingInputGraph.opOf 0).outputs) ∧
    (1 ∉ danglingInputGraph.tensors) ∧ danglingInputGraph.checkValid = false :=
  ⟨by decide, Or.inl (by decide), by decide,
    checkValid_rejects_dangling_tensor danglingInputGraph 0 1 (by decide)
      (Or.inl (by decide)) (by decide)⟩

/-! ## Allocator sealing -/

/-- C17 (allocator sealing): once the stored pointer is non-null, every
`alloc` and every `free` fails on the assertion `ptr == nullptr` and leaves
the allocator as it was (so `used`, `peak` and the free set are unchanged),
and every `getPtr` returns the stored pointer, leaves the allocator as it was
and does not touch the runtime; and `getPtr` itself leaves the stored pointer
non-null, equal to the pointer it returns. -/
theorem allocator_sealed (a : Allocator) (p : Nat) (hp : a.ptr = some p) :
    (∀ size, a.alloc size = none ∧ a.afterAlloc size = a) ∧
    (∀ addr size, a.free addr size = none ∧ a.afterFree addr size = a) ∧
    (∀ rt, a.getPtr rt = (p, a, rt)) ∧
    (∀ (b : Allocator) (rt : RuntimeObj), (b.getPtr rt).2.1.ptr = some (b.getPtr rt).1) := by
  have h1 : ∀ size, a.alloc size = none := by
    intro size
    unfold Allocator.alloc
    simp only [hp, ne_eq, reduceCtorEq, not_false_eq_true, if_true]
  have h2 : ∀ addr size, a.free addr size = none := by
    intro addr size
    unfold Allocator.free
    simp only [hp, ne_eq, reduceCtorEq, not_false_eq_true, if_true]
  refine ⟨fun size => ⟨h1 size, ?_⟩, fun addr size => ⟨h2 addr size, ?_⟩, ?_, getPtr_ptr⟩
  · unfold Allocator.afterAlloc; rw [h1]
  · unfold Allocator.afterFree; rw [h2]
  · intro rt
    unfold Allocator.getPtr
    simp only [hp]

/-- Witness for C17: the allocator that `getPtr` leaves behind on a fresh
allocator holds the pointer 4096. -/
theorem allocator_sealed_witness :
    (Allocator.fresh.getPtr { nextPtr := 4096, served := [] }).2.1.ptr = some 4096 ∧
    ∀ rt, (Allocator.fresh.getPtr { nextPtr := 4096, served := [] }).2.1.getPtr rt =
      (4096, (Allocator.fresh.getPtr { nextPtr := 4096, served := [] }).2.1, rt) :=
  ⟨rfl, (allocator_sealed
    (Allocator.fresh.getPtr { nextPtr := 4096, served := [] }).2.1 4096 rfl).2.2.1⟩

/-! ## Idempotence of `topo_sort` -/

/-- C19 (`topo_sort` is idempotent): when the `sorted` flag is already true,
`topo_sort()` returns true and leaves the graph, hence the operator sequence
and the flag, unchanged; and whenever `topo_sort()` returns true, the flag is
set afterwards and an immediately following `topo_sort()` returns true and
leaves the graph, hence the operator sequence, as the first call left it. -/
theorem topo_sort_idempotent (g : GraphObj) :
    (g.sorted = true → g.topo_sort = (true, g)) ∧
    (g.topo_sort.1 = true →
      g.topo_sort.2.sorted = true ∧
      g.topo_sort.2.topo_sort = (true, g.topo_sort.2) ∧
      g.topo_sort.2.topo_sort.2.ops = g.topo_sort.2.ops) := by
  have hfix : ∀ h : GraphObj, h.sorted = true → h.topo_sort = (true, h) := by
    intro h hs
    unfold GraphObj.topo_sort
    simp only [hs, if_true]
  refine ⟨hfix g, fun ht => ?_⟩
  have hs2 : g.topo_sort.2.sorted = true := by
    by_cases hs : g.sorted = true
    · rw [hfix g hs]; exact hs
    · unfold GraphObj.topo_sort at ht ⊢
      simp only [hs, Bool.false_eq_true, if_false] at ht ⊢
      cases hres : topoLoop g g.ops.length [] [] with
      | done r => rfl
      | stuck => rw [hres] at ht; exact absurd ht (by simp)
      | outOfFuel => rw [hres] at ht; exact absurd ht (by simp)
  refine ⟨hs2, hfix _ hs2, ?_⟩
  rw [hfix _ hs2]

/-- Witness for C19: sorting the reversed two-operator chain twice. -/
theorem topo_sort_idempotent_witness :
    reversedPair.topo_sort.1 = true ∧
    reversedPair.topo_sort.2.sorted = true ∧
    reversedPair.topo_sort.2.topo_sort = (true, reversedPair.topo_sort.2) ∧
    reversedPair.topo_sort.2.topo_sort.2.ops = [0, 1] :=
  ⟨by decide, ((topo_sort_idempotent reversedPair).2 (by decide)).1,
    ((topo_sort_idempotent reversedPair).2 (by decide)).2.1,
    ((topo_sort_idempotent reversedPair).2 (by decide)).2.2.trans (by decide)⟩

/-! ## Composition of permutations -/

theorem IsPermutationOf.length {n : Nat} {p : List Int} (h : IsPermutationOf n p) :
    p.length = n := by
  have := h.length_eq
  rw [List.length_map, List.length_range] at this
  exact this

theorem IsPermutationOf.bound {n : Nat} {p : List Int} (h : IsPermutationOf n p) :
    ∀ x ∈ p, 0 ≤ x ∧ x.toNat < n := by
  intro x hx
  have hm := h.mem_iff.1 hx
  simp only [List.mem_map, List.mem_range] at hm
  obtain ⟨i, hi, rfl⟩ := hm
  exact ⟨Int.ofNat_nonneg i, by simpa using hi⟩

/-- When every entry of `p` is an index of `q`, `permCompose p q` reads `q` at
each entry of `p`. -/
theorem permCompose_eq_map (q : List Int) (p : List Int)
    (h : ∀ x ∈ p, 0 ≤ x ∧ x.toNat < q.length) :
    permCompose p q = some (p.map (fun x => q.getD x.toNat 0)) := by
  induction p with
  | nil => rfl
  | cons x xs ih =>
    have hx := h x (List.mem_cons_self _ _)
    have hxs := ih (fun y hy => h y (List.mem_cons_of_mem _ hy))
    unfold permCompose
    rw [hxs, if_pos hx.1, List.getElem?_eq_getElem hx.2]
    simp only [List.map_cons, List.getD_eq_getElem?_getD, List.getElem?_eq_getElem hx.2,
      Option.getD_some]

/-- C16 (composition of permutations is associative): for permutations
`p`, `q`, `r` of `{0..n-1}`, every composition below is defined (no read is
out of bounds), `permCompose(p, q)[i] = q[p[i]]`, and
`permCompose(p, permCompose(q, r)) = permCompose(permCompose(p, q), r)`. -/
theorem permCompose_assoc (n : Nat) (p q r : List Int)
    (hp : IsPermutationOf n p) (hq : IsPermutationOf n q) (hr : IsPermutationOf n r) :
    ∃ pq qr s, permCompose p q = some pq ∧ permCompose q r = some qr ∧
      permCompose p qr = some s ∧ permCompose pq r = some s ∧
      pq.length = n ∧
      ∀ i (hi : i < pq.length), pq[i] = q.getD (p.getD i 0).toNat 0 := by
  have hbp := hp.bound
  have hbq := hq.bound
  have hpq := permCompose_eq_map q p (fun x hx => by rw [hq.length]; exact hbp x hx)
  have hqr := permCompose_eq_map r q (fun x hx => by rw [hr.length]; exact hbq x hx)
  have hqrlen : (q.map (fun x => r.getD x.toNat 0)).length = n := by
    rw [List.length_map]; exact hq.length
  have hp_qr := permCompose_eq_map (q.map (fun x => r.getD x.toNat 0)) p
    (fun x hx => by rw [hqrlen]; exact hbp x hx)
  have hpq_mem : ∀ y ∈ p.map (fun x => q.getD x.toNat 0), 0 ≤ y ∧ y.toNat < r.length := by
    intro y hy
    rw [List.mem_map] at hy
    obtain ⟨x, hx, rfl⟩ := hy
    have hxlt : x.toNat < q.length := by rw [hq.length]; exact (hbp x hx).2
    have hmem : q.getD x.toNat 0 ∈ q := by
      rw [List.getD_eq_getElem?_getD, List.getElem?_eq_getElem hxlt, Option.getD_some]
      exact List.getElem_mem _
    rw [hr.length]
    exact hbq _ hmem
  have hpq_r := permCompose_eq_map r (p.map (fun x => q.getD x.toNat 0)) hpq_mem
  refine ⟨_, _, _, hpq, hqr, hp_qr, ?_, ?_, ?_⟩
  · rw [hpq_r, List.map_map]
    congr 1
    apply List.map_congr_left
    intro x hx
    have hxlt : x.toNat < q.length := by rw [hq.length]; exact (hbp x hx).2
    have hnn : 0 ≤ q.getD x.toNat 0 := by
      have hmem : q.getD x.toNat 0 ∈ q := by
        rw [List.getD_eq_getElem?_getD, List.getElem?_eq_getElem hxlt, Option.getD_some]
        exact List.getElem_mem _
      exact (hbq _ hmem).1
    simp only [Function.comp_apply, List.getD_eq_getElem?_getD, List.getElem?_map,
      List.getElem?_eq_getElem hxlt, Option.map_some', Option.getD_some]
  · rw [List.length_map]; exact hp.length
  · intro i hi
    rw [List.length_map] at hi
    simp only [List.getElem_map, List.getD_eq_getElem?_getD, List.getElem?_eq_getElem hi,
      Option.getD_some]

/-- Witness for C16: three permutations of `{0, 1, 2}`. -/
theorem permCompose_assoc_witness :
    IsPermutationOf 3 [1, 2, 0] ∧ IsPermutationOf 3 [0, 2, 1] ∧ IsPermutationOf 3 [2, 1, 0] ∧
    ∃ pq qr s, permCompose [1, 2, 0] [0, 2, 1] = some pq ∧
      permCompose [0, 2, 1] [2, 1, 0] = some qr ∧
      permCompose [1, 2, 0] qr = some s ∧ permCompose pq [2, 1, 0] = some s ∧
      pq.length = 3 ∧
      ∀ i (hi : i < pq.length), pq[i] = ([0, 2, 1] : List Int).getD
        (([1, 2, 0] : List Int).getD i 0).toNat 0 :=
  have h1 : IsPermutationOf 3 [1, 2, 0] := by unfold IsPermutationOf; decide
  have h2 : IsPermutationOf 3 [0, 2, 1] := by unfold IsPermutationOf; decide
  have h3 : IsPermutationOf 3 [2, 1, 0] := by unfold IsPermutationOf; decide
  ⟨h1, h2, h3, permCompose_assoc 3 [1, 2, 0] [0, 2, 1] [2, 1, 0] h1 h2 h3⟩

/-! ## Matmul shape inference -/

theorem szSub_small (r c : Nat) (hc : c ≤ r) (hr : r < sizeMod) : szSub r c = r - c := by
  unfold szSub sizeMod at *
  omega

theorem getD_set_self (l : List Int) (i : Nat) (v : Int) (h : i < l.length) :
    (l.set i v).getD i 0 = v := by
  rw [List.getD_eq_getElem?_getD, List.getElem?_set_self (by simpa using h)]
  rfl

theorem getD_set_other (l : List Int) (i j : Nat) (v : Int) (h : i ≠ j) :
    (l.set i v).getD j 0 = l.getD j 0 := by
  rw [List.getD_eq_getElem?_getD, List.getD_eq_getElem?_getD, List.getElem?_set_ne h]

/-- The broadcasting loop, when every index it visits is in bounds: the
visited entries hold the maxima, the others are untouched. -/
theorem broadcastLeading_spec (sa sb : Shape) (l : List Nat) :
    ∀ shape : Shape, (∀ i ∈ l, i < sa.length ∧ i < sb.length) →
      ∃ s, broadcastLeading sa sb l shape = some s ∧ s.length = shape.length ∧
        (∀ j, j ∉ l → s.getD j 0 = shape.getD j 0) ∧
        (∀ j ∈ l, j < shape.length → s.getD j 0 = max (sa.getD j 0) (sb.getD j 0)) := by
  induction l with
  | nil =>
    intro shape _
    exact ⟨shape, rfl, rfl, fun _ _ => rfl, fun j hj => absurd hj (List.not_mem_nil _)⟩
  | cons i rest ih =>
    intro shape hl
    obtain ⟨hia, hib⟩ := hl i (List.mem_cons_self _ _)
    obtain ⟨s, hs, hlen, hframe, hval⟩ :=
      ih (shape.set i (max sa[i] sb[i])) (fun j hj => hl j (List.mem_cons_of_mem _ hj))
    refine ⟨s, ?_, ?_, ?_, ?_⟩
    · unfold broadcastLeading
      rw [List.getElem?_eq_getElem hia, List.getElem?_eq_getElem hib]
      exact hs
    · rw [hlen, List.length_set]
    · intro j hj
      rw [List.mem_cons, not_or] at hj
      rw [hframe j hj.2]
      exact getD_set_other _ _ _ _ (fun h => hj.1 h.symm)
    · intro j hj hjlen
      by_cases hjr : j ∈ rest
      · exact hval j hjr (by rw [List.length_set]; exact hjlen)
      · rcases List.mem_cons.1 hj with rfl | h
        · rw [hframe j hjr, getD_set_self _ _ _ hjlen, List.getD_eq_getElem?_getD,
            List.getD_eq_getElem?_getD, List.getElem?_eq_getElem hia,
            List.getElem?_eq_getElem hib]
          rfl
        · exact absurd h hjr

/-- What `MatmulObj::inferShape` returns on two shapes of the same rank, at
least 2. -/
theorem matmulInferShape_spec (transA transB : Bool) (sa sb : Shape) (r : Nat)
    (hr : 2 ≤ r) (hfit : r < sizeMod) (ha : sa.length = r) (hb : sb.length = r) :
    ∃ shape, matmulInferShape transA transB sa sb = some (some [shape]) ∧
      shape.length = r ∧
      shape.getD (r - 2) 0 = (if transA then sa.getD (r - 1) 0 else sa.getD (r - 2) 0) ∧
      shape.getD (r - 1) 0 = (if transB then sb.getD (r - 2) 0 else sb.getD (r - 1) 0) ∧
      ∀ i, i < r - 2 → shape.getD i 0 = max (sa.getD i 0) (sb.getD i 0) := by
  have h0a : r - 1 < sa.length := by omega
  have h1a : r - 2 < sa.length := by omega
  have h0b : r - 1 < sb.length := by omega
  have h1b : r - 2 < sb.length := by omega
  obtain ⟨k, hk, hkv⟩ : ∃ k, (if transB then sb[r - 2]? else sb[r - 1]?) = some k ∧
      k = (if transB then sb.getD (r - 2) 0 else sb.getD (r - 1) 0) := by
    cases transB
    · exact ⟨sb[r - 1], by simp [List.getElem?_eq_getElem h0b],
        by simp [List.getD_eq_getElem?_getD, List.getElem?_eq_getElem h0b]⟩
    · exact ⟨sb[r - 2], by simp [List.getElem?_eq_getElem h1b],
        by simp [List.getD_eq_getElem?_getD, List.getElem?_eq_getElem h1b]⟩
  obtain ⟨m, hm, hmv⟩ : ∃ m, m = (if transA then sa[r - 1] else sa[r - 2]) ∧
      m = (if transA then sa.getD (r - 1) 0 else sa.getD (r - 2) 0) := by
    refine ⟨_, rfl, ?_⟩
    simp only [List.getD_eq_getElem?_getD, List.getElem?_eq_getElem h0a,
      List.getElem?_eq_getElem h1a, Option.getD_some]
  obtain ⟨s, hs, hlen, hframe, hval⟩ := broadcastLeading_spec sa sb (List.range (r - 2))
    (((List.replicate sa.length (0 : Int)).set (r - 1) k).set (r - 2) m)
    (fun i hi => by rw [List.mem_range] at hi; omega)
  have hlen0 : (((List.replicate sa.length (0 : Int)).set (r - 1) k).set (r - 2) m).length = r := by
    rw [List.length_set, List.length_set, List.length_replicate, ha]
  refine ⟨s, ?_, by rw [hlen, hlen0], ?_, ?_, ?_⟩
  · unfold matmulInferShape
    rw [ha, szSub_small r 1 (by omega) hfit, szSub_small r 2 hr hfit]
    unfold matmulInferShapeAt
    rw [List.getElem?_eq_getElem h0a, List.getElem?_eq_getElem h1a]
    rw [ha] at hs
    simp only [hk, ← hm, ha, hs]
  · rw [hframe (r - 2) (by rw [List.mem_range]; omega), ← hmv]
    exact getD_set_self _ _ _ (by rw [List.length_set, List.length_replicate]; omega)
  · rw [hframe (r - 1) (by rw [List.mem_range]; omega), ← hkv,
      getD_set_other _ _ _ _ (by omega)]
    exact getD_set_self _ _ _ (by rw [List.length_replicate]; omega)
  · intro i hi
    exact hval i (by rw [List.mem_range]; exact hi) (by rw [hlen0]; omega)

theorem list_eq_of_getD (l1 l2 : List Int) (hlen : l1.length = l2.length)
    (h : ∀ i, i < l1.length → l1.getD i 0 = l2.getD i 0) : l1 = l2 := by
  apply List.ext_getElem hlen
  intro i h1 h2
  have := h i h1
  rw [List.getD_eq_getElem?_getD, List.getD_eq_getElem?_getD, List.getElem?_eq_getElem h1,
    List.getElem?_eq_getElem h2] at this
  exact this

/-- The shape returned by `MatmulObj::inferShape` does not depend on the
contracted dims of its inputs. -/
theorem matmulInferShape_contracted (transA transB : Bool) (sa sb : Shape) (r : Nat)
    (hr : 2 ≤ r) (hfit : r < sizeMod) (ha : sa.length = r) (hb : sb.length = r) (x y : Int) :
    matmulInferShape transA transB
      (sa.set (if transA then r - 2 else r - 1) x)
      (sb.set (if transB then r - 1 else r - 2) y) =
    matmulInferShape transA transB sa sb := by
  obtain ⟨s1, e1, l1, m1, k1, v1⟩ := matmulInferShape_spec transA transB sa sb r hr hfit ha hb
  obtain ⟨s2, e2, l2, m2, k2, v2⟩ := matmulInferShape_spec transA transB
    (sa.set (if transA then r - 2 else r - 1) x)
    (sb.set (if transB then r - 1 else r - 2) y) r hr hfit
    (by rw [List.length_set]; exact ha) (by rw [List.length_set]; exact hb)
  rw [e1, e2]
  congr 3
  apply list_eq_of_getD _ _ (l2.trans l1.symm)
  intro i hi
  rw [l2] at hi
  by_cases hi2 : i < r - 2
  · rw [v1 i hi2, v2 i hi2, getD_set_other _ _ _ _ (by split <;> omega),
      getD_set_other _ _ _ _ (by split <;> omega)]
  · by_cases hi1 : i = r - 2
    · subst hi1
      rw [m1, m2]
      cases transA
      · simp only [Bool.false_eq_true, if_false]
        exact getD_set_other _ _ _ _ (by omega)
      · simp only [if_true]
        exact getD_set_other _ _ _ _ (by omega)
    · have hi0 : i = r - 1 := by omega
      subst hi0
      rw [k1, k2]
      cases transB
      · simp only [Bool.false_eq_true, if_false]
        exact getD_set_other _ _ _ _ (by omega)
      · simp only [if_true]
        exact getD_set_other _ _ _ _ (by omega)

/-- C12 (matmul shape rule): for input shapes `sa` and `sb` of the same rank
`r >= 2` (a rank that fits `size_t`) and flags `transA`, `transB`,
`MatmulObj::inferShape` returns exactly one shape, of rank `r`, whose last
two dims are `[m, k]` with `m = (transA ? sa[r-1] : sa[r-2])` and
`k = (transB ? sb[r-2] : sb[r-1])`, and whose `i`-th leading dim (`i < r-2`)
is `max(sa[i], sb[i])`. -/
theorem matmul_inferShape_rule (transA transB : Bool) (sa sb : Shape) (r : Nat)
    (hr : 2 ≤ r) (hfit : r < sizeMod) (ha : sa.length = r) (hb : sb.length = r) :
    ∃ shape, matmulInferShape transA transB sa sb = some (some [shape]) ∧
      shape.length = r ∧
      shape.getD (r - 2) 0 = (if transA then sa.getD (r - 1) 0 else sa.getD (r - 2) 0) ∧
      shape.getD (r - 1) 0 = (if transB then sb.getD (r - 2) 0 else sb.getD (r - 1) 0) ∧
      ∀ i, i < r - 2 → shape.getD i 0 = max (sa.getD i 0) (sb.getD i 0) :=
  matmulInferShape_spec transA transB sa sb r hr hfit ha hb

/-- Witness for C12: `sa = [5, 2, 3]`, `sb = [7, 3, 4]`, no transposition. -/
theorem matmul_inferShape_rule_witness :
    (2 ≤ 3) ∧ (3 < sizeMod) ∧ ([5, 2, 3] : Shape).length = 3 ∧ ([7, 3, 4] : Shape).length = 3 ∧
    matmulInferShape false false [5, 2, 3] [7, 3, 4] = some (some [[7, 2, 4]]) ∧
    ∃ shape, matmulInferShape false false [5, 2, 3] [7, 3, 4] = some (some [shape]) ∧
      shape.length = 3 ∧
      shape.getD (3 - 2) 0 = (if false then ([5, 2, 3] : Shape).getD (3 - 1) 0
        else ([5, 2, 3] : Shape).getD (3 - 2) 0) ∧
      shape.getD (3 - 1) 0 = (if false then ([7, 3, 4] : Shape).getD (3 - 2) 0
        else ([7, 3, 4] : Shape).getD (3 - 1) 0) ∧
      ∀ i, i < 3 - 2 → shape.getD i 0 =
        max (([5, 2, 3] : Shape).getD i 0) (([7, 3, 4] : Shape).getD i 0) :=
  ⟨by decide, by decide, rfl, rfl, by decide,
    matmul_inferShape_rule false false [5, 2, 3] [7, 3, 4] 3 (by decide) (by decide) rfl rfl⟩

/-- C13 (mismatch of the contracted dims, refuted as stated): with
`sa = [2, 3]`, `sb = [4, 5]` and no transposition the contracted dims are
3 and 4, and `MatmulObj::inferShape` returns the shape `[2, 5]`. -/
theorem matmul_inferShape_accepts_mismatch :
    (([2, 3] : Shape).getD 1 0 ≠ ([4, 5] : Shape).getD 0 0) ∧
    matmulInferShape false false [2, 3] [4, 5] = some (some [[2, 5]]) := by
  decide

/-- C13 (as amended): on inputs of equal rank `r >= 2`, whatever their
contracted dims, `MatmulObj::inferShape` returns a value holding exactly one
shape of rank `r`; it never returns the empty `optional`, and replacing the
contracted dims by any other values does not change what it returns. -/
theorem matmul_inferShape_never_fails (transA transB : Bool) (sa sb : Shape) (r : Nat)
    (hr : 2 ≤ r) (hfit : r < sizeMod) (ha : sa.length = r) (hb : sb.length = r) :
    matmulInferShape transA transB sa sb ≠ some none ∧
    (∃ shape, matmulInferShape transA transB sa sb = some (some [shape]) ∧ shape.length = r) ∧
    ∀ x y : Int,
      matmulInferShape transA transB
        (sa.set (if transA then r - 2 else r - 1) x)
        (sb.set (if transB then r - 1 else r - 2) y) =
      matmulInferShape transA transB sa sb := by
  obtain ⟨s1, e1, l1, _⟩ := matmulInferShape_spec transA transB sa sb r hr hfit ha hb
  refine ⟨?_, ⟨s1, e1, l1⟩, matmulInferShape_contracted transA transB sa sb r hr hfit ha hb⟩
  rw [e1]
  exact fun h => Option.noConfusion (Option.some.inj h)

/-- Witness for C13 (as amended): `sa = [2, 3]`, `sb = [4, 5]`, contracted
dims 3 and 4. -/
theorem matmul_inferShape_never_fails_witness :
    (2 ≤ 2) ∧ (2 < sizeMod) ∧ ([2, 3] : Shape).length = 2 ∧ ([4, 5] : Shape).length = 2 ∧
    matmulInferShape false false [2, 3] [4, 5] ≠ some none ∧
    ∃ shape, matmulInferShape false false [2, 3] [4, 5] = some (some [shape]) ∧
      shape.length = 2 :=
  ⟨by decide, by decide, rfl, rfl,
    (matmul_inferShape_never_fails false false [2, 3] [4, 5] 2 (by decide) (by decide)
      rfl rfl).1,
    (matmul_inferShape_never_fails false false [2, 3] [4, 5] 2 (by decide) (by decide)
      rfl rfl).2.1⟩

/-! ## Rule 2 and the source of the output tensor -/

/-- C20 (source update of rule 2, refuted on the code): rule 2 matches the
Transpose of both sample graphs. When the Transpose feeds the B input, the
rewrite leaves the fused `MatMul(A, B, transB = true)` as the source of the
old output tensor `C`; when it feeds the A input, the rewrite creates the
fused `MatMul(A, B, transA = true)` writing `C`, and leaves `C` without
source. -/
theorem rule2_source_absent_on_A_side :
    rule2Match transposeMatmulGraphB 0 = true ∧
    (applyRule2 transposeMatmulGraphB 0).map
        (fun g => (g.ops, g.opOf 2, (g.tensorOf 3).source)) =
      some ([2], { kind := OpKind.matmul false true, inputs := [0, 1], outputs := [3],
                   predecessors := [], successors := [] }, some 2) ∧
    rule2Match transposeMatmulGraph 0 = true ∧
    (applyRule2 transposeMatmulGraph 0).map
        (fun g => (g.ops, g.opOf 2, (g.tensorOf 3).source)) =
      some ([2], { kind := OpKind.matmul true false, inputs := [0, 1], outputs := [3],
                   predecessors := [], successors := [] }, none) := by
  refine ⟨rfl, rfl, rfl, rfl⟩

/-! ## Scenario S1: a chain of four transposes -/

set_option maxHeartbeats 4000000 in
/-- The run of scenario S1: `optimize` returns after five rounds with the
tensor list `[x0]` and no operator; `topo_sort` then returns true and
`dataMalloc` gives `x0` the offset 0 and `x4` no address. -/
theorem fourTranspose_run :
    (fourTransposeGraph.optimize 5).graph?.map
        (fun g => (g.tensors, g.ops, g.topo_sort.1,
          g.topo_sort.2.dataMalloc.map
            (fun h => (h.tensors, h.offsetOf 0, h.offsetOf 4, (h.tensorOf 4).data)))) =
      some ([0], [], true, some ([0], some 0, none, none)) := by
  rfl

/-- After `optimize`, `topo_sort` and `dataMalloc` on the chain of four
transposes, `x0` has pool offset 0 and `x4` has no offset, so the two are not
assigned the same offset. -/
theorem fourTranspose_output_unplanned :
    ∃ g1 g3, fourTransposeGraph.optimize 5 = OptOutcome.returned g1 ∧
      g1.topo_sort.1 = true ∧ g1.topo_sort.2.dataMalloc = some g3 ∧
      g3.offsetOf 0 = some 0 ∧ g3.offsetOf 4 = none ∧ g3.offsetOf 4 ≠ g3.offsetOf 0 := by
  have hv := fourTranspose_run
  cases h : fourTransposeGraph.optimize 5 with
  | returned g1 =>
    rw [h] at hv
    simp only [OptOutcome.graph?, Option.map_some', Option.some.injEq, Prod.mk.injEq] at hv
    obtain ⟨_, _, h3, h4⟩ := hv
    cases hd : g1.topo_sort.2.dataMalloc with
    | none => rw [hd] at h4; exact absurd h4 (by simp)
    | some g3 =>
      rw [hd] at h4
      simp only [Option.map_some', Option.some.injEq, Prod.mk.injEq] at h4
      obtain ⟨_, h5, h6, _⟩ := h4
      exact ⟨g1, g3, rfl, h3, hd, h5, h6, by rw [h5, h6]; exact fun h => Option.noConfusion h⟩
  | fault => rw [h] at hv; exact absurd hv (by simp [OptOutcome.graph?])
  | outOfFuel => rw [h] at hv; exact absurd hv (by simp [OptOutcome.graph?])

set_option maxHeartbeats 4000000 in
/-- The chain of four transposes passes `checkValid`; the graph `optimize`
returns does not: its only tensor `x0` has no source and no targets. -/
theorem fourTranspose_validity :
    fourTransposeGraph.checkValid = true ∧
    (fourTransposeGraph.optimize 5).graph?.map
        (fun g => (g.checkValid, (g.tensorOf 0).source, (g.tensorOf 0).targets)) =
      some (false, none, []) := by
  refine ⟨by decide, by rfl⟩

/-- C15 (scenario S1, refuted on the code): the chain of four transposes of
permutation `[1,2,3,0]` passes `checkValid`, and composing the permutation
with itself four times by `permCompose` gives the identity. `optimize`
returns (after five rounds, whatever the bound on rounds) with no operator
left, hence no Transpose, but also with `x0` as the only tensor: rule 3
removes the graph output `x4` together with the identity transpose and leaves
`x0` without source and without targets, so the returned graph fails
`checkValid`. The subsequent `topo_sort` returns true and `dataMalloc` gives
`x0` the pool offset 0, while `x4` is not a tensor of the graph and receives
no address, so `x4` is not assigned the offset of `x0`. Without `optimize`,
`dataMalloc` gives `x0` and `x4` the same offset 0. -/
theorem fourTranspose_collapse :
    fourTransposeGraph.checkValid = true ∧
    (permCompose [1, 2, 3, 0] [1, 2, 3, 0] = some [2, 3, 0, 1] ∧
      permCompose [2, 3, 0, 1] [1, 2, 3, 0] = some [3, 0, 1, 2] ∧
      permCompose [3, 0, 1, 2] [1, 2, 3, 0] = some [0, 1, 2, 3] ∧
      permCompose [2, 3, 0, 1] [2, 3, 0, 1] = some [0, 1, 2, 3] ∧
      isIdentity [0, 1, 2, 3] = true) ∧
    (∃ g1 g3, (∀ fuel, fourTransposeGraph.optimize (5 + fuel) = OptOutcome.returned g1) ∧
      g1.ops = [] ∧ g1.tensors = [0] ∧
      (∀ o ∈ g1.ops, (g1.opOf o).getOpType ≠ OpType.Transpose) ∧
      g1.checkValid = false ∧
      (g1.tensorOf 0).source = none ∧ (g1.tensorOf 0).targets = [] ∧
      g1.topo_sort.1 = true ∧ g1.topo_sort.2.dataMalloc = some g3 ∧
      g3.tensors = [0] ∧ g3.offsetOf 0 = some 0 ∧
      4 ∉ g3.tensors ∧ (g3.tensorOf 4).data = none ∧ g3.offsetOf 4 = none ∧
      g3.offsetOf 4 ≠ g3.offsetOf 0) ∧
    fourTransposeGraph.dataMalloc.map (fun h => (h.offsetOf 0, h.offsetOf 4)) =
      some (some 0, some 0) := by
  refine ⟨fourTranspose_validity.1, by decide, ?_, by rfl⟩
  have hv := fourTranspose_run
  have hw := fourTranspose_validity.2
  cases h : fourTransposeGraph.optimize 5 with
  | returned g1 =>
    rw [h] at hv hw
    simp only [OptOutcome.graph?, Option.map_some', Option.some.injEq, Prod.mk.injEq] at hv hw
    obtain ⟨h1, h2, h3, h4⟩ := hv
    obtain ⟨w1, w2, w3⟩ := hw
    cases hd : g1.topo_sort.2.dataMalloc with
    | none => rw [hd] at h4; exact absurd h4 (by simp)
    | some g3 =>
      rw [hd] at h4
      simp only [Option.map_some', Option.some.injEq, Prod.mk.injEq] at h4
      obtain ⟨h5, h6, h7, h8⟩ := h4
      refine ⟨g1, g3, optimize_mono 5 _ g1 h, h2, h1, ?_, w1, w2, w3, h3, hd, h5, h6, ?_, h8,
        h7, ?_⟩
      · intro o ho; rw [h2] at ho; exact absurd ho (List.not_mem_nil _)
      · rw [h5]; decide
      · rw [h6, h7]; exact fun e => Option.noConfusion e
  | fault => rw [h] at hv; exact absurd hv (by simp [OptOutcome.graph?])
  | outOfFuel => rw [h] at hv; exact absurd hv (by simp [OptOutcome.graph?])

/-! ## A second call of `dataMalloc` -/

/-- What `topo_sort` leaves untouched, and the flag after a successful call. -/
theorem topo_sort_frame (g : GraphObj) :
    g.topo_sort.2.tensors = g.tensors ∧ g.topo_sort.2.tensorOf = g.tensorOf ∧
    g.topo_sort.2.opOf = g.opOf ∧ g.topo_sort.2.allocator = g.allocator ∧
    (g.topo_sort.1 = true → g.topo_sort.2.sorted = true) := by
  unfold GraphObj.topo_sort
  by_cases hs : g.sorted = true
  · rw [if_pos hs]
    exact ⟨rfl, rfl, rfl, rfl, fun _ => hs⟩
  · rw [if_neg hs]
    cases topoLoop g g.ops.length [] [] with
    | done r => exact ⟨rfl, rfl, rfl, rfl, fun _ => rfl⟩
    | stuck => exact ⟨rfl, rfl, rfl, rfl, fun h => absurd h (by simp)⟩
    | outOfFuel => exact ⟨rfl, rfl, rfl, rfl, fun h => absurd h (by simp)⟩

/-- The last loop of `dataMalloc` writes no flag and no source. -/
theorem installBlobs_frame (l : List TensorId) :
    ∀ (g : GraphObj) (off : PtrMap),
      (installBlobs l g off).sorted = g.sorted ∧
      ∀ t, ((installBlobs l g off).tensorOf t).source = (g.tensorOf t).source := by
  induction l with
  | nil => intro g off; exact ⟨rfl, fun _ => rfl⟩
  | cons x rest ih =>
    intro g off
    obtain ⟨g1, hg1⟩ : ∃ g1 : GraphObj, g1 =
        ({ g with allocator := (g.allocator.getPtr g.runtime).2.1,
                  runtime := (g.allocator.getPtr g.runtime).2.2 } : GraphObj).setDataBlob x
          ((g.allocator.getPtr g.runtime).1 + off.get x) := ⟨_, rfl⟩
    have hstep : installBlobs (x :: rest) g off = installBlobs rest g1 (off.touch x) := by
      rw [hg1]; rfl
    have hsorted : g1.sorted = g.sorted := by rw [hg1]; rfl
    have hsrc : ∀ t, (g1.tensorOf t).source = (g.tensorOf t).source := by
      intro t
      rw [hg1]
      simp only [GraphObj.setDataBlob, GraphObj.setTensor]
      split_ifs with h
      · rw [h]
      · rfl
    obtain ⟨i1, i2⟩ := ih g1 (off.touch x)
    rw [hstep]
    exact ⟨i1.trans hsorted, fun t => (i2 t).trans (hsrc t)⟩

/-- The first `alloc` of `dataMalloc` on a graph that has a graph input and a
materialised allocator fails. -/
theorem planInputs_sealed (g : GraphObj) (l : List TensorId) (a : Allocator) (off : PtrMap)
    (p : Nat) (hp : a.ptr = some p) (hl : l ≠ []) : planInputs g l a off = none := by
  cases l with
  | nil => exact absurd rfl hl
  | cons t rest =>
    have h : a.alloc (g.tensorOf t).getBytes = none := by
      unfold Allocator.alloc
      simp only [hp, ne_eq, reduceCtorEq, not_false_eq_true, if_true]
    unfold planInputs
    rw [h]

/-- The graph a successful `dataMalloc` returns. -/
theorem dataMalloc_some (g g2 : GraphObj) (h : g.dataMalloc = some g2) :
    ∃ (a2 : Allocator) (off2 : PtrMap), g.topo_sort.1 = true ∧
      g2 = installBlobs g.topo_sort.2.tensors
        { g.topo_sort.2 with allocator := a2 } off2 := by
  unfold GraphObj.dataMalloc at h
  cases ht : g.topo_sort with
  | mk b g1 =>
    rw [ht] at h
    cases b with
    | false => exact Option.noConfusion h
    | true =>
      simp only at h
      cases hp : planInputs g1 g1.getInputs g1.allocator [] with
      | none => rw [hp] at h; exact Option.noConfusion h
      | some r =>
        rw [hp] at h
        obtain ⟨a1, off1⟩ := r
        simp only at h
        cases ho : planOps g1 g1.ops a1 (countRefs g1) off1 with
        | none => rw [ho] at h; exact Option.noConfusion h
        | some r2 =>
          rw [ho] at h
          obtain ⟨a2, ref2, off2⟩ := r2
          simp only [Option.some.injEq] at h
          exact ⟨a2, off2, rfl, h.symm⟩

/-! ## The state a call of `dataMalloc` leaves -/

/-- A call of `dataMalloc` that returns leaves the graph it returns. -/
theorem afterDataMalloc_of_some (g g2 : GraphObj) (h : g.dataMalloc = some g2) :
    g.afterDataMalloc = g2 := by
  unfold GraphObj.dataMalloc at h
  unfold GraphObj.afterDataMalloc
  cases ht : g.topo_sort with
  | mk b g1 =>
    rw [ht] at h
    cases b with
    | false => exact Option.noConfusion h
    | true =>
      simp only at h ⊢
      cases hp : planInputs g1 g1.getInputs g1.allocator [] with
      | none => rw [hp] at h; exact Option.noConfusion h
      | some r =>
        rw [hp] at h
        obtain ⟨a1, off1⟩ := r
        simp only at h ⊢
        cases ho : planOps g1 g1.ops a1 (countRefs g1) off1 with
        | none => rw [ho] at h; exact Option.noConfusion h
        | some r2 =>
          rw [ho] at h
          obtain ⟨a2, ref2, off2⟩ := r2
          simp only [Option.some.injEq] at h ⊢
          exact h

/-- The first `alloc` on a materialised allocator throws and leaves the
allocator as it was. -/
theorem planInputsAfter_sealed (g : GraphObj) (l : List TensorId) (a : Allocator)
    (p : Nat) (hp : a.ptr = some p) : planInputsAfter g l a = a := by
  cases l with
  | nil => rfl
  | cons t rest =>
    have h : a.alloc (g.tensorOf t).getBytes = none := by
      unfold Allocator.alloc
      simp only [hp, ne_eq, reduceCtorEq, not_false_eq_true, if_true]
    unfold planInputsAfter
    rw [h]

/-- A call of `dataMalloc` on a graph with the `sorted` flag set, a graph
input and a materialised allocator throws and leaves the graph as it was. -/
theorem afterDataMalloc_sealed (g : GraphObj) (p : Nat) (hs : g.sorted = true)
    (hp : g.allocator.ptr = some p) (hin : g.getInputs ≠ []) :
    g.dataMalloc = none ∧ g.afterDataMalloc = g := by
  have htopo : g.topo_sort = (true, g) := by
    unfold GraphObj.topo_sort
    simp only [hs, if_true]
  have hplan := planInputs_sealed g g.getInputs g.allocator [] p hp hin
  constructor
  · unfold GraphObj.dataMalloc
    rw [htopo]
    simp only
    rw [hplan]
  · unfold GraphObj.afterDataMalloc
    rw [htopo]
    simp only
    rw [hplan]
    simp only
    rw [planInputsAfter_sealed g g.getInputs g.allocator p hp]

/-- C18 (`dataMalloc` is idempotent, refuted as stated): on the chain of four
tensors of 24 bytes each the first `dataMalloc` succeeds, gives the offsets
`0, 24, 0, 24` and leaves the allocator with the pointer `4096`; a second
`dataMalloc` on the graph it returned does not succeed. -/
theorem second_dataMalloc_rejected :
    (chainGraph (fun _ => [2, 3]) (fun _ => 4)).dataMalloc.map
        (fun g => (g.tensors, g.tensors.map g.offsetOf, g.allocator.ptr,
          g.dataMalloc.isSome)) =
      some ([1, 2, 3, 4], [some 0, some 24, some 0, some 24], some 4096, false) := by
  rfl

/-- C18 (as amended): when `dataMalloc` has succeeded on a graph that has at
least one graph input (a tensor without a source), the allocator of the
returned graph holds a non-null pointer, the returned graph has the same
graph inputs, and a second `dataMalloc` on it fails: its first `alloc`
meets the assertion `ptr == nullptr`. The failed call leaves the graph
object as the first call left it, so every tensor keeps the address and the
pool offset the first call assigned. -/
theorem second_dataMalloc_fails (g g2 : GraphObj) (h : g.dataMalloc = some g2)
    (hin : g.getInputs ≠ []) :
    (∃ p, g2.allocator.ptr = some p) ∧ g2.getInputs = g.getInputs ∧ g2.dataMalloc = none ∧
    g.afterDataMalloc = g2 ∧ g2.afterDataMalloc = g2 ∧
    ∀ t, (g2.afterDataMalloc.tensorOf t).data = (g2.tensorOf t).data ∧
      g2.afterDataMalloc.offsetOf t = g2.offsetOf t := by
  obtain ⟨a2, off2, ht, hg2⟩ := dataMalloc_some g g2 h
  obtain ⟨f1, f2, _, _, f5⟩ := topo_sort_frame g
  obtain ⟨g1, hg1⟩ : ∃ g1, g1 = g.topo_sort.2 := ⟨_, rfl⟩
  rw [← hg1] at hg2 f1 f2 f5
  obtain ⟨gi, hgi⟩ : ∃ gi : GraphObj, gi = { g1 with allocator := a2 } := ⟨_, rfl⟩
  have hgi_t : gi.tensors = g1.tensors := by rw [hgi]
  have hgi_s : gi.sorted = g1.sorted := by rw [hgi]
  have hgi_o : gi.tensorOf = g1.tensorOf := by rw [hgi]
  rw [← hgi] at hg2
  obtain ⟨i1, _, i3, _, _⟩ := installBlobs_spec g1.tensors gi off2
  obtain ⟨j1, j2⟩ := installBlobs_frame g1.tensors gi off2
  rw [← hg2] at i1 i3 j1 j2
  have hins1 : g1.getInputs = g.getInputs := by
    unfold GraphObj.getInputs
    rw [f1, f2]
  have hins2 : g2.getInputs = g.getInputs := by
    rw [← hins1]
    unfold GraphObj.getInputs
    rw [i1, hgi_t]
    apply List.filter_congr
    intro t _
    rw [j2 t, hgi_o]
  have hne : g1.tensors ≠ [] := by
    intro he
    apply hin
    rw [← hins1]
    unfold GraphObj.getInputs
    rw [he]; rfl
  have hptr : g2.allocator.ptr = some (gi.allocator.getPtr gi.runtime).1 := by
    rw [i3 hne]; exact getPtr_ptr _ _
  have hsorted : g2.sorted = true := by rw [j1, hgi_s]; exact f5 ht
  obtain ⟨hfail, hafter⟩ :=
    afterDataMalloc_sealed g2 _ hsorted hptr (by rw [hins2]; exact hin)
  refine ⟨⟨_, hptr⟩, hins2, hfail, afterDataMalloc_of_some g g2 h, hafter, fun t => ?_⟩
  rw [hafter]
  exact ⟨rfl, rfl⟩

/-- The amended C18 applies to the chain of four tensors of 24 bytes each. -/
theorem second_dataMalloc_fails_witness :
    ∃ g2, (chainGraph (fun _ => [2, 3]) (fun _ => 4)).dataMalloc = some g2 ∧
      (chainGraph (fun _ => [2, 3]) (fun _ => 4)).getInputs ≠ [] ∧
      ((∃ p, g2.allocator.ptr = some p) ∧
        g2.getInputs = (chainGraph (fun _ => [2, 3]) (fun _ => 4)).getInputs ∧
        g2.dataMalloc = none ∧
        (chainGraph (fun _ => [2, 3]) (fun _ => 4)).afterDataMalloc = g2 ∧
        g2.afterDataMalloc = g2 ∧
        ∀ t, (g2.afterDataMalloc.tensorOf t).data = (g2.tensorOf t).data ∧
          g2.afterDataMalloc.offsetOf t = g2.offsetOf t) := by
  obtain ⟨g2, h, _⟩ := chain_plan (fun _ => [2, 3]) (fun _ => 4) 24 (by decide)
  exact ⟨g2, h, by decide, second_dataMalloc_fails _ g2 h (by decide)⟩

/-! ## Scenario S5: a Transpose fused into a MatMul -/

/-- The shape inferred for `MatMul(A, B, transA = true)` on `A : [m,n]` and
`B : [n,k]`. -/
theorem matmulInferShape_transA (m n k : Int) :
    matmulInferShape true false [m, n] [n, k] = some (some [[n, k]]) := by
  have h1 : szSub 2 1 = 1 := by decide
  have h2 : szSub 2 2 = 0 := by decide
  show matmulInferShapeAt true false [m, n] [n, k] (szSub 2 1) (szSub 2 2) = _
  rw [h1, h2]
  rfl

set_option maxHeartbeats 4000000 in
/-- The run of `optimize` on scenario S5 with arbitrary dims, read off the
returned graph. -/
theorem fusionGraph_eval (m n k : Int) :
    ((fusionGraph m n k).optimize 2).graph?.map
      (fun g => (g.ops, g.opOf 2, (g.tensorOf 0).dims, (g.tensorOf 1).dims)) =
      some ([2], { kind := OpKind.matmul true false, inputs := [0, 1], outputs := [3],
                   predecessors := [], successors := [] }, [m, n], [n, k]) := by
  simp [GraphObj.optimize, optimizeRound, fusionGraph, rule1Match, rule2Match, rule3Match,
    isMatTrans, isIdentity, applyRule2, forSuccessors, rule2Body, GraphObj.addOpWithOutputs,
    GraphObj.addOperatorAndConnect, connectInput, connectOutput, connectSucc,
    GraphObj.removeOperator, GraphObj.removeTensor, GraphObj.setOp, GraphObj.setTensor,
    GraphObj.setSource, GraphObj.addTarget, GraphObj.removeTarget, GraphObj.addPredecessors,
    GraphObj.addSuccessors, GraphObj.removePredecessors, GraphObj.removeSuccessors,
    OperatorObj.getOutput, OperatorObj.getOpType, setAdd, OptOutcome.graph?,
    List.findSome?, List.find?, List.range, List.range.loop, blankOp, blankTensor]

/-- The run of `optimize` on scenario S5 with arbitrary dims. -/
theorem fusionGraph_run (m n k : Int) :
    ∃ g1, (fusionGraph m n k).optimize 2 = OptOutcome.returned g1 ∧
      g1.ops = [2] ∧
      g1.opOf 2 = { kind := OpKind.matmul true false, inputs := [0, 1], outputs := [3],
                    predecessors := [], successors := [] } ∧
      (g1.tensorOf 0).dims = [m, n] ∧ (g1.tensorOf 1).dims = [n, k] ∧
      g1.matmulShapes 2 = some (some [[n, k]]) := by
  have hv := fusionGraph_eval m n k
  cases h : (fusionGraph m n k).optimize 2 with
  | returned g1 =>
    rw [h] at hv
    simp only [OptOutcome.graph?, Option.map_some', Option.some.injEq, Prod.mk.injEq] at hv
    obtain ⟨h1, h2, h3, h4⟩ := hv
    refine ⟨g1, rfl, h1, h2, h3, h4, ?_⟩
    unfold GraphObj.matmulShapes
    rw [h2]
    simp only [List.getElem?_cons_zero, List.getElem?_cons_succ, h3, h4]
    exact matmulInferShape_transA m n k
  | fault => rw [h] at hv; exact absurd hv (by simp [OptOutcome.graph?])
  | outOfFuel => rw [h] at hv; exact absurd hv (by simp [OptOutcome.graph?])

/-- C14 (scenario S5, refuted as stated): with `A : [2,3]` and `B : [3,4]`
(`m = 2`, `n = 3`, `k = 4`) the operator left by `optimize` has the inferred
output shape `[3,4]`, not `[m,k] = [2,4]`. -/
theorem fused_matmul_shape_not_mk :
    ((fusionGraph 2 3 4).optimize 2).graph?.map (fun g => (g.ops, g.matmulShapes 2)) =
      some ([2], some (some [[3, 4]])) ∧
    ([3, 4] : Shape) ≠ [2, 4] := by
  refine ⟨rfl, by decide⟩

/-- C14 (as amended): for `A : [m,n]` and `B : [n,k]`, the graph
`Transpose(A, perm [1,0]) -> MatMul(., B, transA = false, transB = false)`
is rewritten by `optimize` (which returns after two rounds, whatever the
bound on rounds) into a graph whose operator list holds exactly one
operator, a MatMul with inputs `(A, B)`, `transA = true`, `transB = false`
and the old MatMul's output tensor as its output; no operator of the list is
a Transpose; and the shape `MatmulObj::inferShape` gives for that operator is
`[n,k]`. -/
theorem transpose_fused_into_matmul (m n k : Int) :
    ∃ g1, (∀ fuel, (fusionGraph m n k).optimize (2 + fuel) = OptOutcome.returned g1) ∧
      g1.ops = [2] ∧
      g1.opOf 2 = { kind := OpKind.matmul true false, inputs := [0, 1], outputs := [3],
                    predecessors := [], successors := [] } ∧
      ((fusionGraph m n k).opOf 1).outputs = [3] ∧
      (∀ o ∈ g1.ops, (g1.opOf o).getOpType ≠ OpType.Transpose) ∧
      (g1.tensorOf 0).dims = [m, n] ∧ (g1.tensorOf 1).dims = [n, k] ∧
      g1.matmulShapes 2 = some (some [[n, k]]) := by
  obtain ⟨g1, hrun, hops, hop, hA, hB, hshape⟩ := fusionGraph_run m n k
  refine ⟨g1, optimize_mono 2 _ g1 hrun, hops, hop, rfl, ?_, hA, hB, hshape⟩
  intro o ho
  rw [hops, List.mem_singleton] at ho
  subst ho
  rw [hop]
  exact fun h => OpType.noConfusion h

/-! ## `topo_sort` only reorders -/

/-- A call of `topo_sort` that returns true leaves a rearrangement of the
operator sequence, whether or not the operators were distinct. -/
theorem topo_sort_perm (g : GraphObj) (ht : g.topo_sort.1 = true) :
    g.topo_sort.2.ops.Perm g.ops := by
  by_cases hs : g.sorted = true
  · have h : g.topo_sort = (true, g) := by
      unfold GraphObj.topo_sort
      rw [if_pos hs]
    rw [h]
  · have hs2 : g.sorted = false := by
      cases hg : g.sorted with
      | true => exact absurd hg hs
      | false => rfl
    obtain ⟨hrnd, hsub, hlen, _⟩ := topo_sort_true_order g hs2 ht
    exact (hrnd.subperm hsub).perm_of_length_le hlen

/-- A call of `topo_sort` that returns false leaves the graph as it was. -/
theorem topo_sort_false_frame (g : GraphObj) (hf : g.topo_sort.1 = false) :
    g.topo_sort.2 = g := by
  unfold GraphObj.topo_sort at hf ⊢
  by_cases hs : g.sorted = true
  · rw [if_pos hs]
  · rw [if_neg hs] at hf ⊢
    cases hres : topoLoop g g.ops.length [] [] with
    | done r => rw [hres] at hf; exact absurd hf (by simp)
    | stuck => rfl
    | outOfFuel => rfl

/-- C22 (`topo_sort` only reorders): for every graph with distinct operators
in `ops`, if `topo_sort()` returns true the resulting operator sequence is a
permutation of the sequence before the call, with no operator repeated; if it
returns false, the operator sequence and the `sorted` flag, indeed the whole
graph, are as before the call. -/
theorem topo_sort_only_reorders (g : GraphObj) (hnd : g.ops.Nodup) :
    (g.topo_sort.1 = true →
      g.topo_sort.2.ops.Perm g.ops ∧ g.topo_sort.2.ops.Nodup ∧
      ∀ o, g.topo_sort.2.ops.count o = g.ops.count o) ∧
    (g.topo_sort.1 = false →
      g.topo_sort.2.ops = g.ops ∧ g.topo_sort.2.sorted = g.sorted ∧ g.topo_sort.2 = g) := by
  refine ⟨fun ht => ?_, fun hf => ?_⟩
  · have hp := topo_sort_perm g ht
    exact ⟨hp, hp.nodup_iff.2 hnd, fun o => hp.count_eq o⟩
  · have h := topo_sort_false_frame g hf
    exact ⟨by rw [h], by rw [h], h⟩

/-- Witness for C22: `topo_sort` returns true on the reversed two-operator
chain and false on the two-operator feedback loop. -/
theorem topo_sort_only_reorders_witness :
    (reversedPair.ops.Nodup ∧ reversedPair.topo_sort.1 = true ∧
      reversedPair.ops = [1, 0] ∧ reversedPair.topo_sort.2.ops = [0, 1] ∧
      reversedPair.topo_sort.2.ops.Perm reversedPair.ops) ∧
    (feedbackPair.ops.Nodup ∧ feedbackPair.topo_sort.1 = false ∧
      feedbackPair.topo_sort.2.ops = feedbackPair.ops ∧
      feedbackPair.topo_sort.2.sorted = feedbackPair.sorted) :=
  ⟨⟨by decide, by decide, by decide, by decide,
      ((topo_sort_only_reorders reversedPair (by decide)).1 (by decide)).1⟩,
    ⟨by decide, by decide,
      ((topo_sort_only_reorders feedbackPair (by decide)).2 (by decide)).1,
      ((topo_sort_only_reorders feedbackPair (by decide)).2 (by decide)).2.1⟩⟩

/-! ## Byte ranges assigned by the planner -/

/-- A graph on which `topo_sort` succeeds has no dependency cycle. -/
theorem acyclic_of_topo_sort (g : GraphObj) (hs : g.sorted = false) (hnd : g.ops.Nodup)
    (ht : g.topo_sort.1 = true) : ¬ HasCycle g := by
  obtain ⟨hrnd, hsub, hlen, hfirst, _, _⟩ := topo_sort_true_order g hs ht
  exact topoOrder_no_cycle g g.topo_sort.2.ops hnd
    ⟨(hrnd.subperm hsub).perm_of_length_le hlen, hfirst⟩

/-- The plan `dataMalloc` makes for the chain of 8, 8, 16 and 8 bytes. -/
theorem aliasChain_plan :
    aliasChain.dataMalloc.map
        (fun g => (g.ops, (g.opOf 2).inputs, (g.opOf 2).outputs, g.tensors,
          g.tensors.map g.offsetOf, g.tensors.map (fun t => (g.tensorOf t).getBytes),
          g.allocator.peak)) =
      some ([1, 2, 3], [2], [3], [1, 2, 3, 4], [some 0, some 8, some 0, some 8],
        [8, 8, 16, 8], 16) := by
  rfl

/-- The plan `dataMalloc` makes for the chain of 8, 8, 8 and 24 bytes. -/
theorem overflowChain_plan :
    overflowChain.dataMalloc.map
        (fun g => (g.ops, (g.opOf 3).outputs, g.tensors, g.tensors.map g.offsetOf,
          g.tensors.map (fun t => (g.tensorOf t).getBytes), g.allocator.peak,
          g.runtime.served)) =
      some ([1, 2, 3], [4], [1, 2, 3, 4], [some 0, some 8, some 0, some 8],
        [8, 8, 8, 24], 24, [(4096, 24)]) := by
  rfl
/-- C21 (the planner never aliases live tensors, refuted on the code): both
chains are valid and acyclic and `dataMalloc` succeeds on them. On the chain
of 8, 8, 16 and 8 bytes, operator 2 reads `t2`, planned at `[8, 16)`, and
writes `t3`, planned at `[0, 16)`: byte 8 lies in both ranges. On the chain of
8, 8, 8 and 24 bytes, the output `t4` of operator 3 is planned at `[8, 32)`
while `peak` is 24: byte 24 of its range is not inside `[0, peak)`. -/
theorem planner_aliases_live_tensors :
    (aliasChain.checkValid = true ∧ ¬ HasCycle aliasChain ∧
      ∃ g2, aliasChain.dataMalloc = some g2 ∧
        2 ∈ g2.ops ∧ 2 ∈ (g2.opOf 2).inputs ∧ 3 ∈ (g2.opOf 2).outputs ∧
        g2.offsetOf 2 = some 8 ∧ (g2.tensorOf 2).getBytes = 8 ∧
        g2.offsetOf 3 = some 0 ∧ (g2.tensorOf 3).getBytes = 16 ∧
        g2.inRange 2 8 ∧ g2.inRange 3 8 ∧ ¬ PlanDisjoint g2) ∧
    (overflowChain.checkValid = true ∧ ¬ HasCycle overflowChain ∧
      ∃ g2, overflowChain.dataMalloc = some g2 ∧
        3 ∈ g2.ops ∧ 4 ∈ (g2.opOf 3).outputs ∧
        g2.offsetOf 4 = some 8 ∧ (g2.tensorOf 4).getBytes = 24 ∧
        g2.allocator.peak = 24 ∧ g2.inRange 4 24 ∧ ¬ PlanInsidePeak g2) := by
  refine ⟨⟨by decide, acyclic_of_topo_sort _ rfl (by decide) (by decide), ?_⟩,
    ⟨by decide, acyclic_of_topo_sort _ rfl (by decide) (by decide), ?_⟩⟩
  · have hv := aliasChain_plan
    cases h : aliasChain.dataMalloc with
    | none => rw [h] at hv; exact absurd hv (by simp)
    | some g2 =>
      rw [h] at hv
      simp only [Option.map_some', Option.some.injEq, Prod.mk.injEq] at hv
      obtain ⟨hops, hin, hout, htens, hoff, hbytes, _⟩ := hv
      rw [htens] at hoff hbytes
      simp only [List.map_cons, List.map_nil, List.cons.injEq, and_true] at hoff hbytes
      obtain ⟨_, ho2, ho3, _⟩ := hoff
      obtain ⟨_, hb2, hb3, _⟩ := hbytes
      have hr2 : g2.inRange 2 8 := ⟨8, ho2, le_refl _, by rw [hb2]; decide⟩
      have hr3 : g2.inRange 3 8 := ⟨0, ho3, by decide, by rw [hb3]; decide⟩
      have hm : (2 : OpId) ∈ g2.ops := by rw [hops]; decide
      refine ⟨g2, rfl, hm, by rw [hin]; decide, by rw [hout]; decide,
        ho2, hb2, ho3, hb3, hr2, hr3, ?_⟩
      intro hd
      exact hd 2 hm 2 (by unfold GraphObj.opTensors; rw [hin, hout]; decide)
        3 (by unfold GraphObj.opTensors; rw [hin, hout]; decide) (by decide) 8 ⟨hr2, hr3⟩
  · have hv := overflowChain_plan
    cases h : overflowChain.dataMalloc with
    | none => rw [h] at hv; exact absurd hv (by simp)
    | some g2 =>
      rw [h] at hv
      simp only [Option.map_some', Option.some.injEq, Prod.mk.injEq] at hv
      obtain ⟨hops, hout, htens, hoff, hbytes, hpeak, _⟩ := hv
      rw [htens] at hoff hbytes
      simp only [List.map_cons, List.map_nil, List.cons.injEq, and_true] at hoff hbytes
      obtain ⟨_, _, _, ho4⟩ := hoff
      obtain ⟨_, _, _, hb4⟩ := hbytes
      have hr4 : g2.inRange 4 24 := ⟨8, ho4, by decide, by rw [hb4]; decide⟩
      have hm : (3 : OpId) ∈ g2.ops := by rw [hops]; decide
      refine ⟨g2, rfl, hm, by rw [hout]; decide, ho4, hb4, hpeak, hr4, ?_⟩
      intro hd
      have := hd 3 hm 4 (by unfold GraphObj.opTensors; rw [hout]; simp) 24 hr4
      rw [hpeak] at this
      exact absurd this (by decide)

end infini
